import Mathlib

/-!
Verification of the B+tree sorted-map engine of the `immutable` Go library
(`ordered_map.go`, `sets.go`) against its specification.

The Go code is shallowly embedded: every function below mirrors a function of
the source (line numbers refer to `ordered_map.go` unless stated otherwise).
Go slices become `List`s, the `(value, ok)` convention becomes `Option`,
the `*resized` out-parameter becomes a returned `Bool`, the `nil` node becomes
`Option SMNode`, and `sort.Search` (which returns the least index in `[0, n)`
satisfying a monotone predicate, or `n`) becomes `List.findIdx`.
Go's in-place slice updates on the transient (`mutable = true`) path are
modeled by the functional value they leave in the updated node.
-/

namespace Immutable

/-- Result type of `Comparer.Compare` (662-667): -1, 0 or 1 as an integer. -/
abbrev Cmp (K : Type) : Type := K → K → Int

/-- The default comparer (687-699): -1 if `i < j`, 1 if `i > j`, else 0. -/
def defaultCompare {K : Type} [LinearOrder K] (i j : K) : Int :=
  if i < j then -1 else if i > j then 1 else 0

/-- Sorted map child node limit size (13-15). -/
def sortedMapNodeSize : Nat := 32

/-- A node of the sorted-map B+tree (187-194): a leaf (353-356) holding a list
of key/value entries, or a branch (199-202, 348-351) holding a list of
(cached minimum key, child node) elements. -/
inductive SMNode (K V : Type) : Type where
  | leaf (entries : List (K × V))
  | branch (elems : List (K × SMNode K V))

namespace SMNode

/-- The minKey method (218-221, 358-361): the first entry key of a leaf, or the
recursive minKey of the first child of a branch. Go panics on an empty node;
the model returns `default` there (unreachable for well-formed trees). -/
def minKey {K V : Type} [Inhabited K] : SMNode K V → K
  | .leaf entries =>
    match entries with
    | [] => default
    | e :: _ => e.1
  | .branch elems =>
    match elems with
    | [] => default
    | e :: _ => e.2.minKey

end SMNode

/-- sortedMapLeafNode.indexOf (363-368): `sort.Search` for the first entry whose
key compares GTE (`!= -1`) to `key`; `List.findIdx` returns the first index
satisfying the predicate (or the length), which is `sort.Search`'s
specification for this predicate (monotone on sorted entries). -/
def leafIndexOf {K V : Type} (c : Cmp K) (entries : List (K × V)) (key : K) : Nat :=
  entries.findIdx fun e => c e.1 key != -1

/-- sortedMapBranchNode.indexOf (223-229): `sort.Search` for the first element
whose cached key compares `== 1` (greater) to `key`, stepping back one if
positive, else 0. -/
def branchIndexOf {K V : Type} (c : Cmp K) (elems : List (K × SMNode K V)) (key : K) : Nat :=
  let idx := elems.findIdx fun e => c e.1 key == 1
  if 0 < idx then idx - 1 else 0

mutual

/-- Node get dispatch (191, 231-235, 370-381). Go returns `(zero value, false)`
or `(value, true)`; the model returns `Option V`. A branch with no elements
would make Go panic on an out-of-range index; the model returns `none` there
(unreachable for well-formed trees). -/
def SMNode.get {K V : Type} (c : Cmp K) (key : K) : SMNode K V → Option V
  | .leaf entries =>
    let idx := leafIndexOf c entries key
    match entries[idx]? with
    | none => none
    | some e => if c e.1 key == 0 then some e.2 else none
  | .branch elems => getChild c key elems (branchIndexOf c elems key)

/-- Child dispatch `n.elems[idx].node.get(key, c)` of 232-235, written as
structural recursion over the element list. -/
def getChild {K V : Type} (c : Cmp K) (key : K) :
    List (K × SMNode K V) → Nat → Option V
  | [], _ => none
  | e :: _, 0 => SMNode.get c key e.2
  | _ :: rest, n + 1 => getChild c key rest n

end

/-- sortedMapLeafNode.set (383-434). Returns the replacement node, the split
node if the leaf grew beyond `sortedMapNodeSize`, and the resized flag.
The `mutable` branch (390-407) models the in-place append/shift/overwrite by
the entry list it leaves in the node; the persistent branch (409-433) models
the freshly allocated copies. Both compute the same entry list. -/
def sortedMapLeafNode.set {K V : Type} (c : Cmp K) (key : K) (value : V)
    (mutb : Bool) (entries : List (K × V)) :
    SMNode K V × Option (SMNode K V) × Bool :=
  let idx := leafIndexOf c entries key
  let exists_ : Bool :=
    match entries[idx]? with
    | some e => c e.1 key == 0
    | none => false
  if mutb then
    -- 390-406: if absent, append a zero entry, shift the suffix right and
    -- overwrite slot idx; if present, overwrite slot idx.
    let entries1 :=
      if exists_ then entries.set idx (key, value)
      else entries.take idx ++ (key, value) :: entries.drop idx
    if sortedMapNodeSize < entries1.length then
      let splitIdx := entries1.length / 2
      (SMNode.leaf (entries1.take splitIdx),
       some (SMNode.leaf (entries1.drop splitIdx)), !exists_)
    else
      (SMNode.leaf entries1, none, !exists_)
  else
    -- 409-433: copy with the entry overridden, or copy with the new entry
    -- inserted at idx and resized marked.
    let newEntries :=
      if exists_ then entries.set idx (key, value)
      else entries.take idx ++ (key, value) :: entries.drop idx
    if sortedMapNodeSize < newEntries.length then
      let splitIdx := newEntries.length / 2
      (SMNode.leaf (newEntries.take splitIdx),
       some (SMNode.leaf (newEntries.drop splitIdx)), !exists_)
    else
      (SMNode.leaf newEntries, none, !exists_)

mutual

/-- Node set dispatch (192, 237-297, 383-434). Branch case: delegate to the
child at `indexOf`, rebuild the element list (in place when transient, 244-261;
as a copy when persistent, 263-296) and split when it exceeds
`sortedMapNodeSize`. -/
def SMNode.set {K V : Type} [Inhabited K] (c : Cmp K) (key : K) (value : V)
    (mutb : Bool) : SMNode K V → SMNode K V × Option (SMNode K V) × Bool
  | .leaf entries => sortedMapLeafNode.set c key value mutb entries
  | .branch elems =>
    let idx := branchIndexOf c elems key
    let r := setChild c key value mutb elems idx
    let newNode := r.1
    let newElems :=
      if mutb then
        -- 245-251: overwrite slot idx, then (if the child split) append a zero
        -- element, shift right and place the split element at idx+1.
        let a := elems.set idx (newNode.minKey, newNode)
        match r.2.1 with
        | none => a
        | some s => a.take (idx + 1) ++ (s.minKey, s) :: a.drop (idx + 1)
      else
        -- 263-285: copy with slot idx replaced; on a split, a one-longer copy
        -- with the new element at idx and the split element at idx+1.
        match r.2.1 with
        | none => elems.set idx (newNode.minKey, newNode)
        | some s =>
          elems.take idx ++ (newNode.minKey, newNode) :: (s.minKey, s) ::
            elems.drop (idx + 1)
    if sortedMapNodeSize < newElems.length then
      let splitIdx := newElems.length / 2
      (SMNode.branch (newElems.take splitIdx),
       some (SMNode.branch (newElems.drop splitIdx)), r.2.2)
    else
      (SMNode.branch newElems, none, r.2.2)

/-- Child dispatch `n.elems[idx].node.set(...)` of 242, written as structural
recursion over the element list. The empty case would panic in Go
(unreachable for well-formed trees). -/
def setChild {K V : Type} [Inhabited K] (c : Cmp K) (key : K) (value : V)
    (mutb : Bool) : List (K × SMNode K V) → Nat → SMNode K V × Option (SMNode K V) × Bool
  | [], _ => (SMNode.leaf [], none, false)
  | e :: _, 0 => SMNode.set c key value mutb e.2
  | _ :: rest, n + 1 => setChild c key value mutb rest n

end

mutual

/-- Node delete dispatch (193, 299-346, 436-465). Leaf (436-465): return the
original node (resized false) when the key is absent; `nil` when the removed
key was the last; otherwise the entries without slot idx (shifted in place
when transient, 453-458; copied when persistent, 460-464). Branch (299-346):
recurse; return the original node if the child did not change; drop the child
element when the child became `nil` (or `nil` when it was the only element);
otherwise re-cache the child's min key. -/
def SMNode.delete {K V : Type} [Inhabited K] (c : Cmp K) (key : K) (mutb : Bool) :
    SMNode K V → Option (SMNode K V) × Bool
  | .leaf entries =>
    let idx := leafIndexOf c entries key
    match entries[idx]? with
    | none => (some (.leaf entries), false)
    | some e =>
      if c e.1 key != 0 then (some (.leaf entries), false)
      else if entries.length == 1 then (none, true)
      else if mutb then
        (some (.leaf (entries.take idx ++ entries.drop (idx + 1))), true)
      else
        (some (.leaf (entries.take idx ++ entries.drop (idx + 1))), true)
  | .branch elems =>
    let idx := branchIndexOf c elems key
    let r := deleteChild c key mutb elems idx
    if !r.2 then (some (.branch elems), false)
    else
      match r.1 with
      | none =>
        if elems.length == 1 then (none, true)
        else if mutb then
          (some (.branch (elems.take idx ++ elems.drop (idx + 1))), true)
        else
          (some (.branch (elems.take idx ++ elems.drop (idx + 1))), true)
      | some newNode =>
        if mutb then
          (some (.branch (elems.set idx (newNode.minKey, newNode))), true)
        else
          (some (.branch (elems.set idx (newNode.minKey, newNode))), true)

/-- Child dispatch `n.elems[idx].node.delete(...)` of 305, written as
structural recursion over the element list. The empty case would panic in Go
(unreachable for well-formed trees). -/
def deleteChild {K V : Type} [Inhabited K] (c : Cmp K) (key : K) (mutb : Bool) :
    List (K × SMNode K V) → Nat → Option (SMNode K V) × Bool
  | [], _ => (none, false)
  | e :: _, 0 => SMNode.delete c key mutb e.2
  | _ :: rest, n + 1 => deleteChild c key mutb rest n

end

/-- newSortedMapBranchNode (204-216): a branch whose elements cache each
child's min key. -/
def newSortedMapBranchNode {K V : Type} [Inhabited K]
    (children : List (SMNode K V)) : SMNode K V :=
  .branch (children.map fun ch => (ch.minKey, ch))

/-- SortedMap (17-25): the total size and the root of the B+tree (`nil` root
for the empty map). The comparer field is threaded as a parameter of the
operations instead (it is fixed once set, 56-61). Go's `size` is a signed
`int`, modeled as `Int`. -/
structure SortedMap (K V : Type) where
  size : Int
  root : Option (SMNode K V)

/-- NewSortedMap (27-34): the empty map. -/
def NewSortedMap (K V : Type) : SortedMap K V := { size := 0, root := none }

/-- SortedMap.Len (36-39). -/
def SortedMap.Len {K V : Type} (m : SortedMap K V) : Int := m.size

/-- SortedMap.Get (41-49). -/
def SortedMap.Get {K V : Type} (c : Cmp K) (m : SortedMap K V) (key : K) :
    Option V :=
  match m.root with
  | none => none
  | some n => n.get c key

/-- SortedMap.set (56-92). The clone of the receiver on the persistent path
(63-67) is a value copy, so the `mutb` flag does not change the returned value
at this level; it is passed down to the node operations. -/
def SortedMap.set {K V : Type} [Inhabited K] (c : Cmp K) (m : SortedMap K V)
    (key : K) (value : V) (mutb : Bool) : SortedMap K V :=
  match m.root with
  | none => { size := 1, root := some (.leaf [(key, value)]) }
  | some root =>
    let r := SMNode.set c key value mutb root
    let newRoot :=
      match r.2.1 with
      | some s => newSortedMapBranchNode [r.1, s]
      | none => r.1
    { size := m.size + (if r.2.2 then 1 else 0), root := some newRoot }

/-- SortedMap.Set (51-54): the persistent set. -/
def SortedMap.SetP {K V : Type} [Inhabited K] (c : Cmp K) (m : SortedMap K V)
    (key : K) (value : V) : SortedMap K V :=
  m.set c key value false

/-- SortedMap.delete (100-123): returns the receiver itself when the root is
`nil` (102-104) or the delete did not resize (106-111). -/
def SortedMap.delete {K V : Type} [Inhabited K] (c : Cmp K) (m : SortedMap K V)
    (key : K) (mutb : Bool) : SortedMap K V :=
  match m.root with
  | none => m
  | some root =>
    let r := SMNode.delete c key mutb root
    if !r.2 then m
    else { size := m.size - 1, root := r.1 }

/-- SortedMap.Delete (94-98): the persistent delete. -/
def SortedMap.DeleteP {K V : Type} [Inhabited K] (c : Cmp K) (m : SortedMap K V)
    (key : K) : SortedMap K V :=
  m.delete c key false

mutual

/-- The key/value sequence held by a node, in tree order (leaf entries, and the
concatenation of the children of a branch). This is the abstraction function
for the tree; the code has no direct counterpart. -/
def SMNode.toList {K V : Type} : SMNode K V → List (K × V)
  | .leaf entries => entries
  | .branch elems => toListL elems

/-- Concatenation of `toList` over a branch's element list. -/
def toListL {K V : Type} : List (K × SMNode K V) → List (K × V)
  | [] => []
  | e :: rest => e.2.toList ++ toListL rest

end

/-- The key/value sequence of an optional root. -/
def rootToList {K V : Type} : Option (SMNode K V) → List (K × V)
  | none => []
  | some n => n.toList

/-! ## Iterator (467-660)

The Go iterator holds a 32-deep array `stack` of `(node, index)` frames and a
`depth`; `depth == -1` means done. The model keeps the frames `stack[0..depth]`
as a list with the deepest frame first, so the done state is the empty list.
The Go array bounds the tree depth at 32; the model's list is unbounded and
agrees with the source on every tree the array can hold. -/

/-- One frame of the iterator search stack (656-660). -/
abbrev ItStack (K V : Type) := List (SMNode K V × Nat)

/-- The first() walk (601-616): set the index of the current frame to 0 and
descend into first children until a leaf is on top. An empty branch would make
Go panic; the model stops there (unreachable for well-formed trees). -/
def firstStack {K V : Type} : SMNode K V → ItStack K V → ItStack K V
  | n@(.leaf _), rest => (n, 0) :: rest
  | n@(.branch elems), rest =>
    match elems with
    | [] => (n, 0) :: rest
    | e :: _ => firstStack e.2 ((n, 0) :: rest)

/-- The last() walk (618-634): set the index of the current frame to the last
position and descend into last children until a leaf is on top. -/
def lastStack {K V : Type} : SMNode K V → ItStack K V → ItStack K V
  | n@(.leaf entries), rest => (n, entries.length - 1) :: rest
  | n@(.branch elems), rest =>
    match h : elems.getLast? with
    | none => (n, 0) :: rest
    | some e => lastStack e.2 ((n, elems.length - 1) :: rest)
termination_by n _ => sizeOf n
decreasing_by
  have hm : e ∈ elems := List.mem_of_mem_getLast? (by rw [h]; rfl)
  have h2 : sizeOf e < sizeOf elems := List.sizeOf_lt_of_mem hm
  cases e
  simp only [SMNode.branch.sizeOf_spec, Prod.mk.sizeOf_spec] at *
  omega

/-- The next() walk (537-558): starting at the deepest frame, advance the
index if possible (descending into the first leaf of the next child at a
branch), otherwise pop the frame; the empty stack is the done state. -/
def nextStack {K V : Type} : ItStack K V → ItStack K V
  | [] => []
  | (n, i) :: rest =>
    match n with
    | .leaf entries =>
      if i + 1 < entries.length then (n, i + 1) :: rest else nextStack rest
    | .branch elems =>
      if i + 1 < elems.length then
        match elems[i + 1]? with
        | some e => firstStack e.2 ((n, i + 1) :: rest)
        | none => []
      else nextStack rest

/-- The prev() walk (578-599): starting at the deepest frame, retreat the index
if possible (descending into the last leaf of the previous child at a branch),
otherwise pop the frame. -/
def prevStack {K V : Type} : ItStack K V → ItStack K V
  | [] => []
  | (n, i) :: rest =>
    match n with
    | .leaf _ =>
      if 0 < i then (n, i - 1) :: rest else prevStack rest
    | .branch elems =>
      if 0 < i then
        match elems[i - 1]? with
        | some e => lastStack e.2 ((n, i - 1) :: rest)
        | none => []
      else prevStack rest

/-- The seek() walk (636-654): set the index of the current frame by indexOf
and descend; at the leaf, if the index is past the last entry, advance with
next(). -/
def seekStack {K V : Type} (c : Cmp K) (key : K) :
    SMNode K V → ItStack K V → ItStack K V
  | n@(.leaf entries), rest =>
    let i := leafIndexOf c entries key
    if i == entries.length then nextStack ((n, i) :: rest) else (n, i) :: rest
  | n@(.branch elems), rest =>
    let i := branchIndexOf c elems key
    match h : elems[i]? with
    | some e => seekStack c key e.2 ((n, i) :: rest)
    | none => (n, i) :: rest
termination_by n _ => sizeOf n
decreasing_by
  have hm : e ∈ elems := List.getElem?_mem h
  have h2 : sizeOf e < sizeOf elems := List.sizeOf_lt_of_mem hm
  cases e
  simp only [SMNode.branch.sizeOf_spec, Prod.mk.sizeOf_spec] at *
  omega

/-- SortedMapIterator.First (481-490): empty stack for a `nil` root, else the
first() walk from the root. -/
def SortedMap.First {K V : Type} (m : SortedMap K V) : ItStack K V :=
  match m.root with
  | none => []
  | some n => firstStack n []

/-- SortedMapIterator.Last (492-501). -/
def SortedMap.Last {K V : Type} (m : SortedMap K V) : ItStack K V :=
  match m.root with
  | none => []
  | some n => lastStack n []

/-- SortedMapIterator.Seek (503-514). -/
def SortedMap.Seek {K V : Type} (c : Cmp K) (m : SortedMap K V) (key : K) :
    ItStack K V :=
  match m.root with
  | none => []
  | some n => seekStack c key n []

/-- SortedMapIterator.Done (476-479): depth -1, i.e. the empty stack. -/
def ItStack.Done {K V : Type} (st : ItStack K V) : Bool := st.isEmpty

/-- SortedMapIterator.Next (516-535): when not done, read the entry at the top
leaf frame and advance with next(). Go's type assertion to a leaf node and the
entry indexing would panic on an invalid stack; the model returns `none` and
leaves the stack (unreachable for stacks produced by the operations above on
well-formed trees). -/
def ItStack.Next {K V : Type} : ItStack K V → Option (K × V) × ItStack K V
  | [] => (none, [])
  | st@((n, i) :: _) =>
    match n with
    | .leaf entries =>
      match entries[i]? with
      | some e => (some e, nextStack st)
      | none => (none, st)
    | .branch _ => (none, st)

/-- SortedMapIterator.Prev (560-576): when not done, read the entry at the top
leaf frame and retreat with prev(). -/
def ItStack.Prev {K V : Type} : ItStack K V → Option (K × V) × ItStack K V
  | [] => (none, [])
  | st@((n, i) :: _) =>
    match n with
    | .leaf entries =>
      match entries[i]? with
      | some e => (some e, prevStack st)
      | none => (none, st)
    | .branch _ => (none, st)

/-- Fuel-bounded run of Next: the sequence of key/value pairs emitted by the
first `fuel` calls (stopping at the first `ok = false`). -/
def emitNext {K V : Type} : Nat → ItStack K V → List (K × V)
  | 0, _ => []
  | fuel + 1, st =>
    match st.Next with
    | (none, _) => []
    | (some e, st2) => e :: emitNext fuel st2

/-- Fuel-bounded run of Prev. -/
def emitPrev {K V : Type} : Nat → ItStack K V → List (K × V)
  | 0, _ => []
  | fuel + 1, st =>
    match st.Prev with
    | (none, _) => []
    | (some e, st2) => e :: emitPrev fuel st2

/-! ## Builder (138-185)

`SortedMapBuilder` holds a map pointer that is nilled by `Map()`; every method
asserts that pointer (`assert`, 728-732, panics with the given message).
The model is the optional current map, and each method returns
`Except String _` whose error is the exact panic message. -/

/-- SortedMapBuilder (138-141): the current map, `none` once published. -/
structure SortedMapBuilder (K V : Type) where
  m : Option (SortedMap K V)

/-- NewSortedMapBuilder (143-146). -/
def NewSortedMapBuilder (K V : Type) : SortedMapBuilder K V :=
  { m := some (NewSortedMap K V) }

/-- SortedMapBuilder.Map (148-155): publish the map and invalidate the
builder; panics on a duplicate call. -/
def SortedMapBuilder.Map {K V : Type} (b : SortedMapBuilder K V) :
    Except String (SortedMap K V × SortedMapBuilder K V) :=
  match b.m with
  | none => .error "immutable.SortedMapBuilder.Map(): duplicate call to fetch map"
  | some m => .ok (m, { m := none })

/-- SortedMapBuilder.Len (157-161). -/
def SortedMapBuilder.Len {K V : Type} (b : SortedMapBuilder K V) :
    Except String Int :=
  match b.m with
  | none => .error "immutable.SortedMapBuilder: builder invalid after Map() invocation"
  | some m => .ok m.Len

/-- SortedMapBuilder.Get (163-167). -/
def SortedMapBuilder.Get {K V : Type} (c : Cmp K) (b : SortedMapBuilder K V)
    (key : K) : Except String (Option V) :=
  match b.m with
  | none => .error "immutable.SortedMapBuilder: builder invalid after Map() invocation"
  | some m => .ok (m.Get c key)

/-- SortedMapBuilder.Set (169-173): the transient (mutable) set. -/
def SortedMapBuilder.Set {K V : Type} [Inhabited K] (c : Cmp K)
    (b : SortedMapBuilder K V) (key : K) (value : V) :
    Except String (SortedMapBuilder K V) :=
  match b.m with
  | none => .error "immutable.SortedMapBuilder: builder invalid after Map() invocation"
  | some m => .ok { m := some (m.set c key value true) }

/-- SortedMapBuilder.Delete (175-179): the transient (mutable) delete. -/
def SortedMapBuilder.Delete {K V : Type} [Inhabited K] (c : Cmp K)
    (b : SortedMapBuilder K V) (key : K) :
    Except String (SortedMapBuilder K V) :=
  match b.m with
  | none => .error "immutable.SortedMapBuilder: builder invalid after Map() invocation"
  | some m => .ok { m := some (m.delete c key true) }

/-- SortedMapBuilder.Iterator (181-185). -/
def SortedMapBuilder.Iterator {K V : Type} (b : SortedMapBuilder K V) :
    Except String (ItStack K V) :=
  match b.m with
  | none => .error "immutable.SortedMapBuilder: builder invalid after Map() invocation"
  | some m => .ok m.First

/-! ## Operation sequences

A common description of Set/Delete call sequences, used to compare the
persistent path, the builder path and reachability. -/

/-- One public mutating call on a sorted map. -/
inductive MapOp (K V : Type) where
  | setOp (key : K) (value : V)
  | delOp (key : K)

/-- Apply one operation on the persistent (immutable) path. -/
def applyOp {K V : Type} [Inhabited K] (c : Cmp K) (m : SortedMap K V) :
    MapOp K V → SortedMap K V
  | .setOp k v => m.set c k v false
  | .delOp k => m.delete c k false

/-- Apply a sequence of operations on the persistent path, starting from the
empty map. -/
def applyOps {K V : Type} [Inhabited K] (c : Cmp K) (ops : List (MapOp K V)) :
    SortedMap K V :=
  ops.foldl (applyOp c) (NewSortedMap K V)

/-- Run one operation through the builder (transient path). -/
def builderStep {K V : Type} [Inhabited K] (c : Cmp K)
    (b : Except String (SortedMapBuilder K V)) (op : MapOp K V) :
    Except String (SortedMapBuilder K V) :=
  match b with
  | .error e => .error e
  | .ok b =>
    match op with
    | .setOp k v => b.Set c k v
    | .delOp k => b.Delete c k

/-- Run a sequence of operations through a fresh builder and publish the map
(the transient path end to end). -/
def runBuilder {K V : Type} [Inhabited K] (c : Cmp K) (ops : List (MapOp K V)) :
    Except String (SortedMap K V) :=
  match ops.foldl (builderStep c) (.ok (NewSortedMapBuilder K V)) with
  | .error e => .error e
  | .ok b =>
    match b.Map with
    | .error e => .error e
    | .ok (m, _) => .ok m

/-! ## SortedSet (sets.go 93-140)

`SortedSet` wraps a `*SortedMap[T, struct{}]`. Its `Set` and `Delete`
(sets.go 107-125) shallow-copy the map struct with `clone()` (126-129) — the
root pointer is shared — and then run the transient (`mutable = true`) map
operations on that clone, mutating the shared tree nodes in place. -/

/-- SortedSet (sets.go 93-95): values are `struct{}`, modeled as `Unit`. -/
structure SortedSet (K : Type) where
  m : SortedMap K Unit

/-- NewSortedSet with no initial values (sets.go 97-105). -/
def NewSortedSet (K : Type) : SortedSet K := { m := NewSortedMap K Unit }

/-- SortedSet.Set (sets.go 107-115): the value of the NEW set returned to the
caller, obtained by the transient map set on the cloned struct. -/
def SortedSet.SetV {K : Type} [Inhabited K] (c : Cmp K) (s : SortedSet K)
    (val : K) : SortedSet K :=
  { m := s.m.set c val () true }

/-- SortedSet.Has (sets.go 127-130). -/
def SortedSet.Has {K : Type} (c : Cmp K) (s : SortedSet K) (val : K) : Bool :=
  (s.m.Get c val).isSome

/-- SortedSet.Len (sets.go 132-134). -/
def SortedSet.Len {K : Type} (s : SortedSet K) : Int := s.m.Len

/-- State of the ORIGINAL set `s` after `s.Set(val)` has returned (sets.go
107-115), in the case where `s`'s root is a leaf that does not split: the
clone (sets.go 109, ordered_map.go 126-129) copies only the struct, so the
original keeps its `size` field and its root pointer; the transient leaf set
(ordered_map.go 391-397) then reassigns the entry slice of that shared leaf
node in place, so the original's root observes the updated leaf. (On the
no-split path the node returned by `set` at 406 is that same mutated node.) -/
def SortedSet.origAfterSet {K : Type} [Inhabited K] (c : Cmp K)
    (s : SortedSet K) (val : K) : SortedSet K :=
  match s.m.root with
  | none => s
  | some root =>
    let r := SMNode.set c val () true root
    { m := { size := s.m.size, root := some r.1 } }

/-! ## Well-formedness

Structural well-formedness of a tree (`swB`): no node is empty and every
branch element caches exactly its child's minimum key. Together with strict
sortedness of the flattened entry sequence this is the invariant every tree
reachable through the API maintains. -/

mutual

/-- Structural well-formedness of a node (decidable, for concrete witnesses). -/
def SMNode.swB {K V : Type} [Inhabited K] [DecidableEq K] : SMNode K V → Bool
  | .leaf entries => !entries.isEmpty
  | .branch elems => !elems.isEmpty && swBL elems

/-- Structural well-formedness of a branch's element list. -/
def swBL {K V : Type} [Inhabited K] [DecidableEq K] :
    List (K × SMNode K V) → Bool
  | [] => true
  | e :: rest => SMNode.swB e.2 && (e.1 == e.2.minKey) && swBL rest

end

/-- Strict sortedness of an entry list by key (decidable). -/
def pairsSortedB {K V : Type} [LinearOrder K] : List (K × V) → Bool
  | [] => true
  | [_] => true
  | a :: b :: rest => decide (a.1 < b.1) && pairsSortedB (b :: rest)

/-- Well-formedness of a whole map value: a `nil` root with size 0, or a
structurally well-formed root with a strictly sorted entry sequence whose
length is the stored size. -/
def SortedMap.WFB {K V : Type} [Inhabited K] [LinearOrder K] [DecidableEq K]
    (m : SortedMap K V) : Bool :=
  match m.root with
  | none => m.size == 0
  | some n => n.swB && pairsSortedB n.toList &&
      (m.size == (n.toList.length : Int))

/-- The maps reachable from the empty map by Set and Delete calls under the
default comparer, on either the persistent (`mutb = false`) or the transient
builder (`mutb = true`) code path. -/
inductive Reachable {K V : Type} [Inhabited K] [LinearOrder K] :
    SortedMap K V → Prop where
  | empty : Reachable (NewSortedMap K V)
  | setR {m : SortedMap K V} (key : K) (value : V) (mutb : Bool) :
      Reachable m → Reachable (m.set defaultCompare key value mutb)
  | delR {m : SortedMap K V} (key : K) (mutb : Bool) :
      Reachable m → Reachable (m.delete defaultCompare key mutb)

/-! ## List-level specification

On sorted entry lists, the leaf index computed through `sort.Search` is the
length of the prefix of keys below the searched key, so inserting, overwriting
and deleting reduce to `takeWhile`/`dropWhile` surgery. -/

/-- The prefix of entries with keys strictly below `key`. -/
def ltPre {K V : Type} [LinearOrder K] (key : K) (l : List (K × V)) :
    List (K × V) :=
  l.takeWhile fun e => decide (e.1 < key)

/-- The suffix of entries from the first key at or above `key`. -/
def geSuf {K V : Type} [LinearOrder K] (key : K) (l : List (K × V)) :
    List (K × V) :=
  l.dropWhile fun e => decide (e.1 < key)

/-- List-level specification of a map set: overwrite the binding of `key` if
present at the head of the at-or-above suffix, else insert it there. -/
def listSet {K V : Type} [LinearOrder K] (key : K) (value : V)
    (l : List (K × V)) : List (K × V) :=
  ltPre key l ++ (key, value) ::
    (match geSuf key l with
     | [] => []
     | e :: rest => if e.1 = key then rest else e :: rest)

/-- List-level specification of a map delete: drop the binding of `key` if it
heads the at-or-above suffix, else leave the list unchanged. -/
def listDelete {K V : Type} [LinearOrder K] (key : K) (l : List (K × V)) :
    List (K × V) :=
  ltPre key l ++
    (match geSuf key l with
     | [] => []
     | e :: rest => if e.1 = key then rest else e :: rest)

/-- List-level specification of a lookup. -/
def listGet {K V : Type} [LinearOrder K] (key : K) (l : List (K × V)) :
    Option V :=
  match geSuf key l with
  | [] => none
  | e :: _ => if e.1 = key then some e.2 else none

/-! ## Pointer-identity model

The tests of the library compare collections with Go pointer equality
(`a == a.Delete(absent)`). The value embedding cannot see pointers, so the
two flags below record, directly from the source control flow, whether the
returned `*SortedMap` is the receiver pointer itself. -/

/-- Whether SortedMap.set returns the very pointer it received: the source
(63-67) runs `other := m; if !mutable { other = m.clone() }` before anything
else, so the returned map is the receiver exactly when the call is transient.
The persistent `Set` (51-54) always allocates a clone. -/
def SortedMap.setReturnsReceiver (mutb : Bool) : Bool := mutb

/-- Whether SortedMap.delete returns the very pointer it received (100-123):
it returns `m` itself when the root is nil (102-104) or when the delete did
not resize (106-111); otherwise it clones exactly when persistent (113-117). -/
def SortedMap.deleteReturnsReceiver {K V : Type} [Inhabited K] (c : Cmp K)
    (m : SortedMap K V) (key : K) (mutb : Bool) : Bool :=
  match m.root with
  | none => true
  | some root => !(SMNode.delete c key mutb root).2 || mutb

/-- Whether the root of a map is a branch node holding exactly one child
element. -/
def isSingleChildBranchRoot {K V : Type} (m : SortedMap K V) : Bool :=
  match m.root with
  | some (.branch [_]) => true
  | _ => false

/-! ## Iterator abstraction

Abstraction functions and a validity predicate for the iterator stack; these
are proof infrastructure, not source code. `restOf` is the sequence of entries
the iterator has yet to emit going forward; `doneOf` is the sequence emitted
so far (inclusive of the current entry) going backward. -/

/-- Entries strictly after the current position within one ancestor frame. -/
def frameSuf {K V : Type} : (SMNode K V × Nat) → List (K × V)
  | (.branch elems, i) => toListL (elems.drop (i + 1))
  | (.leaf entries, i) => entries.drop (i + 1)

/-- Entries strictly before the current position within one ancestor frame. -/
def framePre {K V : Type} : (SMNode K V × Nat) → List (K × V)
  | (.branch elems, i) => toListL (elems.take i)
  | (.leaf entries, i) => entries.take i

/-- Remaining entries contributed by the ancestor frames (deepest first). -/
def sufAnc {K V : Type} : ItStack K V → List (K × V)
  | [] => []
  | f :: rest => frameSuf f ++ sufAnc rest

/-- Emitted entries contributed by the ancestor frames (deepest first). -/
def preAnc {K V : Type} : ItStack K V → List (K × V)
  | [] => []
  | f :: rest => preAnc rest ++ framePre f

/-- The entries the iterator still has to emit with Next, current one first. -/
def restOf {K V : Type} : ItStack K V → List (K × V)
  | [] => []
  | (n, i) :: rest =>
    (match n with
     | .leaf entries => entries.drop i
     | .branch elems => toListL (elems.drop i)) ++ sufAnc rest

/-- The entries the iterator has reached, in forward order, current one last;
Prev emits their reverse. -/
def doneOf {K V : Type} : ItStack K V → List (K × V)
  | [] => []
  | (n, i) :: rest =>
    preAnc rest ++
    (match n with
     | .leaf entries => entries.take (i + 1)
     | .branch elems => toListL (elems.take (i + 1)))

/-- Ancestor-chain validity: each ancestor frame is a structurally well-formed
branch with an in-range index whose indexed child is the node hanging below
it. -/
inductive ValidAnc {K V : Type} [Inhabited K] [DecidableEq K] :
    SMNode K V → ItStack K V → Prop where
  | nil (n : SMNode K V) : ValidAnc n []
  | cons (n : SMNode K V) (elems : List (K × SMNode K V)) (i : Nat)
      (rest : ItStack K V)
      (hsw : (SMNode.branch elems : SMNode K V).swB = true)
      (he : ∃ e, elems[i]? = some e ∧ e.2 = n)
      (hanc : ValidAnc (.branch elems) rest) :
      ValidAnc n ((SMNode.branch elems, i) :: rest)

/-- Stack validity: empty (done), or a structurally well-formed leaf on top
with an in-range index, above a valid ancestor chain. -/
def ValidStack {K V : Type} [Inhabited K] [DecidableEq K] :
    ItStack K V → Prop
  | [] => True
  | (n, i) :: rest =>
    (∃ entries, n = SMNode.leaf entries ∧ i < entries.length) ∧ ValidAnc n rest

section CompareLemmas

variable {K : Type} [LinearOrder K]

theorem defaultCompare_beq_zero (a b : K) :
    (defaultCompare a b == 0) = decide (a = b) := by
  unfold defaultCompare
  rcases lt_trichotomy a b with h | h | h
  · simp [h, ne_of_lt h]
  · simp [h, lt_irrefl]
  · simp [h, not_lt_of_gt h, (ne_of_gt h)]

theorem defaultCompare_beq_one (a b : K) :
    (defaultCompare a b == 1) = decide (b < a) := by
  unfold defaultCompare
  rcases lt_trichotomy a b with h | h | h
  · simp [h, not_lt_of_gt h]
  · simp [h, lt_irrefl]
  · simp [h, not_lt_of_gt h]

theorem defaultCompare_bne_negOne (a b : K) :
    (defaultCompare a b != -1) = decide (b ≤ a) := by
  unfold defaultCompare
  rcases lt_trichotomy a b with h | h | h
  · simp [h, not_le_of_lt h]
  · simp [h, lt_irrefl, le_of_eq h.symm]
  · simp [h, not_lt_of_gt h, le_of_lt h]

end CompareLemmas

section FindIdxLemmas

variable {α : Type} (p : α → Bool)

theorem findIdx_eq_length_takeWhile (l : List α) :
    l.findIdx p = (l.takeWhile fun x => ! p x).length := by
  induction l with
  | nil => simp
  | cons a l ih =>
    by_cases h : p a
    · simp [List.findIdx_cons, List.takeWhile_cons, h]
    · simp only [List.findIdx_cons, List.takeWhile_cons, Bool.eq_false_iff.mpr h]
      simp [h, ih]

theorem take_findIdx (l : List α) :
    l.take (l.findIdx p) = l.takeWhile fun x => ! p x := by
  rw [findIdx_eq_length_takeWhile]
  exact (List.prefix_iff_eq_take.mp (List.takeWhile_prefix _)).symm

theorem drop_findIdx (l : List α) :
    l.drop (l.findIdx p) = l.dropWhile fun x => ! p x := by
  have h1 := List.takeWhile_append_dropWhile (l := l) (p := fun x => ! p x)
  have h2 := List.take_append_drop (l.findIdx p) l
  rw [take_findIdx] at h2
  have := h2.trans h1.symm
  exact List.append_cancel_left this

end FindIdxLemmas

section IndexLemmas

variable {K V : Type} [LinearOrder K]

/-- The leaf search predicate, negated, tests for keys strictly below. -/
theorem leaf_pred_not (key : K) :
    (fun e : K × V => ! (defaultCompare e.1 key != -1)) =
      (fun e : K × V => decide (e.1 < key)) := by
  funext e
  rw [defaultCompare_bne_negOne, ← decide_not, decide_eq_decide]
  exact not_le

theorem leafIndexOf_dc (entries : List (K × V)) (key : K) :
    leafIndexOf defaultCompare entries key = (ltPre key entries).length := by
  unfold leafIndexOf ltPre
  rw [findIdx_eq_length_takeWhile, leaf_pred_not]

theorem take_leafIndexOf (entries : List (K × V)) (key : K) :
    entries.take (leafIndexOf defaultCompare entries key) = ltPre key entries := by
  unfold leafIndexOf ltPre
  rw [take_findIdx, leaf_pred_not]

theorem drop_leafIndexOf (entries : List (K × V)) (key : K) :
    entries.drop (leafIndexOf defaultCompare entries key) = geSuf key entries := by
  have h1 := List.take_append_drop (leafIndexOf defaultCompare entries key) entries
  rw [take_leafIndexOf] at h1
  have h2 : ltPre key entries ++ geSuf key entries = entries :=
    List.takeWhile_append_dropWhile _ _
  exact List.append_cancel_left (h1.trans h2.symm)

theorem getElem?_leafIndexOf (entries : List (K × V)) (key : K) :
    entries[leafIndexOf defaultCompare entries key]? = (geSuf key entries).head? := by
  rw [← drop_leafIndexOf entries key, List.head?_drop]

/-- The head of the at-or-above suffix has a key at or above `key`. -/
theorem geSuf_head_ge (entries : List (K × V)) (key : K) (e : K × V)
    (h : (geSuf key entries).head? = some e) : key ≤ e.1 := by
  have h2 := List.head?_dropWhile_not (fun x : K × V => decide (x.1 < key)) entries
  rw [geSuf] at h
  rw [h] at h2
  simpa [le_of_not_lt, not_lt] using h2

end IndexLemmas

section DispatchLemmas

variable {K V : Type}

theorem getChild_eq (c : Cmp K) (key : K) :
    (l : List (K × SMNode K V)) → (n : Nat) →
    getChild c key l n =
      (match l[n]? with
       | some e => SMNode.get c key e.2
       | none => none)
  | [], _ => by simp [getChild]
  | e :: rest, 0 => by simp [getChild]
  | e :: rest, n + 1 => by
    rw [getChild]
    simpa using getChild_eq c key rest n

theorem setChild_eq [Inhabited K] (c : Cmp K) (key : K) (value : V) (mutb : Bool) :
    (l : List (K × SMNode K V)) → (n : Nat) →
    setChild c key value mutb l n =
      (match l[n]? with
       | some e => SMNode.set c key value mutb e.2
       | none => (SMNode.leaf [], none, false))
  | [], _ => by simp [setChild]
  | e :: rest, 0 => by simp [setChild]
  | e :: rest, n + 1 => by
    rw [setChild]
    simpa using setChild_eq c key value mutb rest n

theorem deleteChild_eq [Inhabited K] (c : Cmp K) (key : K) (mutb : Bool) :
    (l : List (K × SMNode K V)) → (n : Nat) →
    deleteChild c key mutb l n =
      (match l[n]? with
       | some e => SMNode.delete c key mutb e.2
       | none => (none, false))
  | [], _ => by simp [deleteChild]
  | e :: rest, 0 => by simp [deleteChild]
  | e :: rest, n + 1 => by
    rw [deleteChild]
    simpa using deleteChild_eq c key mutb rest n

theorem toListL_append (l1 l2 : List (K × SMNode K V)) :
    toListL (l1 ++ l2) = toListL l1 ++ toListL l2 := by
  induction l1 with
  | nil => simp [toListL]
  | cons e rest ih => simp [toListL, ih]

theorem toListL_take_drop (l : List (K × SMNode K V)) (n : Nat) :
    toListL (l.take n) ++ toListL (l.drop n) = toListL l := by
  rw [← toListL_append, List.take_append_drop]

theorem toListL_splice (l : List (K × SMNode K V)) (n : Nat) (e : K × SMNode K V)
    (h : l[n]? = some e) :
    toListL l = toListL (l.take n) ++ e.2.toList ++ toListL (l.drop (n + 1)) := by
  have hn : n < l.length := by
    by_contra hc
    rw [List.getElem?_eq_none (le_of_not_lt hc)] at h
    cases h
  have hsplice : l = l.take n ++ e :: l.drop (n + 1) := by
    have h1 : l.drop n = e :: l.drop (n + 1) := by
      have h2 : l.drop n = l[n] :: l.drop (n + 1) :=
        List.drop_eq_getElem_cons hn
      rw [List.getElem?_eq_getElem hn] at h
      rw [h2]
      congr 1
      exact Option.some_injective _ h
    calc l = l.take n ++ l.drop n := (List.take_append_drop n l).symm
    _ = l.take n ++ e :: l.drop (n + 1) := by rw [h1]
  calc toListL l = toListL (l.take n ++ e :: l.drop (n + 1)) := by rw [← hsplice]
  _ = toListL (l.take n) ++ (e.2.toList ++ toListL (l.drop (n + 1))) := by
      rw [toListL_append]; rfl
  _ = toListL (l.take n) ++ e.2.toList ++ toListL (l.drop (n + 1)) := by
      rw [List.append_assoc]

end DispatchLemmas

section LeafLemmas

variable {K V : Type} [LinearOrder K]

/-- Leaf lookup computes the list-level lookup. -/
theorem leaf_get (entries : List (K × V)) (key : K) :
    SMNode.get defaultCompare key (.leaf entries) = listGet key entries := by
  rw [SMNode.get, getElem?_leafIndexOf]
  unfold listGet
  cases hg : geSuf key entries with
  | nil => simp
  | cons e rest =>
    simp only [List.head?_cons]
    rw [defaultCompare_beq_zero]
    by_cases he : e.1 = key <;> simp [he]

/-- Splitting a too-large entry list into two leaves preserves the entry
sequence. -/
theorem splitLeaf_toList (L : List (K × V)) (r : Bool) :
    (if sortedMapNodeSize < L.length then
        ((SMNode.leaf (L.take (L.length / 2)) : SMNode K V),
          some (SMNode.leaf (L.drop (L.length / 2))), r)
      else (SMNode.leaf L, none, r)).1.toList ++
    rootToList
      (if sortedMapNodeSize < L.length then
          ((SMNode.leaf (L.take (L.length / 2)) : SMNode K V),
            some (SMNode.leaf (L.drop (L.length / 2))), r)
        else (SMNode.leaf L, none, r)).2.1 = L := by
  by_cases h : sortedMapNodeSize < L.length <;>
    simp [h, SMNode.toList, rootToList, List.take_append_drop]

/-- The entry sequence left by a leaf set (the new node, followed by the split
node when present) is the list-level set, on both code paths. -/
theorem leafSet_toList (entries : List (K × V)) (key : K) (value : V) (mutb : Bool) :
    (sortedMapLeafNode.set defaultCompare key value mutb entries).1.toList ++
      rootToList (sortedMapLeafNode.set defaultCompare key value mutb entries).2.1 =
      listSet key value entries := by
  have hmain : (if (match entries[leafIndexOf defaultCompare entries key]? with
      | some e => defaultCompare e.1 key == 0
      | none => false) = true
      then entries.set (leafIndexOf defaultCompare entries key) (key, value)
      else entries.take (leafIndexOf defaultCompare entries key) ++
        (key, value) :: entries.drop (leafIndexOf defaultCompare entries key)) =
      listSet key value entries := by
    rw [getElem?_leafIndexOf]
    unfold listSet
    cases hg : geSuf key entries with
    | nil =>
      simp only [List.head?_nil]
      rw [if_neg (by simp), take_leafIndexOf, drop_leafIndexOf, hg]
    | cons e rest =>
      simp only [List.head?_cons, defaultCompare_beq_zero]
      by_cases he : e.1 = key
      · simp only [he]
        rw [if_pos (show (decide True = true) from rfl)]
        have hlen : leafIndexOf defaultCompare entries key < entries.length := by
          by_contra hc
          have := getElem?_leafIndexOf entries key
          rw [List.getElem?_eq_none (le_of_not_lt hc), hg] at this
          cases this
        rw [List.set_eq_take_cons_drop _ hlen, take_leafIndexOf]
        have hdrop : entries.drop (leafIndexOf defaultCompare entries key + 1) = rest := by
          have h1 : entries.drop (leafIndexOf defaultCompare entries key) = e :: rest := by
            rw [drop_leafIndexOf, hg]
          have h2 := congrArg (List.drop 1) h1
          rw [List.drop_drop] at h2
          simpa using h2
        rw [hdrop]
        simp
      · simp only [he]
        rw [if_neg (by simp), take_leafIndexOf, drop_leafIndexOf, hg]
        simp
  cases mutb <;>
    simp only [sortedMapLeafNode.set, Bool.false_eq_true, if_false, if_true] <;>
    rw [splitLeaf_toList] <;>
    exact hmain

/-- The found test of a leaf set/delete agrees with the list-level lookup. -/
theorem exists_eq_isSome (entries : List (K × V)) (key : K) :
    (match entries[leafIndexOf defaultCompare entries key]? with
     | some e => defaultCompare e.1 key == 0
     | none => false) = (listGet key entries).isSome := by
  rw [getElem?_leafIndexOf]
  unfold listGet
  cases hg : geSuf key entries with
  | nil => simp
  | cons e rest =>
    simp only [List.head?_cons, defaultCompare_beq_zero]
    by_cases he : e.1 = key <;> simp [he]

/-- The resized flag of a leaf set is exactly key-absence, on both paths. -/
theorem leafSet_resized (entries : List (K × V)) (key : K) (value : V) (mutb : Bool) :
    (sortedMapLeafNode.set defaultCompare key value mutb entries).2.2 =
      !(listGet key entries).isSome := by
  rw [← exists_eq_isSome entries key]
  cases mutb <;>
    simp only [sortedMapLeafNode.set, Bool.false_eq_true, if_false, if_true] <;>
    split <;> split <;> rfl

/-- The entry sequence left by a leaf delete is the list-level delete, on both
paths. -/
theorem leafDelete_toList [Inhabited K] (entries : List (K × V)) (key : K) (mutb : Bool) :
    rootToList (SMNode.delete defaultCompare key mutb (.leaf entries)).1 =
      listDelete key entries := by
  have hsplit := List.takeWhile_append_dropWhile
    (p := fun e : K × V => decide (e.1 < key)) (l := entries)
  rw [SMNode.delete.eq_def]
  simp only []
  rw [getElem?_leafIndexOf]
  unfold listDelete
  cases hg : geSuf key entries with
  | nil =>
    simp only [List.head?_nil, rootToList, SMNode.toList, List.append_nil]
    have : ltPre key entries = entries := by
      have := hsplit
      rw [show entries.dropWhile (fun e : K × V => decide (e.1 < key)) =
        geSuf key entries from rfl, hg, List.append_nil] at this
      exact this
    rw [this]
  | cons e rest =>
    simp only [List.head?_cons]
    have hne : (defaultCompare e.1 key != 0) = !decide (e.1 = key) := by
      have hb : (defaultCompare e.1 key != 0) = !(defaultCompare e.1 key == 0) := rfl
      rw [hb, defaultCompare_beq_zero]
    rw [hne]
    by_cases he : e.1 = key
    · rw [if_neg (by simp [he])]
      have hlen : leafIndexOf defaultCompare entries key < entries.length := by
        by_contra hc
        have := getElem?_leafIndexOf entries key
        rw [List.getElem?_eq_none (le_of_not_lt hc), hg] at this
        cases this
      have hdrop : entries.drop (leafIndexOf defaultCompare entries key + 1) = rest := by
        have h1 : entries.drop (leafIndexOf defaultCompare entries key) = e :: rest := by
          rw [drop_leafIndexOf, hg]
        have h2 := congrArg (List.drop 1) h1
        rw [List.drop_drop] at h2
        simpa using h2
      by_cases h1 : entries.length = 1
      · rw [if_pos (by simpa using h1)]
        have hpre : ltPre key entries = [] ∧ rest = [] := by
          have hlenEq : entries.length = (ltPre key entries).length + (e :: rest).length := by
            rw [← List.length_append, show ltPre key entries ++ e :: rest = entries from by
              rw [← hg]; exact hsplit]
          simp only [List.length_cons, h1] at hlenEq
          constructor
          · rw [← List.length_eq_zero]; omega
          · rw [← List.length_eq_zero]; omega
        simp [rootToList, hpre.1, hpre.2, he]
      · rw [if_neg (by simpa using h1)]
        cases mutb <;>
          simp only [Bool.false_eq_true, if_false, if_true, rootToList, SMNode.toList] <;>
          rw [take_leafIndexOf, hdrop] <;>
          simp [he]
    · rw [if_pos (by simp [he])]
      simp only [rootToList, SMNode.toList, he, if_false]
      rw [← hg]
      exact (hsplit).symm

/-- The resized flag of a leaf delete is exactly key-presence, on both paths. -/
theorem leafDelete_resized [Inhabited K] (entries : List (K × V)) (key : K) (mutb : Bool) :
    (SMNode.delete defaultCompare key mutb (.leaf entries)).2 =
      (listGet key entries).isSome := by
  rw [SMNode.delete.eq_def]
  simp only []
  rw [getElem?_leafIndexOf]
  unfold listGet
  cases hg : geSuf key entries with
  | nil => simp
  | cons e rest =>
    simp only [List.head?_cons]
    have hne : (defaultCompare e.1 key != 0) = !decide (e.1 = key) := by
      have hb : (defaultCompare e.1 key != 0) = !(defaultCompare e.1 key == 0) := rfl
      rw [hb, defaultCompare_beq_zero]
    rw [hne]
    by_cases he : e.1 = key
    · rw [if_neg (by simp [he])]
      split
      · simp
      · split <;> simp
    · rw [if_pos (by simp [he])]
      simp [he]

/-- Bool sortedness is strict chaining of the keys. -/
theorem pairsSortedB_iff_chain (l : List (K × V)) :
    pairsSortedB l = true ↔ l.Chain' (fun a b => a.1 < b.1) := by
  induction l with
  | nil => simp [pairsSortedB]
  | cons a t ih =>
    cases t with
    | nil => simp [pairsSortedB]
    | cons b t2 =>
      rw [pairsSortedB, List.chain'_cons, Bool.and_eq_true, decide_eq_true_eq]
      exact and_congr Iff.rfl ih

/-- Bool sortedness gives key-pairwise ordering. -/
theorem pairsSorted_pairwise (l : List (K × V)) (h : pairsSortedB l = true) :
    l.Pairwise fun a b => a.1 < b.1 := by
  haveI : IsTrans (K × V) (fun a b => a.1 < b.1) := ⟨fun a b c h1 h2 => lt_trans h1 h2⟩
  exact List.chain'_iff_pairwise.mp ((pairsSortedB_iff_chain l).mp h)

/-- Key-pairwise ordering gives Bool sortedness. -/
theorem pairwise_pairsSorted (l : List (K × V))
    (h : l.Pairwise fun a b => a.1 < b.1) : pairsSortedB l = true := by
  haveI : IsTrans (K × V) (fun a b => a.1 < b.1) := ⟨fun a b c h1 h2 => lt_trans h1 h2⟩
  exact (pairsSortedB_iff_chain l).mpr (List.chain'_iff_pairwise.mpr h)

end LeafLemmas

section ListSpecLemmas

variable {K V : Type} [LinearOrder K]

theorem takeWhile_append_of_all {α : Type} (p : α → Bool) (A B : List α)
    (hA : ∀ x ∈ A, p x = true) :
    (A ++ B).takeWhile p = A ++ B.takeWhile p := by
  induction A with
  | nil => simp
  | cons a A ih =>
    have ih2 := ih (fun x hx => hA x (List.mem_cons_of_mem a hx))
    simp [List.takeWhile_cons, hA a (List.mem_cons_self a A), ih2]

theorem dropWhile_append_of_all {α : Type} (p : α → Bool) (A B : List α)
    (hA : ∀ x ∈ A, p x = true) :
    (A ++ B).dropWhile p = B.dropWhile p := by
  induction A with
  | nil => simp
  | cons a A ih =>
    have ih2 := ih (fun x hx => hA x (List.mem_cons_of_mem a hx))
    simp [List.dropWhile_cons, hA a (List.mem_cons_self a A), ih2]

theorem takeWhile_append_of_none {α : Type} (p : α → Bool) (B C : List α)
    (hC : ∀ x ∈ C, p x = false) :
    (B ++ C).takeWhile p = B.takeWhile p := by
  induction B with
  | nil =>
    simp only [List.nil_append, List.takeWhile_nil]
    cases C with
    | nil => simp
    | cons c C2 => simp [List.takeWhile_cons, hC c (List.mem_cons_self c C2)]
  | cons b B ih =>
    simp only [List.cons_append, List.takeWhile_cons]
    cases hp : p b
    · simp
    · simp [ih]

theorem dropWhile_append_of_none {α : Type} (p : α → Bool) (B C : List α)
    (hC : ∀ x ∈ C, p x = false) :
    (B ++ C).dropWhile p = B.dropWhile p ++ C := by
  induction B with
  | nil =>
    simp only [List.nil_append, List.dropWhile_nil]
    cases C with
    | nil => simp
    | cons c C2 => simp [List.dropWhile_cons, hC c (List.mem_cons_self c C2)]
  | cons b B ih =>
    simp only [List.cons_append, List.dropWhile_cons]
    cases hp : p b
    · simp
    · simp [ih]

/-- Lookup in a concatenation routes to the middle segment when the left keys
are strictly below and the right keys strictly above the searched key. -/
theorem listGet_mid (key : K) (A B C : List (K × V))
    (hA : ∀ x ∈ A, x.1 < key) (hC : ∀ x ∈ C, key < x.1) :
    listGet key (A ++ B ++ C) = listGet key B := by
  unfold listGet geSuf
  rw [List.append_assoc,
    dropWhile_append_of_all _ A (B ++ C) (fun x hx => by simpa using hA x hx),
    dropWhile_append_of_none _ B C (fun x hx => by
      simpa using not_lt_of_gt (hC x hx))]
  cases hB : B.dropWhile (fun e => decide (e.1 < key)) with
  | nil =>
    simp only [List.nil_append]
    cases C with
    | nil => rfl
    | cons c C2 =>
      have := hC c (List.mem_cons_self c C2)
      simp [ne_of_gt this]
  | cons e rest => simp

/-- Set in a concatenation routes to the middle segment. -/
theorem listSet_mid (key : K) (value : V) (A B C : List (K × V))
    (hA : ∀ x ∈ A, x.1 < key) (hC : ∀ x ∈ C, key < x.1) :
    listSet key value (A ++ B ++ C) = A ++ listSet key value B ++ C := by
  unfold listSet ltPre geSuf
  rw [List.append_assoc,
    takeWhile_append_of_all _ A (B ++ C) (fun x hx => by simpa using hA x hx),
    dropWhile_append_of_all _ A (B ++ C) (fun x hx => by simpa using hA x hx),
    takeWhile_append_of_none _ B C (fun x hx => by
      simpa using not_lt_of_gt (hC x hx)),
    dropWhile_append_of_none _ B C (fun x hx => by
      simpa using not_lt_of_gt (hC x hx))]
  cases hB : B.dropWhile (fun e => decide (e.1 < key)) with
  | nil =>
    simp only [List.nil_append]
    cases C with
    | nil => simp
    | cons c C2 =>
      have := hC c (List.mem_cons_self c C2)
      simp [ne_of_gt this]
  | cons e rest =>
    simp only [List.cons_append]
    by_cases he : e.1 = key <;> simp [he]

/-- Delete in a concatenation routes to the middle segment. -/
theorem listDelete_mid (key : K) (A B C : List (K × V))
    (hA : ∀ x ∈ A, x.1 < key) (hC : ∀ x ∈ C, key < x.1) :
    listDelete key (A ++ B ++ C) = A ++ listDelete key B ++ C := by
  unfold listDelete ltPre geSuf
  rw [List.append_assoc,
    takeWhile_append_of_all _ A (B ++ C) (fun x hx => by simpa using hA x hx),
    dropWhile_append_of_all _ A (B ++ C) (fun x hx => by simpa using hA x hx),
    takeWhile_append_of_none _ B C (fun x hx => by
      simpa using not_lt_of_gt (hC x hx)),
    dropWhile_append_of_none _ B C (fun x hx => by
      simpa using not_lt_of_gt (hC x hx))]
  cases hB : B.dropWhile (fun e => decide (e.1 < key)) with
  | nil =>
    simp only [List.nil_append]
    cases C with
    | nil => simp
    | cons c C2 =>
      have := hC c (List.mem_cons_self c C2)
      simp [ne_of_gt this]
  | cons e rest =>
    simp only [List.cons_append]
    by_cases he : e.1 = key <;> simp [he]

/-- A failed lookup means delete is the identity. -/
theorem listDelete_of_get_none (key : K) (l : List (K × V))
    (h : listGet key l = none) : listDelete key l = l := by
  unfold listGet at h
  unfold listDelete
  cases hg : geSuf key l with
  | nil =>
    rw [List.append_nil]
    have := List.takeWhile_append_dropWhile
      (p := fun e : K × V => decide (e.1 < key)) (l := l)
    rw [show l.dropWhile (fun e : K × V => decide (e.1 < key)) = geSuf key l
      from rfl, hg, List.append_nil] at this
    exact this
  | cons e rest =>
    rw [hg] at h
    by_cases he : e.1 = key
    · simp [he] at h
    · simp only [he, if_false]
      have := List.takeWhile_append_dropWhile
        (p := fun e : K × V => decide (e.1 < key)) (l := l)
      rw [show l.dropWhile (fun e : K × V => decide (e.1 < key)) = geSuf key l
        from rfl, hg] at this
      simpa [he] using this

/-- The prefix/suffix decomposition of an entry list at a key. -/
theorem ltPre_append_geSuf (key : K) (l : List (K × V)) :
    ltPre key l ++ geSuf key l = l :=
  List.takeWhile_append_dropWhile _ _

/-- Members of the below-prefix have keys strictly below. -/
theorem ltPre_mem (key : K) (l : List (K × V)) (x : K × V)
    (h : x ∈ ltPre key l) : x.1 < key := by
  have := List.mem_takeWhile_imp h
  simpa using this

/-- Case equations for the list-level operations, keyed by the shape of the
at-or-above suffix. -/
theorem listGet_eq_nil (key : K) (l : List (K × V)) (hg : geSuf key l = []) :
    listGet key l = none := by
  unfold listGet
  rw [hg]

theorem listGet_eq_cons (key : K) (l : List (K × V)) (e : K × V)
    (rest : List (K × V)) (hg : geSuf key l = e :: rest) :
    listGet key l = (if e.1 = key then some e.2 else none) := by
  unfold listGet
  rw [hg]

theorem listSet_eq_nil (key : K) (value : V) (l : List (K × V))
    (hg : geSuf key l = []) :
    listSet key value l = ltPre key l ++ [(key, value)] := by
  unfold listSet
  rw [hg]

theorem listSet_eq_found (key : K) (value : V) (l : List (K × V)) (e : K × V)
    (rest : List (K × V)) (hg : geSuf key l = e :: rest) (he : e.1 = key) :
    listSet key value l = ltPre key l ++ (key, value) :: rest := by
  unfold listSet
  rw [hg]
  simp [he]

theorem listSet_eq_notfound (key : K) (value : V) (l : List (K × V)) (e : K × V)
    (rest : List (K × V)) (hg : geSuf key l = e :: rest) (he : ¬ e.1 = key) :
    listSet key value l = ltPre key l ++ (key, value) :: e :: rest := by
  unfold listSet
  rw [hg]
  simp [he]

theorem listDelete_eq_nil (key : K) (l : List (K × V)) (hg : geSuf key l = []) :
    listDelete key l = l := by
  unfold listDelete
  rw [hg, List.append_nil]
  have hl := ltPre_append_geSuf key l
  rw [hg, List.append_nil] at hl
  exact hl

theorem listDelete_eq_found (key : K) (l : List (K × V)) (e : K × V)
    (rest : List (K × V)) (hg : geSuf key l = e :: rest) (he : e.1 = key) :
    listDelete key l = ltPre key l ++ rest := by
  unfold listDelete
  rw [hg]
  simp [he]

theorem listDelete_eq_notfound (key : K) (l : List (K × V)) (e : K × V)
    (rest : List (K × V)) (hg : geSuf key l = e :: rest) (he : ¬ e.1 = key) :
    listDelete key l = l := by
  unfold listDelete
  rw [hg]
  simp only [he, if_false]
  rw [← hg]
  exact ltPre_append_geSuf key l

/-- The length decomposition of an entry list at a key. -/
theorem length_eq_pre_suf (key : K) (l : List (K × V)) :
    l.length = (ltPre key l).length + (geSuf key l).length := by
  conv_lhs => rw [← ltPre_append_geSuf key l]
  rw [List.length_append]

/-- Set adds one entry when the key is absent and keeps the length when it is
present. -/
theorem listSet_length (key : K) (value : V) (l : List (K × V)) :
    (listSet key value l).length =
      l.length + (if (listGet key l).isSome then 0 else 1) := by
  have hlen := length_eq_pre_suf key l
  cases hg : geSuf key l with
  | nil =>
    rw [hg] at hlen
    rw [listSet_eq_nil key value l hg, listGet_eq_nil key l hg]
    simp [hlen]
  | cons e rest =>
    rw [hg] at hlen
    rw [listGet_eq_cons key l e rest hg]
    by_cases he : e.1 = key
    · rw [listSet_eq_found key value l e rest hg he]
      simp only [he, if_true, Option.isSome_some, List.length_append,
        List.length_cons] at hlen ⊢
      omega
    · rw [listSet_eq_notfound key value l e rest hg he]
      simp only [he, if_false, Option.isSome_none, Bool.false_eq_true,
        List.length_append, List.length_cons] at hlen ⊢
      omega

/-- Delete removes one entry when the key is present and keeps the length when
absent. -/
theorem listDelete_length (key : K) (l : List (K × V)) :
    (listDelete key l).length =
      l.length - (if (listGet key l).isSome then 1 else 0) := by
  have hlen := length_eq_pre_suf key l
  cases hg : geSuf key l with
  | nil =>
    rw [hg] at hlen
    rw [listDelete_eq_nil key l hg, listGet_eq_nil key l hg]
    simp
  | cons e rest =>
    rw [hg] at hlen
    rw [listGet_eq_cons key l e rest hg]
    by_cases he : e.1 = key
    · rw [listDelete_eq_found key l e rest hg he]
      simp only [he, if_true, Option.isSome_some, List.length_append,
        List.length_cons] at hlen ⊢
      omega
    · rw [listDelete_eq_notfound key l e rest hg he]
      simp [he]

/-- Lookup after a set of the same key returns the set value. -/
theorem listGet_listSet_self (key : K) (value : V) (l : List (K × V)) :
    listGet key (listSet key value l) = some value := by
  unfold listGet listSet geSuf
  rw [dropWhile_append_of_all _ _ _
    (fun x hx => by simpa using ltPre_mem key l x hx)]
  rw [List.dropWhile_cons]
  simp

/-- Every entry after the matched position in the at-or-above suffix has a key
strictly above, for a sorted list. -/
theorem listDelete_rest_gt (key : K) (l : List (K × V))
    (hs : l.Pairwise fun a b => a.1 < b.1) (e : K × V) (rest : List (K × V))
    (hg : geSuf key l = e :: rest) (he : e.1 = key) :
    ∀ y ∈ rest, key < y.1 := by
  intro y hy
  have hsub : (geSuf key l).Pairwise fun a b => a.1 < b.1 :=
    List.Pairwise.sublist (List.dropWhile_sublist _) hs
  rw [hg] at hsub
  have := (List.pairwise_cons.mp hsub).1 y hy
  rw [he] at this
  exact this

/-- A list whose at-or-above suffix is entirely above the key has no binding
for the key. -/
theorem listGet_none_of_all_gt (key : K) (L : List (K × V))
    (h : ∀ y ∈ geSuf key L, key < y.1) : listGet key L = none := by
  cases hg : geSuf key L with
  | nil => exact listGet_eq_nil key L hg
  | cons y t =>
    rw [listGet_eq_cons key L y t hg]
    have := h y (by rw [hg]; exact List.mem_cons_self y t)
    simp [ne_of_gt this]

/-- Lookup after deleting the key in a sorted list fails. -/
theorem listGet_listDelete_self (key : K) (l : List (K × V))
    (hs : l.Pairwise fun a b => a.1 < b.1) :
    listGet key (listDelete key l) = none := by
  cases hg : geSuf key l with
  | nil =>
    rw [listDelete_eq_nil key l hg]
    exact listGet_eq_nil key l hg
  | cons e rest =>
    by_cases he : e.1 = key
    · rw [listDelete_eq_found key l e rest hg he]
      have hgt := listDelete_rest_gt key l hs e rest hg he
      apply listGet_none_of_all_gt
      intro y hy
      have h1 : geSuf key (ltPre key l ++ rest) = geSuf key rest :=
        dropWhile_append_of_all _ _ _
          (fun x hx => by simpa using ltPre_mem key l x hx)
      rw [h1] at hy
      exact hgt y (List.Sublist.mem hy (List.dropWhile_sublist _))
    · rw [listDelete_eq_notfound key l e rest hg he,
        listGet_eq_cons key l e rest hg]
      simp [he]

/-- The entries at or above the key, strictly above when the key is taken out:
everything the set operation places after the new entry is strictly above the
key in a sorted list. -/
theorem listSet_tail_gt (key : K) (l : List (K × V))
    (hs : l.Pairwise fun a b => a.1 < b.1) :
    ∀ y ∈ (match geSuf key l with
           | [] => ([] : List (K × V))
           | e :: rest => if e.1 = key then rest else e :: rest), key < y.1 := by
  intro y hy
  cases hg : geSuf key l with
  | nil => rw [hg] at hy; cases hy
  | cons e rest =>
    rw [hg] at hy
    have hy2 : y ∈ (if e.1 = key then rest else e :: rest) := hy
    have hge : ¬ e.1 < key := by
      have := List.head?_dropWhile_not (fun x : K × V => decide (x.1 < key)) l
      rw [show l.dropWhile (fun x : K × V => decide (x.1 < key)) =
        geSuf key l from rfl, hg] at this
      simpa using this
    by_cases he : e.1 = key
    · rw [if_pos he] at hy2
      exact listDelete_rest_gt key l hs e rest hg he y hy2
    · rw [if_neg he] at hy2
      have hek : key < e.1 := lt_of_le_of_ne (le_of_not_lt hge) (Ne.symm he)
      rcases List.mem_cons.mp hy2 with h | h
      · rw [h]; exact hek
      · have hsub : (geSuf key l).Pairwise fun a b => a.1 < b.1 :=
          List.Pairwise.sublist (List.dropWhile_sublist _) hs
        rw [hg] at hsub
        exact lt_trans hek ((List.pairwise_cons.mp hsub).1 y h)

/-- Set preserves strict sortedness. -/
theorem listSet_sorted (key : K) (value : V) (l : List (K × V))
    (hs : l.Pairwise fun a b => a.1 < b.1) :
    (listSet key value l).Pairwise fun a b => a.1 < b.1 := by
  unfold listSet
  rw [List.pairwise_append]
  refine ⟨List.Pairwise.sublist (List.takeWhile_sublist _) hs, ?_, ?_⟩
  · rw [List.pairwise_cons]
    refine ⟨fun y hy => listSet_tail_gt key l hs y hy, ?_⟩
    cases hg : geSuf key l with
    | nil => simp
    | cons e rest =>
      have hsub : (geSuf key l).Pairwise fun a b => a.1 < b.1 :=
        List.Pairwise.sublist (List.dropWhile_sublist _) hs
      rw [hg] at hsub
      by_cases he : e.1 = key
      · show List.Pairwise _ (if e.1 = key then rest else e :: rest)
        rw [if_pos he]
        exact (List.pairwise_cons.mp hsub).2
      · show List.Pairwise _ (if e.1 = key then rest else e :: rest)
        rw [if_neg he]
        exact hsub
  · intro a ha b hb
    have ha2 : a.1 < key := ltPre_mem key l a ha
    rcases List.mem_cons.mp hb with h | h
    · rw [h]; exact ha2
    · exact lt_trans ha2 (listSet_tail_gt key l hs b h)

/-- Delete yields a sublist, hence preserves sortedness. -/
theorem listDelete_sublist (key : K) (l : List (K × V)) :
    (listDelete key l).Sublist l := by
  cases hg : geSuf key l with
  | nil =>
    rw [listDelete_eq_nil key l hg]
  | cons e rest =>
    by_cases he : e.1 = key
    · rw [listDelete_eq_found key l e rest hg he]
      conv_rhs => rw [← ltPre_append_geSuf key l, hg]
      exact List.Sublist.append_left (List.sublist_cons_self e rest) _
    · rw [listDelete_eq_notfound key l e rest hg he]

theorem listDelete_sorted (key : K) (l : List (K × V))
    (hs : l.Pairwise fun a b => a.1 < b.1) :
    (listDelete key l).Pairwise fun a b => a.1 < b.1 :=
  List.Pairwise.sublist (listDelete_sublist key l) hs

end ListSpecLemmas

section BranchLemmas

variable {K V : Type} [LinearOrder K] [Inhabited K]

/-- Structural well-formedness of a branch list is a pointwise condition. -/
theorem swBL_iff_forall (l : List (K × SMNode K V)) :
    swBL l = true ↔ ∀ e ∈ l, SMNode.swB e.2 = true ∧ e.1 = e.2.minKey := by
  induction l with
  | nil => simp [swBL]
  | cons e rest ih =>
    rw [swBL]
    simp only [Bool.and_eq_true, beq_iff_eq, ih]
    constructor
    · rintro ⟨⟨h1, h2⟩, h3⟩ x hx
      rcases List.mem_cons.mp hx with h | h
      · rw [h]; exact ⟨h1, h2⟩
      · exact h3 x h
    · intro h
      exact ⟨⟨(h e (List.mem_cons_self e rest)).1,
        (h e (List.mem_cons_self e rest)).2⟩,
        fun x hx => h x (List.mem_cons_of_mem e hx)⟩

/-- A structurally well-formed node flattens to a nonempty sequence headed by
its minimum key. -/
theorem swB_head : (n : SMNode K V) → n.swB = true →
    ∃ hd tl, n.toList = hd :: tl ∧ hd.1 = n.minKey
  | .leaf [], h => by simp [SMNode.swB] at h
  | .leaf (e :: tl), _ => ⟨e, tl, by simp [SMNode.toList], by simp [SMNode.minKey]⟩
  | .branch [], h => by simp [SMNode.swB] at h
  | .branch (e :: rest), h => by
    have hsw : swBL (e :: rest) = true := by
      rw [SMNode.swB] at h
      exact (Bool.and_eq_true _ _ |>.mp h).2
    have h2 := (swBL_iff_forall (e :: rest)).mp hsw e (List.mem_cons_self e rest)
    obtain ⟨hd, tl, ht, hm⟩ := swB_head e.2 h2.1
    refine ⟨hd, tl ++ toListL rest, ?_, ?_⟩
    · rw [SMNode.toList, toListL, ht]
      simp
    · rw [hm, SMNode.minKey]

/-- A structurally well-formed node has a nonempty entry sequence. -/
theorem swB_toList_ne_nil (n : SMNode K V) (h : n.swB = true) :
    n.toList ≠ [] := by
  obtain ⟨hd, tl, ht, _⟩ := swB_head n h
  rw [ht]
  exact List.cons_ne_nil hd tl

theorem findIdx_le_length {α : Type} (p : α → Bool) (l : List α) :
    l.findIdx p ≤ l.length := by
  rw [findIdx_eq_length_takeWhile]
  exact List.Sublist.length_le (List.takeWhile_sublist _)

/-- The branch index is always in range for a nonempty element list. -/
theorem branchIndexOf_lt (c : Cmp K) (elems : List (K × SMNode K V)) (key : K)
    (h : elems ≠ []) : branchIndexOf c elems key < elems.length := by
  simp only [branchIndexOf]
  have h1 := findIdx_le_length (fun e => c e.1 key == 1) elems
  have h2 : 0 < elems.length := List.length_pos.mpr h
  split <;> omega

/-- Keys in children before position `j` are strictly below the cached key of
element `j` in a sorted well-formed branch. -/
theorem branch_ub (elems : List (K × SMNode K V)) (hsw : swBL elems = true)
    (hs : (toListL elems).Pairwise fun a b => a.1 < b.1)
    (j : Nat) (e : K × SMNode K V) (he : elems[j]? = some e) :
    ∀ x ∈ toListL (elems.take j), x.1 < e.1 := by
  intro x hx
  have hmem := (swBL_iff_forall elems).mp hsw e (List.getElem?_mem he)
  obtain ⟨hd, tl, ht, hm⟩ := swB_head e.2 hmem.1
  have hsplice := toListL_splice elems j e he
  rw [hsplice, ht, List.append_assoc] at hs
  have := (List.pairwise_append.mp hs).2.2 x hx hd
    (List.mem_append_left _ (List.mem_cons_self hd tl))
  rw [hmem.2, ← hm]
  exact this

/-- The cached key of element `j` bounds every key from child `j` onward in a
sorted well-formed branch. -/
theorem branch_lb (elems : List (K × SMNode K V)) (hsw : swBL elems = true)
    (hs : (toListL elems).Pairwise fun a b => a.1 < b.1)
    (j : Nat) (e : K × SMNode K V) (he : elems[j]? = some e) :
    ∀ x ∈ toListL (elems.drop j), e.1 ≤ x.1 := by
  intro x hx
  have hmem := (swBL_iff_forall elems).mp hsw e (List.getElem?_mem he)
  obtain ⟨hd, tl, ht, hm⟩ := swB_head e.2 hmem.1
  have hj : j < elems.length := by
    by_contra hc
    rw [List.getElem?_eq_none (le_of_not_lt hc)] at he
    cases he
  have hdrop : elems.drop j = e :: elems.drop (j + 1) := by
    have h2 : elems.drop j = elems[j] :: elems.drop (j + 1) :=
      List.drop_eq_getElem_cons hj
    rw [List.getElem?_eq_getElem hj] at he
    rw [h2]
    congr 1
    exact Option.some_injective _ he
  have hsfx : (toListL (elems.drop j)).Pairwise fun a b => a.1 < b.1 := by
    have hts := toListL_take_drop elems j
    rw [← hts] at hs
    exact (List.pairwise_append.mp hs).2.1
  rw [hdrop] at hx hsfx
  have hcons : toListL (e :: elems.drop (j + 1)) =
      e.2.toList ++ toListL (elems.drop (j + 1)) := by
    rw [toListL]
  rw [hcons, ht, List.cons_append] at hx hsfx
  rcases List.mem_cons.mp hx with h2 | h2
  · rw [hmem.2, ← hm, h2]
  · have := (List.pairwise_cons.mp hsfx).1 x h2
    rw [hmem.2, ← hm]
    exact le_of_lt this

/-- Flattened membership is antitone in the drop position. -/
theorem toListL_mem_drop_mono (l : List (K × SMNode K V)) (k m : Nat)
    (hkm : k ≤ m) (x : K × V) (hx : x ∈ toListL (l.drop m)) :
    x ∈ toListL (l.drop k) := by
  have h1 : (l.drop k).drop (m - k) = l.drop m := by
    rw [List.drop_drop]
    congr 1
    omega
  have h2 := toListL_take_drop (l.drop k) (m - k)
  rw [h1] at h2
  rw [← h2]
  exact List.mem_append_right _ hx

/-- The unfolding of branchIndexOf. -/
theorem branchIndexOf_eq (c : Cmp K) (elems : List (K × SMNode K V)) (key : K) :
    branchIndexOf c elems key =
      (if 0 < elems.findIdx (fun e => c e.1 key == 1) then
        elems.findIdx (fun e => c e.1 key == 1) - 1 else 0) := by
  simp only [branchIndexOf]

/-- The child chosen by branchIndexOf receives exactly the keys the list-level
operation routes there: the flattened entries of the earlier children are
strictly below the key, those of the later children strictly above, in a
sorted well-formed branch. -/
theorem branch_route (elems : List (K × SMNode K V)) (key : K)
    (hne : elems ≠ []) (hsw : swBL elems = true)
    (hs : (toListL elems).Pairwise fun a b => a.1 < b.1) :
    ∃ e, elems[branchIndexOf defaultCompare elems key]? = some e ∧
      (∀ x ∈ toListL (elems.take (branchIndexOf defaultCompare elems key)),
        x.1 < key) ∧
      (∀ x ∈ toListL (elems.drop (branchIndexOf defaultCompare elems key + 1)),
        key < x.1) := by
  have hlt := branchIndexOf_lt defaultCompare elems key hne
  have hlen : 0 < elems.length := List.length_pos.mpr hne
  refine ⟨elems[branchIndexOf defaultCompare elems key],
    List.getElem?_eq_getElem hlt, ?_, ?_⟩
  · intro x hx
    rcases Nat.eq_zero_or_pos (branchIndexOf defaultCompare elems key) with h0 | hpos
    · rw [h0, List.take_zero] at hx
      rw [toListL] at hx
      cases hx
    · have hidxf : branchIndexOf defaultCompare elems key <
          elems.findIdx (fun e => defaultCompare e.1 key == 1) := by
        rw [branchIndexOf_eq] at hpos ⊢
        by_cases hf : 0 < elems.findIdx (fun e => defaultCompare e.1 key == 1)
        · rw [if_pos hf] at hpos ⊢
          omega
        · rw [if_neg hf] at hpos
          omega
      have hpredF := List.not_of_lt_findIdx hidxf
      have hle : (elems[branchIndexOf defaultCompare elems key]).1 ≤ key := by
        rw [defaultCompare_beq_one] at hpredF
        simpa using hpredF
      have hub := branch_ub elems hsw hs (branchIndexOf defaultCompare elems key)
        elems[branchIndexOf defaultCompare elems key]
        (List.getElem?_eq_getElem hlt) x hx
      exact lt_of_lt_of_le hub hle
  · intro x hx
    by_cases hfl : elems.findIdx (fun e => defaultCompare e.1 key == 1) <
        elems.length
    · have hpredT :
          ((fun e : K × SMNode K V => defaultCompare e.1 key == 1)
            elems[elems.findIdx (fun e => defaultCompare e.1 key == 1)]) = true :=
        List.findIdx_getElem (w := hfl)
      have hkey : key <
          (elems[elems.findIdx (fun e => defaultCompare e.1 key == 1)]).1 := by
        have hb : (defaultCompare
            (elems[elems.findIdx
              (fun e : K × SMNode K V => defaultCompare e.1 key == 1)]).1 key == 1) =
            true := hpredT
        rw [defaultCompare_beq_one] at hb
        simpa using hb
      have hfi : elems.findIdx (fun e => defaultCompare e.1 key == 1) ≤
          branchIndexOf defaultCompare elems key + 1 := by
        rw [branchIndexOf_eq]
        split <;> omega
      have hmem : x ∈ toListL
          (elems.drop (elems.findIdx (fun e => defaultCompare e.1 key == 1))) :=
        toListL_mem_drop_mono elems _ _ hfi x hx
      have hle := branch_lb elems hsw hs
        (elems.findIdx (fun e => defaultCompare e.1 key == 1))
        elems[elems.findIdx (fun e => defaultCompare e.1 key == 1)]
        (List.getElem?_eq_getElem hfl) x hmem
      exact lt_of_lt_of_le hkey hle
    · have hfe : elems.findIdx (fun e => defaultCompare e.1 key == 1) =
          elems.length :=
        le_antisymm (findIdx_le_length _ _) (le_of_not_lt hfl)
      have hdone : elems.length ≤ branchIndexOf defaultCompare elems key + 1 := by
        rw [branchIndexOf_eq, hfe]
        split <;> omega
      rw [List.drop_eq_nil_of_le hdone] at hx
      rw [toListL] at hx
      cases hx

theorem swB_leaf_iff (l : List (K × V)) :
    (SMNode.leaf l : SMNode K V).swB = true ↔ l ≠ [] := by
  rw [SMNode.swB]
  simp

theorem swB_branch_iff (l : List (K × SMNode K V)) :
    (SMNode.branch l : SMNode K V).swB = true ↔ l ≠ [] ∧ swBL l = true := by
  rw [SMNode.swB]
  simp

theorem leaf_toList (l : List (K × V)) :
    (SMNode.leaf l : SMNode K V).toList = l := by
  rw [SMNode.toList]

theorem branch_toList (l : List (K × SMNode K V)) :
    (SMNode.branch l : SMNode K V).toList = toListL l := by
  rw [SMNode.toList]

/-- Lookup on a sorted well-formed tree computes the list-level lookup on its
entry sequence. -/
theorem get_eq_listGet (key : K) :
    (n : SMNode K V) → n.swB = true →
    (n.toList.Pairwise fun a b => a.1 < b.1) →
    SMNode.get defaultCompare key n = listGet key n.toList
  | .leaf entries, _, _ => by
    rw [leaf_toList]
    exact leaf_get entries key
  | .branch elems, hsw, hs => by
    rw [branch_toList] at hs ⊢
    obtain ⟨hne, hswl⟩ := (swB_branch_iff elems).mp hsw
    obtain ⟨e, he, hA, hC⟩ := branch_route elems key hne hswl hs
    rw [SMNode.get, getChild_eq, he]
    show SMNode.get defaultCompare key e.2 = listGet key (toListL elems)
    have hsplice := toListL_splice elems (branchIndexOf defaultCompare elems key) e he
    have hparts := (swBL_iff_forall elems).mp hswl e (List.getElem?_mem he)
    have hchild_s : e.2.toList.Pairwise fun a b => a.1 < b.1 := by
      rw [hsplice] at hs
      exact (List.pairwise_append.mp ((List.pairwise_append.mp hs).1)).2.1
    rw [get_eq_listGet key e.2 hparts.1 hchild_s, hsplice]
    exact (listGet_mid key _ _ _ hA hC).symm
termination_by n => sizeOf n
decreasing_by
  have hm : e ∈ elems := List.getElem?_mem he
  have h2 : sizeOf e < sizeOf elems := List.sizeOf_lt_of_mem hm
  cases e
  simp only [SMNode.branch.sizeOf_spec, Prod.mk.sizeOf_spec] at *
  omega

/-- Replacing slot `i` and splicing an extra element after it is the canonical
take/cons/drop surgery. -/
theorem set_take_succ_drop {α : Type} (l : List α) (i : Nat) (hi : i < l.length)
    (y z : α) :
    (l.set i y).take (i + 1) ++ z :: (l.set i y).drop (i + 1) =
      l.take i ++ y :: z :: l.drop (i + 1) := by
  rw [List.set_eq_take_cons_drop y hi]
  have hlen : (l.take i).length = i := by
    rw [List.length_take]
    omega
  have h1 : (l.take i ++ y :: l.drop (i + 1)).take (i + 1) =
      l.take i ++ [y] := by
    have h3 : (l.take i ++ y :: l.drop (i + 1)).take ((l.take i).length + 1) =
        l.take i ++ (y :: l.drop (i + 1)).take 1 := List.take_append 1
    rw [hlen] at h3
    simpa using h3
  have h2 : (l.take i ++ y :: l.drop (i + 1)).drop (i + 1) = l.drop (i + 1) := by
    have h3 : (l.take i ++ y :: l.drop (i + 1)).drop ((l.take i).length + 1) =
        (y :: l.drop (i + 1)).drop 1 := List.drop_append 1
    rw [hlen] at h3
    simpa using h3
  rw [h1, h2]
  simp

/-- The leaf split packaging produces structurally well-formed leaves from a
nonempty entry list. -/
theorem splitLeaf_swB (L : List (K × V)) (r : Bool) (hne : L ≠ []) :
    (if sortedMapNodeSize < L.length then
        ((SMNode.leaf (L.take (L.length / 2)) : SMNode K V),
          some (SMNode.leaf (L.drop (L.length / 2))), r)
      else (SMNode.leaf L, none, r)).1.swB = true ∧
    (∀ s, (if sortedMapNodeSize < L.length then
        ((SMNode.leaf (L.take (L.length / 2)) : SMNode K V),
          some (SMNode.leaf (L.drop (L.length / 2))), r)
      else (SMNode.leaf L, none, r)).2.1 = some s → s.swB = true) := by
  have hlen : 0 < L.length := List.length_pos.mpr hne
  by_cases h : sortedMapNodeSize < L.length
  · rw [if_pos h]
    have hs : sortedMapNodeSize = 32 := rfl
    constructor
    · rw [swB_leaf_iff]
      apply List.ne_nil_of_length_pos
      rw [List.length_take]
      omega
    · rintro s hs2
      cases hs2
      rw [swB_leaf_iff]
      apply List.ne_nil_of_length_pos
      rw [List.length_drop]
      omega
  · rw [if_neg h]
    exact ⟨(swB_leaf_iff L).mpr hne, by rintro s hs2; cases hs2⟩

/-- The branch split packaging produces structurally well-formed branches from
a nonempty well-formed element list. -/
theorem splitBranch_swB (L : List (K × SMNode K V)) (r : Bool) (hne : L ≠ [])
    (hsw : swBL L = true) :
    (if sortedMapNodeSize < L.length then
        ((SMNode.branch (L.take (L.length / 2)) : SMNode K V),
          some (SMNode.branch (L.drop (L.length / 2))), r)
      else (SMNode.branch L, none, r)).1.swB = true ∧
    (∀ s, (if sortedMapNodeSize < L.length then
        ((SMNode.branch (L.take (L.length / 2)) : SMNode K V),
          some (SMNode.branch (L.drop (L.length / 2))), r)
      else (SMNode.branch L, none, r)).2.1 = some s → s.swB = true) := by
  have hlen : 0 < L.length := List.length_pos.mpr hne
  have hswf := (swBL_iff_forall L).mp hsw
  by_cases h : sortedMapNodeSize < L.length
  · rw [if_pos h]
    have hs : sortedMapNodeSize = 32 := rfl
    constructor
    · rw [swB_branch_iff]
      refine ⟨List.ne_nil_of_length_pos ?_, (swBL_iff_forall _).mpr
        fun e he2 => hswf e (List.Sublist.mem he2 (List.take_sublist _ _))⟩
      rw [List.length_take]
      omega
    · rintro s hs2
      cases hs2
      rw [swB_branch_iff]
      refine ⟨List.ne_nil_of_length_pos ?_, (swBL_iff_forall _).mpr
        fun e he2 => hswf e (List.Sublist.mem he2 (List.drop_sublist _ _))⟩
      rw [List.length_drop]
      omega
  · rw [if_neg h]
    exact ⟨(swB_branch_iff L).mpr ⟨hne, hsw⟩, by rintro s hs2; cases hs2⟩

/-- The branch split packaging preserves the flattened entry sequence. -/
theorem splitBranch_toList (L : List (K × SMNode K V)) (r : Bool) :
    (if sortedMapNodeSize < L.length then
        ((SMNode.branch (L.take (L.length / 2)) : SMNode K V),
          some (SMNode.branch (L.drop (L.length / 2))), r)
      else (SMNode.branch L, none, r)).1.toList ++
    rootToList
      (if sortedMapNodeSize < L.length then
          ((SMNode.branch (L.take (L.length / 2)) : SMNode K V),
            some (SMNode.branch (L.drop (L.length / 2))), r)
        else (SMNode.branch L, none, r)).2.1 = toListL L := by
  by_cases h : sortedMapNodeSize < L.length
  · rw [if_pos h]
    simp only [rootToList, branch_toList]
    exact toListL_take_drop L _
  · rw [if_neg h]
    simp only [rootToList, branch_toList, List.append_nil]

/-- The leaf set produces structurally well-formed nodes. -/
theorem leafSet_swB (entries : List (K × V)) (key : K) (value : V) (mutb : Bool) :
    (sortedMapLeafNode.set defaultCompare key value mutb entries).1.swB = true ∧
    (∀ s, (sortedMapLeafNode.set defaultCompare key value mutb entries).2.1 =
      some s → s.swB = true) := by
  cases mutb
  all_goals
    simp only [sortedMapLeafNode.set, Bool.false_eq_true, if_false, if_true]
    apply splitLeaf_swB
    by_cases hex : (match entries[leafIndexOf defaultCompare entries key]? with
      | some e => defaultCompare e.1 key == 0
      | none => false) = true
  any_goals
    rw [if_pos hex]
    intro hc
    have h0 : entries.length = 0 := by
      have := congrArg List.length hc
      rwa [List.length_set] at this
    have hnil : entries = [] := List.length_eq_zero.mp h0
    rw [hnil] at hex
    simp at hex
  all_goals
    rw [if_neg hex]
    simp

/-- The transient and persistent element-list rebuilds of a branch set
(244-261 and 263-296) compute the same element list: slot `idx` replaced, and
the split element (when present) inserted after it. -/
theorem setBranch_eq (key : K) (value : V) (mutb : Bool)
    (elems : List (K × SMNode K V))
    (hi : branchIndexOf defaultCompare elems key < elems.length) :
    SMNode.set defaultCompare key value mutb (.branch elems) =
      (let idx := branchIndexOf defaultCompare elems key
       let r := setChild defaultCompare key value mutb elems idx
       let newElems :=
         match r.2.1 with
         | none => elems.set idx (r.1.minKey, r.1)
         | some s => elems.take idx ++ (r.1.minKey, r.1) :: (s.minKey, s) ::
             elems.drop (idx + 1)
       if sortedMapNodeSize < newElems.length then
         (SMNode.branch (newElems.take (newElems.length / 2)),
          some (SMNode.branch (newElems.drop (newElems.length / 2))), r.2.2)
       else (SMNode.branch newElems, none, r.2.2)) := by
  cases mutb
  · simp only [SMNode.set, Bool.false_eq_true, if_false]
  · simp only [SMNode.set, if_true]
    cases hros : (setChild defaultCompare key value true elems
        (branchIndexOf defaultCompare elems key)).2.1 with
    | none => rfl
    | some s =>
      dsimp only
      rw [set_take_succ_drop elems (branchIndexOf defaultCompare elems key) hi]

/-- Flattening a take/cons/cons/drop splice. -/
theorem toListL_splice2 (elems : List (K × SMNode K V)) (idx : Nat)
    (y z : K × SMNode K V) :
    toListL (elems.take idx ++ y :: z :: elems.drop (idx + 1)) =
      toListL (elems.take idx) ++ (y.2.toList ++ z.2.toList) ++
        toListL (elems.drop (idx + 1)) := by
  rw [toListL_append, toListL, toListL]
  simp [List.append_assoc]

/-- Flattening a slot replacement. -/
theorem toListL_set (elems : List (K × SMNode K V)) (idx : Nat)
    (hi : idx < elems.length) (y : K × SMNode K V) :
    toListL (elems.set idx y) =
      toListL (elems.take idx) ++ y.2.toList ++ toListL (elems.drop (idx + 1)) := by
  rw [List.set_eq_take_cons_drop y hi, toListL_append, toListL]
  simp [List.append_assoc]

/-- Membership in a slot replacement. -/
theorem mem_set_cases {α : Type} (l : List α) (idx : Nat) (y x : α)
    (hx : x ∈ l.set idx y) : x ∈ l ∨ x = y := by
  rcases List.mem_or_eq_of_mem_set hx with h | h
  · exact Or.inl h
  · exact Or.inr h

/-- The branch split packaging passes the resized flag through. -/
theorem splitBranch_resized (L : List (K × SMNode K V)) (r : Bool) :
    (if sortedMapNodeSize < L.length then
        ((SMNode.branch (L.take (L.length / 2)) : SMNode K V),
          some (SMNode.branch (L.drop (L.length / 2))), r)
      else (SMNode.branch L, none, r)).2.2 = r := by
  split <;> rfl

/-- The node-level set realizes the list-level set on its entry sequence,
reports resized exactly on key-absence, and produces structurally well-formed
nodes, on both code paths. -/
theorem setNode_spec (key : K) (value : V) (mutb : Bool) :
    (n : SMNode K V) → n.swB = true →
    (n.toList.Pairwise fun a b => a.1 < b.1) →
    ((SMNode.set defaultCompare key value mutb n).1.toList ++
        rootToList (SMNode.set defaultCompare key value mutb n).2.1 =
      listSet key value n.toList) ∧
    ((SMNode.set defaultCompare key value mutb n).2.2 =
      !(listGet key n.toList).isSome) ∧
    ((SMNode.set defaultCompare key value mutb n).1.swB = true) ∧
    (∀ s, (SMNode.set defaultCompare key value mutb n).2.1 = some s →
      s.swB = true)
  | .leaf entries, _, _ => by
    have h1 : SMNode.set defaultCompare key value mutb (.leaf entries) =
        sortedMapLeafNode.set defaultCompare key value mutb entries := by
      rw [SMNode.set]
    rw [h1, leaf_toList]
    exact ⟨leafSet_toList entries key value mutb,
      leafSet_resized entries key value mutb,
      (leafSet_swB entries key value mutb).1,
      (leafSet_swB entries key value mutb).2⟩
  | .branch elems, hsw, hs => by
    rw [branch_toList] at hs ⊢
    obtain ⟨hne, hswl⟩ := (swB_branch_iff elems).mp hsw
    obtain ⟨e, he, hA, hC⟩ := branch_route elems key hne hswl hs
    have hi := branchIndexOf_lt defaultCompare elems key hne
    have hsplice := toListL_splice elems (branchIndexOf defaultCompare elems key) e he
    have hparts := (swBL_iff_forall elems).mp hswl e (List.getElem?_mem he)
    have hchild_s : e.2.toList.Pairwise fun a b => a.1 < b.1 := by
      rw [hsplice] at hs
      exact (List.pairwise_append.mp ((List.pairwise_append.mp hs).1)).2.1
    have hchild_eq : setChild defaultCompare key value mutb elems
        (branchIndexOf defaultCompare elems key) =
        SMNode.set defaultCompare key value mutb e.2 := by
      rw [setChild_eq, he]
    obtain ⟨IT, IZ, ISW1, ISW2⟩ :=
      setNode_spec key value mutb e.2 hparts.1 hchild_s
    rw [setBranch_eq key value mutb elems hi]
    simp only [hchild_eq]
    set rc := SMNode.set defaultCompare key value mutb e.2 with hrc
    have hNE : toListL
        (match rc.2.1 with
         | none => elems.set (branchIndexOf defaultCompare elems key)
             (rc.1.minKey, rc.1)
         | some s => elems.take (branchIndexOf defaultCompare elems key) ++
             (rc.1.minKey, rc.1) :: (s.minKey, s) ::
             elems.drop (branchIndexOf defaultCompare elems key + 1)) =
        toListL (elems.take (branchIndexOf defaultCompare elems key)) ++
          (rc.1.toList ++ rootToList rc.2.1) ++
          toListL (elems.drop (branchIndexOf defaultCompare elems key + 1)) := by
      cases hros : rc.2.1 with
      | none =>
        rw [toListL_set elems _ hi]
        simp [rootToList]
      | some s =>
        rw [toListL_splice2]
        simp [rootToList]
    have hNEsw : swBL
        (match rc.2.1 with
         | none => elems.set (branchIndexOf defaultCompare elems key)
             (rc.1.minKey, rc.1)
         | some s => elems.take (branchIndexOf defaultCompare elems key) ++
             (rc.1.minKey, rc.1) :: (s.minKey, s) ::
             elems.drop (branchIndexOf defaultCompare elems key + 1)) = true := by
      cases hros : rc.2.1 with
      | none =>
        apply (swBL_iff_forall _).mpr
        intro x hx
        rcases mem_set_cases _ _ _ x hx with h | h
        · exact (swBL_iff_forall elems).mp hswl x h
        · rw [h]
          exact ⟨ISW1, rfl⟩
      | some s =>
        apply (swBL_iff_forall _).mpr
        intro x hx
        rcases List.mem_append.mp hx with h | h
        · exact (swBL_iff_forall elems).mp hswl x
            (List.Sublist.mem h (List.take_sublist _ _))
        · rcases List.mem_cons.mp h with h2 | h2
          · rw [h2]; exact ⟨ISW1, rfl⟩
          · rcases List.mem_cons.mp h2 with h3 | h3
            · rw [h3]; exact ⟨ISW2 s hros, rfl⟩
            · exact (swBL_iff_forall elems).mp hswl x
                (List.Sublist.mem h3 (List.drop_sublist _ _))
    have hNEne :
        (match rc.2.1 with
         | none => elems.set (branchIndexOf defaultCompare elems key)
             (rc.1.minKey, rc.1)
         | some s => elems.take (branchIndexOf defaultCompare elems key) ++
             (rc.1.minKey, rc.1) :: (s.minKey, s) ::
             elems.drop (branchIndexOf defaultCompare elems key + 1)) ≠ [] := by
      cases hros : rc.2.1 with
      | none =>
        apply List.ne_nil_of_length_pos
        rw [List.length_set]
        omega
      | some s =>
        simp
    refine ⟨?_, ?_, (splitBranch_swB _ rc.2.2 hNEne hNEsw).1,
      (splitBranch_swB _ rc.2.2 hNEne hNEsw).2⟩
    · rw [splitBranch_toList, hNE, IT, hsplice]
      exact (listSet_mid key value _ _ _ hA hC).symm
    · rw [splitBranch_resized, IZ, hsplice, listGet_mid key _ _ _ hA hC]
termination_by n => sizeOf n
decreasing_by
  have hm : e ∈ elems := List.getElem?_mem he
  have h2 : sizeOf e < sizeOf elems := List.sizeOf_lt_of_mem hm
  cases e
  simp only [SMNode.branch.sizeOf_spec, Prod.mk.sizeOf_spec] at *
  omega

theorem rootToList_some (n : SMNode K V) : rootToList (some n) = n.toList := rfl

theorem rootToList_none : rootToList (none : Option (SMNode K V)) = [] := rfl

/-- The leaf delete produces a structurally well-formed node when it returns
one. -/
theorem leafDelete_swB (entries : List (K × V)) (key : K) (mutb : Bool)
    (hne : entries ≠ []) :
    ∀ s, (SMNode.delete defaultCompare key mutb (.leaf entries)).1 = some s →
      s.swB = true := by
  intro s hs
  rw [SMNode.delete.eq_def] at hs
  simp only [] at hs
  cases hq : entries[leafIndexOf defaultCompare entries key]? with
  | none =>
    rw [hq] at hs
    dsimp only at hs
    cases hs
    rw [swB_leaf_iff]
    exact hne
  | some e =>
    rw [hq] at hs
    dsimp only at hs
    by_cases hne0 : (defaultCompare e.1 key != 0) = true
    · rw [if_pos hne0] at hs
      cases hs
      rw [swB_leaf_iff]
      exact hne
    · rw [if_neg hne0] at hs
      by_cases h1 : (entries.length == 1) = true
      · rw [if_pos h1] at hs
        cases hs
      · rw [if_neg h1] at hs
        have hlen : leafIndexOf defaultCompare entries key < entries.length := by
          by_contra hc
          rw [List.getElem?_eq_none (le_of_not_lt hc)] at hq
          cases hq
        have hlen2 : entries.length ≠ 1 := by
          intro hc
          rw [hc] at h1
          simp at h1
        have hres : s = SMNode.leaf
            (entries.take (leafIndexOf defaultCompare entries key) ++
              entries.drop (leafIndexOf defaultCompare entries key + 1)) := by
          cases mutb
          · rw [if_neg (by simp)] at hs
            exact (Option.some_injective _ hs).symm
          · rw [if_pos rfl] at hs
            exact (Option.some_injective _ hs).symm
        rw [hres, swB_leaf_iff]
        apply List.ne_nil_of_length_pos
        rw [List.length_append, List.length_take, List.length_drop]
        omega

/-- The node-level delete realizes the list-level delete on its entry
sequence, reports resized exactly on key-presence, and produces structurally
well-formed nodes, on both code paths. -/
theorem deleteNode_spec (key : K) (mutb : Bool) :
    (n : SMNode K V) → n.swB = true →
    (n.toList.Pairwise fun a b => a.1 < b.1) →
    (rootToList (SMNode.delete defaultCompare key mutb n).1 =
      listDelete key n.toList) ∧
    ((SMNode.delete defaultCompare key mutb n).2 =
      (listGet key n.toList).isSome) ∧
    (∀ s, (SMNode.delete defaultCompare key mutb n).1 = some s → s.swB = true)
  | .leaf entries, hsw, _ => by
    rw [leaf_toList]
    exact ⟨leafDelete_toList entries key mutb,
      leafDelete_resized entries key mutb,
      leafDelete_swB entries key mutb ((swB_leaf_iff entries).mp hsw)⟩
  | .branch elems, hsw, hs => by
    rw [branch_toList] at hs ⊢
    obtain ⟨hne, hswl⟩ := (swB_branch_iff elems).mp hsw
    obtain ⟨e, he, hA, hC⟩ := branch_route elems key hne hswl hs
    have hi := branchIndexOf_lt defaultCompare elems key hne
    have hsplice := toListL_splice elems (branchIndexOf defaultCompare elems key) e he
    have hparts := (swBL_iff_forall elems).mp hswl e (List.getElem?_mem he)
    have hchild_s : e.2.toList.Pairwise fun a b => a.1 < b.1 := by
      rw [hsplice] at hs
      exact (List.pairwise_append.mp ((List.pairwise_append.mp hs).1)).2.1
    have hchild_eq : deleteChild defaultCompare key mutb elems
        (branchIndexOf defaultCompare elems key) =
        SMNode.delete defaultCompare key mutb e.2 := by
      rw [deleteChild_eq, he]
    obtain ⟨IT, IZ, ISW⟩ := deleteNode_spec key mutb e.2 hparts.1 hchild_s
    have hGet : listGet key (toListL elems) = listGet key e.2.toList := by
      rw [hsplice]
      exact listGet_mid key _ _ _ hA hC
    rw [SMNode.delete.eq_def]
    simp only []
    rw [hchild_eq]
    set rc := SMNode.delete defaultCompare key mutb e.2 with hrc
    cases hr2 : rc.2 with
    | false =>
      rw [if_pos (by rfl)]
      rw [hr2] at IZ
      have hnone : listGet key e.2.toList = none := by
        cases hlg : listGet key e.2.toList
        · rfl
        · rw [hlg] at IZ; cases IZ
      refine ⟨?_, ?_, ?_⟩
      · have hid := listDelete_of_get_none key (toListL elems)
          (by rw [hGet]; exact hnone)
        rw [hid]
        rw [rootToList, branch_toList]
      · rw [hGet, hnone]
        rfl
      · rintro s hs2
        cases hs2
        exact hsw
    | true =>
      rw [if_neg (by simp)]
      rw [hr2] at IZ
      have hsome : (listGet key e.2.toList).isSome = true := IZ.symm
      cases hres : rc.1 with
      | none =>
        rw [hres] at IT
        have hdel : listDelete key e.2.toList = [] := by
          rw [← IT]
          rfl
        by_cases h1 : (elems.length == 1) = true
        · rw [if_pos h1]
          have hlen1 : elems.length = 1 := by simpa using h1
          have hidx0 : branchIndexOf defaultCompare elems key = 0 := by omega
          have hflat : toListL elems = e.2.toList := by
            rw [hsplice, hidx0]
            rw [List.take_zero, toListL]
            rw [show elems.drop (0 + 1) = [] from
              List.drop_eq_nil_of_le (by omega), toListL]
            simp
          refine ⟨?_, ?_, ?_⟩
          · dsimp only
            rw [rootToList_none, hflat, hdel]
          · rw [hGet, hsome]
          · rintro s hs2
            dsimp only at hs2
            cases hs2
        · rw [if_neg h1]
          have hlen2 : elems.length ≠ 1 := by
            intro hc
            rw [hc] at h1
            simp at h1
          have hNE : elems.take (branchIndexOf defaultCompare elems key) ++
              elems.drop (branchIndexOf defaultCompare elems key + 1) ≠ [] := by
            apply List.ne_nil_of_length_pos
            rw [List.length_append, List.length_take, List.length_drop]
            omega
          have hT : toListL (elems.take (branchIndexOf defaultCompare elems key) ++
              elems.drop (branchIndexOf defaultCompare elems key + 1)) =
              listDelete key (toListL elems) := by
            rw [toListL_append, hsplice,
              listDelete_mid key _ _ _ hA hC, hdel]
            simp
          have hSW : swBL (elems.take (branchIndexOf defaultCompare elems key) ++
              elems.drop (branchIndexOf defaultCompare elems key + 1)) = true := by
            apply (swBL_iff_forall _).mpr
            intro x hx
            rcases List.mem_append.mp hx with h | h
            · exact (swBL_iff_forall elems).mp hswl x
                (List.Sublist.mem h (List.take_sublist _ _))
            · exact (swBL_iff_forall elems).mp hswl x
                (List.Sublist.mem h (List.drop_sublist _ _))
          refine ⟨?_, ?_, ?_⟩
          · dsimp only
            cases mutb
            · rw [if_neg (by simp)]
              dsimp only
              rw [rootToList_some, branch_toList, hT]
            · rw [if_pos rfl]
              dsimp only
              rw [rootToList_some, branch_toList, hT]
          · rw [hGet, hsome]
            cases mutb <;> rfl
          · rintro s hs2
            dsimp only at hs2
            have hseq : s = SMNode.branch
                (elems.take (branchIndexOf defaultCompare elems key) ++
                  elems.drop (branchIndexOf defaultCompare elems key + 1)) := by
              cases mutb
              · rw [if_neg (by simp)] at hs2
                exact (Option.some_injective _ hs2).symm
              · rw [if_pos rfl] at hs2
                exact (Option.some_injective _ hs2).symm
            rw [hseq, swB_branch_iff]
            exact ⟨hNE, hSW⟩
      | some newNode =>
        rw [hres] at IT
        have hdel : listDelete key e.2.toList = newNode.toList := by
          rw [← IT]
          rfl
        have hT : toListL (elems.set (branchIndexOf defaultCompare elems key)
            (newNode.minKey, newNode)) = listDelete key (toListL elems) := by
          rw [toListL_set elems _ hi, hsplice,
            listDelete_mid key _ _ _ hA hC, hdel]
        have hSW : swBL (elems.set (branchIndexOf defaultCompare elems key)
            (newNode.minKey, newNode)) = true := by
          apply (swBL_iff_forall _).mpr
          intro x hx
          rcases mem_set_cases _ _ _ x hx with h | h
          · exact (swBL_iff_forall elems).mp hswl x h
          · rw [h]
            exact ⟨ISW newNode hres, rfl⟩
        have hNE : elems.set (branchIndexOf defaultCompare elems key)
            (newNode.minKey, newNode) ≠ [] := by
          apply List.ne_nil_of_length_pos
          rw [List.length_set]
          omega
        refine ⟨?_, ?_, ?_⟩
        · dsimp only
          cases mutb
          · rw [if_neg (by simp)]
            dsimp only
            rw [rootToList_some, branch_toList, hT]
          · rw [if_pos rfl]
            dsimp only
            rw [rootToList_some, branch_toList, hT]
        · rw [hGet, hsome]
          cases mutb <;> rfl
        · rintro s hs2
          dsimp only at hs2
          have hseq : s = SMNode.branch
              (elems.set (branchIndexOf defaultCompare elems key)
                (newNode.minKey, newNode)) := by
            cases mutb
            · rw [if_neg (by simp)] at hs2
              exact (Option.some_injective _ hs2).symm
            · rw [if_pos rfl] at hs2
              exact (Option.some_injective _ hs2).symm
          rw [hseq, swB_branch_iff]
          exact ⟨hNE, hSW⟩
termination_by n => sizeOf n
decreasing_by
  have hm : e ∈ elems := List.getElem?_mem he
  have h2 : sizeOf e < sizeOf elems := List.sizeOf_lt_of_mem hm
  cases e
  simp only [SMNode.branch.sizeOf_spec, Prod.mk.sizeOf_spec] at *
  omega

end BranchLemmas

section MapLemmas

variable {K V : Type} [LinearOrder K] [Inhabited K]

/-- Characterization of map well-formedness with a `nil` root. -/
theorem WFB_none_iff (m : SortedMap K V) (h : m.root = none) :
    m.WFB = true ↔ m.size = 0 := by
  unfold SortedMap.WFB
  rw [h]
  simp

/-- Characterization of map well-formedness with a node root. -/
theorem WFB_some_iff (m : SortedMap K V) (n : SMNode K V) (h : m.root = some n) :
    m.WFB = true ↔ n.swB = true ∧ pairsSortedB n.toList = true ∧
      m.size = (n.toList.length : Int) := by
  unfold SortedMap.WFB
  rw [h]
  simp [Bool.and_eq_true, and_assoc]

/-- The facade Get computes the list-level lookup on the entry sequence of a
well-formed map. -/
theorem mapGet_spec (m : SortedMap K V) (key : K) (hwf : m.WFB = true) :
    m.Get defaultCompare key = listGet key (rootToList m.root) := by
  unfold SortedMap.Get
  cases hr : m.root with
  | none => rw [rootToList_none]; rfl
  | some n =>
    obtain ⟨hsw, hsor, _⟩ := (WFB_some_iff m n hr).mp hwf
    rw [rootToList_some]
    exact get_eq_listGet key n hsw (pairsSorted_pairwise _ hsor)

/-- The facade set (56-92) computes the list-level set on the entry sequence,
keeps the size/tree consistency, and preserves well-formedness, for both the
persistent and the transient path. -/
theorem mapSet_spec (m : SortedMap K V) (key : K) (value : V) (mutb : Bool)
    (hwf : m.WFB = true) :
    rootToList (m.set defaultCompare key value mutb).root =
      listSet key value (rootToList m.root) ∧
    (m.set defaultCompare key value mutb).WFB = true ∧
    (m.set defaultCompare key value mutb).size =
      m.size + (if (m.Get defaultCompare key).isSome then 0 else 1) ∧
    (m.set defaultCompare key value mutb).root ≠ none := by
  cases hr : m.root with
  | none =>
    have hsize := (WFB_none_iff m hr).mp hwf
    have hres : m.set defaultCompare key value mutb =
        { size := 1, root := some (.leaf [(key, value)]) } := by
      unfold SortedMap.set
      rw [hr]
    rw [hres]
    have hGetNone : m.Get defaultCompare key = none := by
      unfold SortedMap.Get
      rw [hr]
    refine ⟨?_, ?_, ?_, by simp⟩
    · rw [rootToList_some, leaf_toList, rootToList_none]
      unfold listSet ltPre geSuf
      simp
    · rw [WFB_some_iff _ (.leaf [(key, value)]) rfl, leaf_toList]
      refine ⟨(swB_leaf_iff _).mpr (by simp), by simp [pairsSortedB], by simp⟩
    · rw [hGetNone]
      simp [hsize]
  | some root =>
    obtain ⟨hsw, hsor, hsize⟩ := (WFB_some_iff m root hr).mp hwf
    obtain ⟨IT, IZ, ISW1, ISW2⟩ := setNode_spec key value mutb root hsw
      (pairsSorted_pairwise _ hsor)
    have hGet : m.Get defaultCompare key = listGet key root.toList := by
      unfold SortedMap.Get
      rw [hr]
      exact get_eq_listGet key root hsw (pairsSorted_pairwise _ hsor)
    have hres : m.set defaultCompare key value mutb =
        { size := m.size +
            (if (SMNode.set defaultCompare key value mutb root).2.2 then 1 else 0),
          root := some
            (match (SMNode.set defaultCompare key value mutb root).2.1 with
             | some s => newSortedMapBranchNode
                 [(SMNode.set defaultCompare key value mutb root).1, s]
             | none => (SMNode.set defaultCompare key value mutb root).1) } := by
      unfold SortedMap.set
      rw [hr]
    have hrootList : rootToList (m.set defaultCompare key value mutb).root =
        listSet key value root.toList := by
      rw [hres]
      cases hsp : (SMNode.set defaultCompare key value mutb root).2.1 with
      | none =>
        dsimp only
        rw [rootToList_some]
        rw [hsp, rootToList_none, List.append_nil] at IT
        exact IT
      | some s =>
        dsimp only
        rw [rootToList_some]
        unfold newSortedMapBranchNode
        rw [List.map_cons, List.map_cons, List.map_nil, branch_toList,
          toListL, toListL, toListL]
        dsimp only
        rw [List.append_nil]
        rw [hsp, rootToList_some] at IT
        exact IT
    have hsor2 : pairsSortedB (listSet key value root.toList) = true :=
      pairwise_pairsSorted _ (listSet_sorted key value _
        (pairsSorted_pairwise _ hsor))
    have hswNew : ∀ nr, (m.set defaultCompare key value mutb).root = some nr →
        nr.swB = true := by
      intro nr hnr
      rw [hres] at hnr
      dsimp only at hnr
      cases hsp : (SMNode.set defaultCompare key value mutb root).2.1 with
      | none =>
        rw [hsp] at hnr
        dsimp only at hnr
        cases hnr
        exact ISW1
      | some s =>
        rw [hsp] at hnr
        dsimp only at hnr
        cases hnr
        unfold newSortedMapBranchNode
        rw [List.map_cons, List.map_cons, List.map_nil, swB_branch_iff]
        refine ⟨by simp, (swBL_iff_forall _).mpr ?_⟩
        intro x hx
        rcases List.mem_cons.mp hx with h | h
        · rw [h]
          exact ⟨ISW1, rfl⟩
        · rcases List.mem_cons.mp h with h2 | h2
          · rw [h2]
            exact ⟨ISW2 s hsp, rfl⟩
          · cases h2
    have hsizeNew : (m.set defaultCompare key value mutb).size =
        m.size + (if (m.Get defaultCompare key).isSome then 0 else 1) := by
      rw [hres]
      dsimp only
      rw [IZ, hGet]
      cases hlg : (listGet key root.toList).isSome <;> simp
    refine ⟨?_, ?_, hsizeNew, ?_⟩
    · rw [hrootList, rootToList_some]
    · cases hnr : (m.set defaultCompare key value mutb).root with
      | none =>
        rw [hres] at hnr
        cases hnr
      | some nr =>
        rw [WFB_some_iff _ nr hnr]
        have hlist : nr.toList = listSet key value root.toList := by
          have := hrootList
          rw [hnr, rootToList_some] at this
          exact this
        refine ⟨hswNew nr hnr, by rw [hlist]; exact hsor2, ?_⟩
        rw [hlist, hsizeNew, hGet, listSet_length key value root.toList, hsize]
        cases hlg : (listGet key root.toList).isSome <;> simp
    · rw [hres]
      simp



/-- A successful list-level lookup needs a nonempty list. -/
theorem listGet_isSome_length (key : K) (l : List (K × V))
    (h : (listGet key l).isSome = true) : 0 < l.length := by
  cases hg : geSuf key l with
  | nil => rw [listGet_eq_nil key l hg] at h; cases h
  | cons e rest =>
    have := length_eq_pre_suf key l
    rw [hg] at this
    simp only [List.length_cons] at this
    omega

/-- The facade delete (100-123) computes the list-level delete on the entry
sequence, keeps the size/tree consistency, preserves well-formedness, and
returns the receiver unchanged when the key is absent, on both paths. -/
theorem mapDelete_spec (m : SortedMap K V) (key : K) (mutb : Bool)
    (hwf : m.WFB = true) :
    rootToList (m.delete defaultCompare key mutb).root =
      listDelete key (rootToList m.root) ∧
    (m.delete defaultCompare key mutb).WFB = true ∧
    (m.delete defaultCompare key mutb).size =
      m.size - (if (m.Get defaultCompare key).isSome then 1 else 0) ∧
    ((m.Get defaultCompare key).isSome = false →
      m.delete defaultCompare key mutb = m) := by
  cases hr : m.root with
  | none =>
    have hres : m.delete defaultCompare key mutb = m := by
      unfold SortedMap.delete
      rw [hr]
    have hGetNone : m.Get defaultCompare key = none := by
      unfold SortedMap.Get
      rw [hr]
    rw [hres, hGetNone, hr]
    refine ⟨?_, hwf, by simp, fun _ => rfl⟩
    rw [rootToList_none]
    unfold listDelete ltPre geSuf
    simp
  | some root =>
    obtain ⟨hsw, hsor, hsize⟩ := (WFB_some_iff m root hr).mp hwf
    obtain ⟨IT, IZ, ISW⟩ := deleteNode_spec key mutb root hsw
      (pairsSorted_pairwise _ hsor)
    have hGet : m.Get defaultCompare key = listGet key root.toList := by
      unfold SortedMap.Get
      rw [hr]
      exact get_eq_listGet key root hsw (pairsSorted_pairwise _ hsor)
    have hres : m.delete defaultCompare key mutb =
        (if !(SMNode.delete defaultCompare key mutb root).2 then m
         else { size := m.size - 1,
                root := (SMNode.delete defaultCompare key mutb root).1 }) := by
      unfold SortedMap.delete
      rw [hr]
    cases hr2 : (SMNode.delete defaultCompare key mutb root).2 with
    | false =>
      rw [hr2] at IZ
      have hnone : listGet key root.toList = none := by
        cases hlg : listGet key root.toList
        · rfl
        · rw [hlg] at IZ; cases IZ
      have hid := listDelete_of_get_none key root.toList hnone
      have hmres : m.delete defaultCompare key mutb = m := by
        rw [hres, hr2]
        simp
      rw [hmres, hGet, hnone, hr, rootToList_some]
      exact ⟨hid.symm, hwf, by simp, fun _ => rfl⟩
    | true =>
      rw [hr2] at IZ
      have hsome : (listGet key root.toList).isSome = true := IZ.symm
      have hmres : m.delete defaultCompare key mutb =
          { size := m.size - 1,
            root := (SMNode.delete defaultCompare key mutb root).1 } := by
        rw [hres, hr2]
        simp
      have hlenpos := listGet_isSome_length key root.toList hsome
      have hdlen : (listDelete key root.toList).length =
          root.toList.length - 1 := by
        rw [listDelete_length, hsome]
        simp
      refine ⟨?_, ?_, ?_, ?_⟩
      · rw [hmres, rootToList_some]
        exact IT
      · rw [hmres]
        cases hdr : (SMNode.delete defaultCompare key mutb root).1 with
        | none =>
          rw [WFB_none_iff _ rfl]
          rw [hdr, rootToList_none] at IT
          have hlen0 : (listDelete key root.toList).length = 0 := by
            rw [← IT]
            rfl
          dsimp only
          rw [hsize]
          have hl1 : root.toList.length = 1 := by omega
          rw [hl1]
          decide
        | some s =>
          rw [WFB_some_iff _ s rfl]
          rw [hdr, rootToList_some] at IT
          refine ⟨ISW s hdr, ?_, ?_⟩
          · rw [IT]
            exact pairwise_pairsSorted _
              (listDelete_sorted key _ (pairsSorted_pairwise _ hsor))
          · dsimp only
            rw [IT, hdlen, hsize]
            push_cast
            omega
      · rw [hmres, hGet, hsome]
        simp
      · intro hcon
        rw [hGet, hsome] at hcon
        cases hcon

end MapLemmas


/-! ## Supporting lemmas for the claims -/

theorem SetP_eq {K V : Type} [LinearOrder K] [Inhabited K] (c : Cmp K)
    (m : SortedMap K V) (key : K) (value : V) :
    m.SetP c key value = m.set c key value false := rfl

theorem DeleteP_eq {K V : Type} [LinearOrder K] [Inhabited K] (c : Cmp K)
    (m : SortedMap K V) (key : K) :
    m.DeleteP c key = m.delete c key false := rfl

/-- The entry sequence of a well-formed map is strictly sorted by key. -/
theorem WFB_sorted {K V : Type} [LinearOrder K] [Inhabited K]
    (m : SortedMap K V) (hwf : m.WFB = true) :
    (rootToList m.root).Pairwise fun a b => a.1 < b.1 := by
  cases hr : m.root with
  | none => rw [rootToList_none]; exact List.Pairwise.nil
  | some n =>
    obtain ⟨_, hsor, _⟩ := (WFB_some_iff m n hr).mp hwf
    rw [rootToList_some]
    exact pairsSorted_pairwise _ hsor

/-- Maps reachable through the API are well-formed. -/
theorem reachable_WFB {K V : Type} [LinearOrder K] [Inhabited K]
    (m : SortedMap K V) (h : Reachable m) : m.WFB = true := by
  induction h with
  | empty => rfl
  | setR key value mutb _ ih => exact (mapSet_spec _ key value mutb ih).2.1
  | delR key mutb _ ih => exact (mapDelete_spec _ key mutb ih).2.1


section IterLemmas

variable {K V : Type} [LinearOrder K] [Inhabited K]

/-- A list with a last element is its dropLast followed by that element. -/
theorem dropLast_concat_getLast {A : Type} (l : List A) (x : A)
    (h : l.getLast? = some x) : l.dropLast ++ [x] = l := by
  rcases List.eq_nil_or_concat l with rfl | ⟨L, b, rfl⟩
  · cases h
  · rw [List.concat_eq_append] at h ⊢
    rw [List.getLast?_concat] at h
    rw [List.dropLast_concat, Option.some_injective _ h]

/-- The first() walk lands on the first entry of the subtree: the remaining
sequence is the whole subtree followed by the ancestors' remainders, and the
stack is valid. -/
theorem firstStack_spec :
    (n : SMNode K V) → (rest : ItStack K V) → n.swB = true → ValidAnc n rest →
    restOf (firstStack n rest) = n.toList ++ sufAnc rest ∧
    ValidStack (firstStack n rest)
  | .leaf entries, rest, hsw, hanc => by
    rw [firstStack]
    refine ⟨by simp [restOf, SMNode.toList], ?_⟩
    exact ⟨⟨entries, rfl, List.length_pos.mpr ((swB_leaf_iff entries).mp hsw)⟩,
      hanc⟩
  | .branch [], rest, hsw, hanc => by
    rw [swB_branch_iff] at hsw
    exact absurd rfl hsw.1
  | .branch (e :: tail), rest, hsw, hanc => by
    obtain ⟨hne, hswl⟩ := (swB_branch_iff _).mp hsw
    have hesw : e.2.swB = true :=
      ((swBL_iff_forall _).mp hswl e (List.mem_cons_self e tail)).1
    have hanc2 : ValidAnc e.2 ((SMNode.branch (e :: tail), 0) :: rest) :=
      ValidAnc.cons _ _ 0 rest hsw ⟨e, List.getElem?_cons_zero, rfl⟩ hanc
    rw [firstStack]
    obtain ⟨h1, h2⟩ := firstStack_spec e.2
      ((SMNode.branch (e :: tail), 0) :: rest) hesw hanc2
    refine ⟨?_, h2⟩
    rw [h1, branch_toList]
    show e.2.toList ++ (toListL ((e :: tail).drop 1) ++ sufAnc rest) = _
    rw [show (e :: tail).drop 1 = tail from rfl,
      show toListL (e :: tail) = e.2.toList ++ toListL tail from rfl,
      List.append_assoc]
termination_by n _ => sizeOf n
decreasing_by
  cases e
  simp only [SMNode.branch.sizeOf_spec, Prod.mk.sizeOf_spec,
    List.cons.sizeOf_spec] at *
  omega

/-- Popping and advancing through a valid ancestor chain with next() lands on
the first not-yet-emitted entry contributed by the ancestors. -/
theorem nextStack_anc (st : ItStack K V) (n0 : SMNode K V)
    (h : ValidAnc n0 st) :
    restOf (nextStack st) = sufAnc st ∧ ValidStack (nextStack st) := by
  induction h with
  | nil n => exact ⟨rfl, trivial⟩
  | cons n elems i rest hsw he hanc ih =>
    obtain ⟨e, hei, hen⟩ := he
    have hswl := ((swB_branch_iff elems).mp hsw).2
    rw [nextStack]
    by_cases hlt : i + 1 < elems.length
    · rw [if_pos hlt]
      cases he2 : elems[i + 1]? with
      | none =>
        rw [List.getElem?_eq_getElem hlt] at he2
        cases he2
      | some e2 =>
        dsimp only
        have hesw : e2.2.swB = true :=
          ((swBL_iff_forall elems).mp hswl e2 (List.getElem?_mem he2)).1
        obtain ⟨h1, h2⟩ := firstStack_spec e2.2
          ((SMNode.branch elems, i + 1) :: rest) hesw
          (ValidAnc.cons _ _ _ _ hsw ⟨e2, he2, rfl⟩ hanc)
        refine ⟨?_, h2⟩
        rw [h1]
        show e2.2.toList ++ (toListL (elems.drop (i + 1 + 1)) ++ sufAnc rest) =
          toListL (elems.drop (i + 1)) ++ sufAnc rest
        rw [List.drop_eq_getElem_cons hlt]
        have he3 : elems[i + 1] = e2 := by
          rw [List.getElem?_eq_getElem hlt] at he2
          exact Option.some_injective _ he2
        rw [he3, show toListL (e2 :: elems.drop (i + 1 + 1)) =
          e2.2.toList ++ toListL (elems.drop (i + 1 + 1)) from rfl,
          List.append_assoc]
    · rw [if_neg hlt]
      refine ⟨?_, ih.2⟩
      rw [ih.1]
      show sufAnc rest = toListL (elems.drop (i + 1)) ++ sufAnc rest
      rw [List.drop_eq_nil_of_le (by omega),
        show toListL ([] : List (K × SMNode K V)) = [] from rfl,
        List.nil_append]

/-- One Next call on a valid stack emits the head of the remaining sequence
and leaves a valid stack holding its tail. -/
theorem Next_spec (st : ItStack K V) (h : ValidStack st) :
    st.Next.1 = (restOf st).head? ∧
    restOf st.Next.2 = (restOf st).tail ∧
    ValidStack st.Next.2 := by
  cases st with
  | nil => exact ⟨rfl, rfl, trivial⟩
  | cons f rest =>
    obtain ⟨n, i⟩ := f
    obtain ⟨⟨entries, hn, hi⟩, hanc⟩ := h
    subst hn
    have hgi : entries[i]? = some entries[i] := List.getElem?_eq_getElem hi
    have hdrop : entries.drop i = entries[i] :: entries.drop (i + 1) :=
      List.drop_eq_getElem_cons hi
    have hrest : restOf ((SMNode.leaf entries, i) :: rest) =
        entries[i] :: (entries.drop (i + 1) ++ sufAnc rest) := by
      show entries.drop i ++ sufAnc rest = _
      rw [hdrop, List.cons_append]
    rw [ItStack.Next]
    try dsimp only
    rw [hgi]
    try dsimp only
    refine ⟨by rw [hrest]; rfl, ?_, ?_⟩ <;> rw [nextStack] <;>
      (try dsimp only) <;> by_cases hlt : i + 1 < entries.length
    · rw [if_pos hlt, hrest]
      rfl
    · rw [if_neg hlt]
      have h2 := (nextStack_anc rest (SMNode.leaf entries) hanc).1
      rw [h2, hrest, List.tail_cons, List.drop_eq_nil_of_le (by omega),
        List.nil_append]
    · rw [if_pos hlt]
      exact ⟨⟨entries, rfl, hlt⟩, hanc⟩
    · rw [if_neg hlt]
      exact (nextStack_anc rest (SMNode.leaf entries) hanc).2

/-- Enough Next calls on a valid stack emit exactly the remaining sequence. -/
theorem emitNext_restOf :
    (fuel : Nat) → (st : ItStack K V) → ValidStack st →
    (restOf st).length ≤ fuel → emitNext fuel st = restOf st
  | 0, st, _, hf => by
    have h0 : restOf st = [] := List.eq_nil_of_length_eq_zero (by omega)
    rw [emitNext, h0]
  | fuel + 1, st, h, hf => by
    obtain ⟨h1, h2, h3⟩ := Next_spec st h
    rw [emitNext]
    cases hr : restOf st with
    | nil =>
      rw [hr, List.head?_nil] at h1
      cases hp : st.Next with
      | mk o st2 =>
        rw [hp] at h1
        dsimp only at h1
        rw [h1]
    | cons a t =>
      rw [hr] at h1 h2 hf
      cases hp : st.Next with
      | mk o st2 =>
        rw [hp] at h1 h2 h3
        dsimp only at h1 h2
        rw [List.head?_cons] at h1
        rw [h1]
        dsimp only
        rw [List.tail_cons] at h2
        rw [emitNext_restOf fuel st2 h3 (by rw [h2]; simp at hf; omega), h2]

/-- The last() walk lands on the last entry of the subtree: the reached
sequence is the ancestors' prefixes followed by the whole subtree, and the
stack is valid. -/
theorem lastStack_spec :
    (n : SMNode K V) → (rest : ItStack K V) → n.swB = true → ValidAnc n rest →
    doneOf (lastStack n rest) = preAnc rest ++ n.toList ∧
    ValidStack (lastStack n rest)
  | .leaf entries, rest, hsw, hanc => by
    have hne : entries ≠ [] := (swB_leaf_iff entries).mp hsw
    have hpos : 0 < entries.length := List.length_pos.mpr hne
    rw [lastStack]
    constructor
    · show preAnc rest ++ entries.take (entries.length - 1 + 1) = _
      rw [show entries.length - 1 + 1 = entries.length from by omega,
        List.take_length]
      rfl
    · exact ⟨⟨entries, rfl, by omega⟩, hanc⟩
  | .branch elems, rest, hsw, hanc => by
    obtain ⟨hne, hswl⟩ := (swB_branch_iff _).mp hsw
    rw [lastStack]
    cases hl : elems.getLast? with
    | none => exact absurd (List.getLast?_eq_none_iff.mp hl) hne
    | some e =>
      dsimp only
      have hmem : e ∈ elems := List.mem_of_mem_getLast? (by rw [hl]; rfl)
      have hesw : e.2.swB = true := ((swBL_iff_forall elems).mp hswl e hmem).1
      have hgl : elems[elems.length - 1]? = some e := by
        rw [← List.getLast?_eq_getElem?]
        exact hl
      obtain ⟨h1, h2⟩ := lastStack_spec e.2
        ((SMNode.branch elems, elems.length - 1) :: rest) hesw
        (ValidAnc.cons _ _ _ _ hsw ⟨e, hgl, rfl⟩ hanc)
      refine ⟨?_, h2⟩
      rw [h1, branch_toList]
      show (preAnc rest ++ toListL (elems.take (elems.length - 1))) ++
        e.2.toList = preAnc rest ++ toListL elems
      have htake : elems.take (elems.length - 1) ++ [e] = elems := by
        have hlen : 0 < elems.length := List.length_pos.mpr hne
        have h3 : elems.length - 1 + 1 = elems.length := by omega
        have h4 := List.take_succ (l := elems) (n := elems.length - 1)
        rw [h3, List.take_length, hgl] at h4
        rw [show (some e).toList = [e] from rfl] at h4
        exact h4.symm
      conv_rhs => rw [← htake]
      rw [toListL_append,
        show toListL [e] = e.2.toList ++ toListL [] from rfl,
        show toListL ([] : List (K × SMNode K V)) = [] from rfl,
        List.append_nil, List.append_assoc]
termination_by n _ => sizeOf n
decreasing_by
  have h2s : sizeOf e < sizeOf elems := List.sizeOf_lt_of_mem hmem
  cases e
  simp only [SMNode.branch.sizeOf_spec, Prod.mk.sizeOf_spec] at *
  omega

/-- Popping and retreating through a valid ancestor chain with prev() lands on
the last already-passed entry contributed by the ancestors. -/
theorem prevStack_anc (st : ItStack K V) (n0 : SMNode K V)
    (h : ValidAnc n0 st) :
    doneOf (prevStack st) = preAnc st ∧ ValidStack (prevStack st) := by
  induction h with
  | nil n => exact ⟨rfl, trivial⟩
  | cons n elems i rest hsw he hanc ih =>
    obtain ⟨e, hei, hen⟩ := he
    have hi : i < elems.length := by
      by_contra hc
      rw [List.getElem?_eq_none (le_of_not_lt hc)] at hei
      cases hei
    have hswl := ((swB_branch_iff elems).mp hsw).2
    rw [prevStack]
    by_cases hpos : 0 < i
    · rw [if_pos hpos]
      cases he2 : elems[i - 1]? with
      | none =>
        rw [List.getElem?_eq_getElem (show i - 1 < elems.length from by omega)]
          at he2
        cases he2
      | some e2 =>
        dsimp only
        have hesw : e2.2.swB = true :=
          ((swBL_iff_forall elems).mp hswl e2 (List.getElem?_mem he2)).1
        obtain ⟨h1, h2⟩ := lastStack_spec e2.2
          ((SMNode.branch elems, i - 1) :: rest) hesw
          (ValidAnc.cons _ _ _ _ hsw ⟨e2, he2, rfl⟩ hanc)
        refine ⟨?_, h2⟩
        rw [h1]
        show (preAnc rest ++ toListL (elems.take (i - 1))) ++ e2.2.toList =
          preAnc rest ++ toListL (elems.take i)
        have htake : elems.take (i - 1) ++ [e2] = elems.take i := by
          have h3 : i - 1 + 1 = i := by omega
          have h4 := List.take_succ (l := elems) (n := i - 1)
          rw [h3, he2] at h4
          rw [show (some e2).toList = [e2] from rfl] at h4
          exact h4.symm
        rw [← htake, toListL_append,
          show toListL [e2] = e2.2.toList ++ toListL [] from rfl,
          show toListL ([] : List (K × SMNode K V)) = [] from rfl,
          List.append_nil, List.append_assoc]
    · rw [if_neg hpos]
      refine ⟨?_, ih.2⟩
      rw [ih.1]
      show preAnc rest = preAnc rest ++ toListL (elems.take i)
      rw [show i = 0 from by omega, List.take_zero,
        show toListL ([] : List (K × SMNode K V)) = [] from rfl,
        List.append_nil]

/-- One Prev call on a valid stack emits the last reached entry and leaves a
valid stack holding the ones before it. -/
theorem Prev_spec (st : ItStack K V) (h : ValidStack st) :
    st.Prev.1 = (doneOf st).getLast? ∧
    doneOf st.Prev.2 = (doneOf st).dropLast ∧
    ValidStack st.Prev.2 := by
  cases st with
  | nil => exact ⟨rfl, rfl, trivial⟩
  | cons f rest =>
    obtain ⟨n, i⟩ := f
    obtain ⟨⟨entries, hn, hi⟩, hanc⟩ := h
    subst hn
    have hgi : entries[i]? = some entries[i] := List.getElem?_eq_getElem hi
    have hdone : doneOf ((SMNode.leaf entries, i) :: rest) =
        (preAnc rest ++ entries.take i) ++ [entries[i]] := by
      show preAnc rest ++ entries.take (i + 1) = _
      rw [List.take_succ, hgi,
        show (some entries[i]).toList = [entries[i]] from rfl,
        ← List.append_assoc]
    rw [ItStack.Prev]
    try dsimp only
    rw [hgi]
    try dsimp only
    refine ⟨by rw [hdone, List.getLast?_concat], ?_, ?_⟩ <;>
      rw [prevStack] <;> (try dsimp only) <;> by_cases hpos : 0 < i
    · rw [if_pos hpos, hdone, List.dropLast_concat]
      show preAnc rest ++ entries.take (i - 1 + 1) = _
      rw [show i - 1 + 1 = i from by omega]
    · rw [if_neg hpos]
      have h2 := (prevStack_anc rest (SMNode.leaf entries) hanc).1
      rw [h2, hdone, List.dropLast_concat, show i = 0 from by omega,
        List.take_zero, List.append_nil]
    · rw [if_pos hpos]
      exact ⟨⟨entries, rfl, by omega⟩, hanc⟩
    · rw [if_neg hpos]
      exact (prevStack_anc rest (SMNode.leaf entries) hanc).2

/-- Enough Prev calls on a valid stack emit exactly the reverse of the reached
sequence. -/
theorem emitPrev_doneOf :
    (fuel : Nat) → (st : ItStack K V) → ValidStack st →
    (doneOf st).length ≤ fuel → emitPrev fuel st = (doneOf st).reverse
  | 0, st, _, hf => by
    have h0 : doneOf st = [] := List.eq_nil_of_length_eq_zero (by omega)
    rw [emitPrev, h0]
    rfl
  | fuel + 1, st, h, hf => by
    obtain ⟨h1, h2, h3⟩ := Prev_spec st h
    rw [emitPrev]
    cases hl : (doneOf st).getLast? with
    | none =>
      rw [hl] at h1
      cases hp : st.Prev with
      | mk o st2 =>
        rw [hp] at h1
        dsimp only at h1
        rw [h1, List.getLast?_eq_none_iff.mp hl]
        rfl
    | some e =>
      rw [hl] at h1
      cases hp : st.Prev with
      | mk o st2 =>
        rw [hp] at h1 h2 h3
        dsimp only at h1 h2
        rw [h1]
        dsimp only
        have hco : (doneOf st).dropLast ++ [e] = doneOf st :=
          dropLast_concat_getLast _ e hl
        have hlen2 : (doneOf st2).length ≤ fuel := by
          rw [h2]
          have hc2 := congrArg List.length hco
          simp only [List.length_append, List.length_singleton] at hc2
          omega
        rw [emitPrev_doneOf fuel st2 h3 hlen2, h2]
        conv_rhs => rw [← hco]
        rw [List.reverse_append]
        rfl

/-- First on a well-formed map positions the iterator at the start of the
entry sequence. -/
theorem First_spec (m : SortedMap K V) (hwf : m.WFB = true) :
    restOf m.First = rootToList m.root ∧ ValidStack m.First := by
  unfold SortedMap.First
  cases hr : m.root with
  | none => exact ⟨rfl, trivial⟩
  | some n =>
    dsimp only
    have hsw := ((WFB_some_iff m n hr).mp hwf).1
    obtain ⟨h1, h2⟩ := firstStack_spec n [] hsw (ValidAnc.nil n)
    rw [rootToList_some]
    refine ⟨?_, h2⟩
    rw [h1]
    show n.toList ++ [] = n.toList
    rw [List.append_nil]

/-- Last on a well-formed map positions the iterator at the end of the entry
sequence. -/
theorem Last_spec (m : SortedMap K V) (hwf : m.WFB = true) :
    doneOf m.Last = rootToList m.root ∧ ValidStack m.Last := by
  unfold SortedMap.Last
  cases hr : m.root with
  | none => exact ⟨rfl, trivial⟩
  | some n =>
    dsimp only
    have hsw := ((WFB_some_iff m n hr).mp hwf).1
    obtain ⟨h1, h2⟩ := lastStack_spec n [] hsw (ValidAnc.nil n)
    rw [rootToList_some]
    refine ⟨?_, h2⟩
    rw [h1]
    rfl

/-- The seek() walk positions the iterator exactly at the at-or-above suffix
of the subtree's entries. -/
theorem seekStack_spec (key : K) :
    (n : SMNode K V) → (rest : ItStack K V) → n.swB = true →
    (n.toList.Pairwise fun a b => a.1 < b.1) → ValidAnc n rest →
    restOf (seekStack defaultCompare key n rest) =
      geSuf key n.toList ++ sufAnc rest ∧
    ValidStack (seekStack defaultCompare key n rest)
  | .leaf entries, rest, hsw, hs, hanc => by
    rw [seekStack]
    try simp only []
    by_cases heq : (leafIndexOf defaultCompare entries key ==
        entries.length) = true
    · rw [if_pos heq]
      have hieq : leafIndexOf defaultCompare entries key = entries.length := by
        simpa using heq
      have hgs : geSuf key entries = [] := by
        have hd := drop_leafIndexOf entries key
        rw [hieq, List.drop_length] at hd
        exact hd.symm
      rw [nextStack]
      try dsimp only
      rw [if_neg (by omega)]
      obtain ⟨h1, h2⟩ := nextStack_anc rest (SMNode.leaf entries) hanc
      rw [leaf_toList, hgs]
      exact ⟨by rw [h1]; rfl, h2⟩
    · rw [if_neg heq]
      have hle : leafIndexOf defaultCompare entries key ≤ entries.length :=
        findIdx_le_length _ _
      have hne2 : leafIndexOf defaultCompare entries key ≠ entries.length := by
        intro hc
        rw [hc] at heq
        simp at heq
      refine ⟨?_, ⟨⟨entries, rfl, by omega⟩, hanc⟩⟩
      show entries.drop (leafIndexOf defaultCompare entries key) ++
        sufAnc rest = _
      rw [drop_leafIndexOf, leaf_toList]
  | .branch elems, rest, hsw, hs, hanc => by
    obtain ⟨hne, hswl⟩ := (swB_branch_iff _).mp hsw
    rw [branch_toList] at hs ⊢
    obtain ⟨e, he, hA, hC⟩ := branch_route elems key hne hswl hs
    have hsplice := toListL_splice elems
      (branchIndexOf defaultCompare elems key) e he
    have hesw : e.2.swB = true :=
      ((swBL_iff_forall elems).mp hswl e (List.getElem?_mem he)).1
    have hchild_s : e.2.toList.Pairwise fun a b => a.1 < b.1 := by
      rw [hsplice] at hs
      exact (List.pairwise_append.mp ((List.pairwise_append.mp hs).1)).2.1
    rw [seekStack]
    try simp only []
    cases hq : elems[branchIndexOf defaultCompare elems key]? with
    | none =>
      rw [he] at hq
      cases hq
    | some e2 =>
      try dsimp only
      have hee : e = e2 := by
        rw [he] at hq
        exact Option.some_injective _ hq
      rw [← hee]
      have hmem2 : e ∈ elems := List.getElem?_mem he
      obtain ⟨h1, h2⟩ := seekStack_spec key e.2
        ((SMNode.branch elems, branchIndexOf defaultCompare elems key) :: rest)
        hesw hchild_s (ValidAnc.cons _ _ _ _ hsw ⟨e, he, rfl⟩ hanc)
      refine ⟨?_, h2⟩
      rw [h1]
      show geSuf key e.2.toList ++
        (toListL (elems.drop (branchIndexOf defaultCompare elems key + 1)) ++
          sufAnc rest) = geSuf key (toListL elems) ++ sufAnc rest
      rw [hsplice]
      unfold geSuf
      rw [List.append_assoc,
        dropWhile_append_of_all _ _ _ (fun x hx => by simpa using hA x hx),
        dropWhile_append_of_none _ _ _ (fun x hx => by
          simpa using not_lt_of_gt (hC x hx)), List.append_assoc]
termination_by n _ => sizeOf n
decreasing_by
  have h2s : sizeOf e < sizeOf elems := List.sizeOf_lt_of_mem hmem2
  cases e
  simp only [SMNode.branch.sizeOf_spec, Prod.mk.sizeOf_spec] at *
  omega

/-- Seek on a well-formed map positions the iterator at the at-or-above
suffix. -/
theorem Seek_spec (m : SortedMap K V) (key : K) (hwf : m.WFB = true) :
    restOf (m.Seek defaultCompare key) = geSuf key (rootToList m.root) ∧
    ValidStack (m.Seek defaultCompare key) := by
  unfold SortedMap.Seek
  cases hr : m.root with
  | none => exact ⟨rfl, trivial⟩
  | some n =>
    dsimp only
    obtain ⟨hsw, hsor, _⟩ := (WFB_some_iff m n hr).mp hwf
    obtain ⟨h1, h2⟩ := seekStack_spec key n [] hsw
      (pairsSorted_pairwise _ hsor) (ValidAnc.nil n)
    rw [rootToList_some]
    refine ⟨?_, h2⟩
    rw [h1]
    show geSuf key n.toList ++ [] = geSuf key n.toList
    rw [List.append_nil]

/-- A nonempty valid stack has a nonempty remaining sequence. -/
theorem restOf_ne_nil (st : ItStack K V) (h : ValidStack st) (hne : st ≠ []) :
    restOf st ≠ [] := by
  cases st with
  | nil => exact absurd rfl hne
  | cons f rest =>
    obtain ⟨n, i⟩ := f
    obtain ⟨⟨entries, hn, hi⟩, _⟩ := h
    subst hn
    show entries.drop i ++ sufAnc rest ≠ []
    intro hcon
    have hlen := congrArg List.length hcon
    simp only [List.length_append, List.length_drop, List.length_nil] at hlen
    omega

end IterLemmas

section MutbLemmas

variable {K V : Type} [LinearOrder K] [Inhabited K]

/-- The transient and persistent leaf set paths build the same node value
(391-406 vs 409-433). -/
theorem leafSet_mutb (key : K) (value : V) (entries : List (K × V)) :
    sortedMapLeafNode.set defaultCompare key value true entries =
      sortedMapLeafNode.set defaultCompare key value false entries := rfl

/-- The transient and persistent node set paths build the same node value:
the in-place update (244-261) leaves exactly the value the copying update
(263-296) allocates. -/
theorem setNode_mutb (key : K) (value : V) :
    (n : SMNode K V) →
    SMNode.set defaultCompare key value true n =
      SMNode.set defaultCompare key value false n
  | .leaf entries => rfl
  | .branch [] => rfl
  | .branch (e0 :: rest) => by
    have hi : branchIndexOf defaultCompare (e0 :: rest) key <
        (e0 :: rest).length :=
      branchIndexOf_lt defaultCompare _ key (by simp)
    rw [setBranch_eq key value true _ hi, setBranch_eq key value false _ hi]
    simp only []
    rw [setChild_eq, setChild_eq]
    cases hq : (e0 :: rest)[branchIndexOf defaultCompare (e0 :: rest) key]? with
    | none => rfl
    | some e =>
      dsimp only
      rw [setNode_mutb key value e.2]
termination_by n => sizeOf n
decreasing_by
  have hm : e ∈ e0 :: rest := List.getElem?_mem hq
  have h2 : sizeOf e < sizeOf (e0 :: rest) := List.sizeOf_lt_of_mem hm
  cases e
  simp only [SMNode.branch.sizeOf_spec, Prod.mk.sizeOf_spec] at *
  omega

/-- The transient and persistent node delete paths build the same node value
(453-458 vs 460-464, 311-322 vs 325-345). -/
theorem deleteNode_mutb (key : K) :
    (n : SMNode K V) →
    SMNode.delete defaultCompare key true n =
      SMNode.delete defaultCompare key false n
  | .leaf entries => by
    rw [SMNode.delete.eq_def, SMNode.delete.eq_def]
    simp only []
    cases hq : entries[leafIndexOf defaultCompare entries key]? <;> simp
  | .branch elems => by
    rw [SMNode.delete.eq_def, SMNode.delete.eq_def]
    simp only []
    rw [deleteChild_eq, deleteChild_eq]
    cases hq : elems[branchIndexOf defaultCompare elems key]? with
    | none => rfl
    | some e =>
      dsimp only
      rw [deleteNode_mutb key e.2]
      cases hr : SMNode.delete defaultCompare key false e.2 with
      | mk r1 r2 => cases hr1 : r1 <;> simp
termination_by n => sizeOf n
decreasing_by
  have hm : e ∈ elems := List.getElem?_mem hq
  have h2 : sizeOf e < sizeOf elems := List.sizeOf_lt_of_mem hm
  cases e
  simp only [SMNode.branch.sizeOf_spec, Prod.mk.sizeOf_spec] at *
  omega

/-- The transient and persistent map-level sets return the same map value. -/
theorem mapSet_mutb (m : SortedMap K V) (key : K) (value : V) :
    m.set defaultCompare key value true = m.set defaultCompare key value false := by
  unfold SortedMap.set
  cases hr : m.root with
  | none => rfl
  | some root =>
    dsimp only
    rw [setNode_mutb key value root]

/-- The transient and persistent map-level deletes return the same map value. -/
theorem mapDelete_mutb (m : SortedMap K V) (key : K) :
    m.delete defaultCompare key true = m.delete defaultCompare key false := by
  unfold SortedMap.delete
  cases hr : m.root with
  | none => rfl
  | some root =>
    dsimp only
    rw [deleteNode_mutb key root]

/-- A builder that holds map `m` runs an operation list to the builder holding
the persistent fold of the operations over `m`, never erroring. -/
theorem builderFold_ok (ops : List (MapOp K V)) (m : SortedMap K V) :
    ops.foldl (builderStep defaultCompare)
        (Except.ok ({ m := some m } : SortedMapBuilder K V)) =
      Except.ok ({ m := some (ops.foldl (applyOp defaultCompare) m) } :
        SortedMapBuilder K V) := by
  induction ops generalizing m with
  | nil => rfl
  | cons op rest ih =>
    cases op with
    | setOp k v =>
      rw [List.foldl_cons, List.foldl_cons]
      have hstep : builderStep defaultCompare
          (Except.ok ({ m := some m } : SortedMapBuilder K V)) (.setOp k v) =
          Except.ok ({ m := some (m.set defaultCompare k v true) } :
            SortedMapBuilder K V) := rfl
      rw [hstep, mapSet_mutb]
      exact ih _
    | delOp k =>
      rw [List.foldl_cons, List.foldl_cons]
      have hstep : builderStep defaultCompare
          (Except.ok ({ m := some m } : SortedMapBuilder K V)) (.delOp k) =
          Except.ok ({ m := some (m.delete defaultCompare k true) } :
            SortedMapBuilder K V) := rfl
      rw [hstep, mapDelete_mutb]
      exact ih _

end MutbLemmas

/-! ## Claims -/

/-- C10: for every SortedMap reachable from the empty map by any sequence of
persistent or builder Set and Delete operations, the stored size field equals
the total number of key/value entries held in the leaf nodes reachable from
the root, and it is zero exactly when the root is nil. -/
theorem c10_size_tree_consistency {K V : Type} [LinearOrder K] [Inhabited K]
    (m : SortedMap K V) (h : Reachable m) :
    m.size = ((rootToList m.root).length : Int) ∧
    (m.size = 0 ↔ m.root = none) := by
  have hwf := reachable_WFB m h
  cases hr : m.root with
  | none =>
    rw [rootToList_none]
    have h0 := (WFB_none_iff m hr).mp hwf
    simp [h0]
  | some n =>
    obtain ⟨hsw, _, hsize⟩ := (WFB_some_iff m n hr).mp hwf
    rw [rootToList_some]
    refine ⟨hsize, ?_, ?_⟩
    · intro h0
      rw [h0] at hsize
      have hlen : 0 < n.toList.length :=
        List.length_pos.mpr (swB_toList_ne_nil n hsw)
      omega
    · intro hc
      cases hc

/-- C10 witness: the invariant instantiated at the two-element map built by
two Set calls. -/
theorem c10_size_tree_consistency_witness :
    Reachable ((((NewSortedMap Nat Nat).set defaultCompare 1 10 false).set
      defaultCompare 2 20 false) : SortedMap Nat Nat) ∧
    (((NewSortedMap Nat Nat).set defaultCompare 1 10 false).set
      defaultCompare 2 20 false).size = 2 := by
  have hre : Reachable ((((NewSortedMap Nat Nat).set defaultCompare 1 10
      false).set defaultCompare 2 20 false) : SortedMap Nat Nat) :=
    Reachable.setR 2 20 false (Reachable.setR 1 10 false Reachable.empty)
  have h := c10_size_tree_consistency _ hre
  refine ⟨hre, ?_⟩
  rw [h.1]
  rfl

/-- C2: on every well-formed sorted map, Set followed by Get of the same key
returns the set value with ok = true, and Set, Delete, Get of the same key
reports ok = false. -/
theorem c2_roundtrip {K V : Type} [LinearOrder K] [Inhabited K]
    (m : SortedMap K V) (key : K) (value : V) (hwf : m.WFB = true) :
    (m.SetP defaultCompare key value).Get defaultCompare key = some value ∧
    ((m.SetP defaultCompare key value).DeleteP defaultCompare key).Get
      defaultCompare key = none := by
  rw [SetP_eq, DeleteP_eq]
  obtain ⟨hT, hwf1, _, _⟩ := mapSet_spec m key value false hwf
  constructor
  · rw [mapGet_spec _ key hwf1, hT]
    exact listGet_listSet_self key value _
  · obtain ⟨hT2, hwf2, _, _⟩ :=
      mapDelete_spec (m.set defaultCompare key value false) key false hwf1
    rw [mapGet_spec _ key hwf2, hT2]
    exact listGet_listDelete_self key _
      (WFB_sorted (m.set defaultCompare key value false) hwf1)

/-- C2 witness: the round trip at the singleton map built by one Set. -/
theorem c2_roundtrip_witness :
    ((NewSortedMap Nat Nat).WFB = true) ∧
    (((NewSortedMap Nat Nat).SetP defaultCompare 7 70).Get defaultCompare 7 =
      some 70) := by
  refine ⟨rfl, ?_⟩
  exact (c2_roundtrip (NewSortedMap Nat Nat) 7 70 rfl).1

/-- C5: on every well-formed sorted map, Set of an absent key grows Len by
one, Set of a present key keeps Len, Delete of a present key shrinks Len by
one, and Delete of an absent key keeps Len (returning the same map). -/
theorem c5_size_accounting {K V : Type} [LinearOrder K] [Inhabited K]
    (m : SortedMap K V) (key : K) (value : V) (hwf : m.WFB = true) :
    ((m.Get defaultCompare key).isSome = false →
      (m.SetP defaultCompare key value).Len = m.Len + 1) ∧
    ((m.Get defaultCompare key).isSome = true →
      (m.SetP defaultCompare key value).Len = m.Len) ∧
    ((m.Get defaultCompare key).isSome = true →
      (m.DeleteP defaultCompare key).Len = m.Len - 1) ∧
    ((m.Get defaultCompare key).isSome = false →
      (m.DeleteP defaultCompare key).Len = m.Len) := by
  rw [SetP_eq, DeleteP_eq]
  obtain ⟨_, _, hsizeS, _⟩ := mapSet_spec m key value false hwf
  obtain ⟨_, _, hsizeD, _⟩ := mapDelete_spec m key false hwf
  refine ⟨fun h => ?_, fun h => ?_, fun h => ?_, fun h => ?_⟩ <;>
    unfold SortedMap.Len <;>
    first
      | (rw [hsizeS, h]; simp)
      | (rw [hsizeD, h]; simp)

/-- C5 witness: size accounting at the singleton map for an absent key. -/
theorem c5_size_accounting_witness :
    ((NewSortedMap Nat Nat).Get defaultCompare 3).isSome = false ∧
    ((NewSortedMap Nat Nat).SetP defaultCompare 3 30).Len =
      (NewSortedMap Nat Nat).Len + 1 := by
  refine ⟨rfl, ?_⟩
  exact (c5_size_accounting (NewSortedMap Nat Nat) 3 30 rfl).1 rfl

/-- C4 (counterexample): the map a built by one persistent Set holds key 1
bound to exactly value 10, and the persistent Set of that same binding
produces a map with equal contents, but the source code always clones on the
persistent path (63-67), so the returned collection is a fresh value and Go
pointer equality a.Set(1,10) == a is false — the returned flag records that
the receiver pointer is never returned. -/
theorem c4_counterexample :
    (((NewSortedMap Nat Nat).SetP defaultCompare 1 10).Get defaultCompare 1 =
      some 10) ∧
    (((NewSortedMap Nat Nat).SetP defaultCompare 1 10).SetP defaultCompare 1 10 =
      (NewSortedMap Nat Nat).SetP defaultCompare 1 10) ∧
    SortedMap.setReturnsReceiver false = false :=
  ⟨rfl, rfl, rfl⟩

/-- C4 (amended): on a well-formed sorted map, Delete of an absent key returns
the very same collection value, and that return is the receiver pointer
itself; a persistent Set call, by contrast, never returns the receiver
pointer, even when the key is already bound to exactly the set value (it
returns a content-equal clone). -/
theorem c4_identity_noops {K V : Type} [LinearOrder K] [Inhabited K]
    (m : SortedMap K V) (key : K) (hwf : m.WFB = true)
    (habs : (m.Get defaultCompare key).isSome = false) :
    m.DeleteP defaultCompare key = m ∧
    SortedMap.deleteReturnsReceiver defaultCompare m key false = true ∧
    SortedMap.setReturnsReceiver false = false := by
  rw [DeleteP_eq]
  obtain ⟨_, _, _, hid⟩ := mapDelete_spec m key false hwf
  refine ⟨hid habs, ?_, rfl⟩
  unfold SortedMap.deleteReturnsReceiver
  cases hr : m.root with
  | none => rfl
  | some root =>
    dsimp only
    obtain ⟨hsw, hsor, _⟩ := (WFB_some_iff m root hr).mp hwf
    obtain ⟨_, IZ, _⟩ := deleteNode_spec key false root hsw
      (pairsSorted_pairwise _ hsor)
    have hget : m.Get defaultCompare key = listGet key root.toList := by
      unfold SortedMap.Get
      rw [hr]
      exact get_eq_listGet key root hsw (pairsSorted_pairwise _ hsor)
    rw [IZ, ← hget, habs]
    rfl

/-- C4 witness: the delete-of-absent identity at the singleton map. -/
theorem c4_identity_noops_witness :
    (((NewSortedMap Nat Nat).SetP defaultCompare 1 10).Get defaultCompare 2).isSome
      = false ∧
    ((NewSortedMap Nat Nat).SetP defaultCompare 1 10).DeleteP defaultCompare 2 =
      (NewSortedMap Nat Nat).SetP defaultCompare 1 10 := by
  refine ⟨rfl, ?_⟩
  exact (c4_identity_noops ((NewSortedMap Nat Nat).SetP defaultCompare 1 10) 2
    (by rfl) (by rfl)).1

/-- C9 (counterexample): after publishing, the builder Set and Get methods
panic with the same assertion message (159, 165, 171), so the
precondition-failure message is not distinct per builder method. -/
theorem c9_counterexample :
    (SortedMapBuilder.Set defaultCompare ({ m := none } : SortedMapBuilder Nat Nat)
      1 2 = Except.error
        "immutable.SortedMapBuilder: builder invalid after Map() invocation") ∧
    (SortedMapBuilder.Get defaultCompare ({ m := none } : SortedMapBuilder Nat Nat)
      1 = Except.error
        "immutable.SortedMapBuilder: builder invalid after Map() invocation") :=
  ⟨rfl, rfl⟩

/-- C9 (amended): after Map() has been called once, every further builder
method call fails loudly with its assertion message; Map() has its own
message, and Len, Get, Set, Delete and Iterator share one common message. -/
theorem c9_builder_after_publish {K V : Type} [LinearOrder K] [Inhabited K]
    (c : Cmp K) (b : SortedMapBuilder K V) (m : SortedMap K V)
    (b2 : SortedMapBuilder K V) (h : b.Map = Except.ok (m, b2))
    (key : K) (value : V) :
    b2.Map = Except.error
      "immutable.SortedMapBuilder.Map(): duplicate call to fetch map" ∧
    b2.Len = Except.error
      "immutable.SortedMapBuilder: builder invalid after Map() invocation" ∧
    b2.Get c key = Except.error
      "immutable.SortedMapBuilder: builder invalid after Map() invocation" ∧
    b2.Set c key value = Except.error
      "immutable.SortedMapBuilder: builder invalid after Map() invocation" ∧
    b2.Delete c key = Except.error
      "immutable.SortedMapBuilder: builder invalid after Map() invocation" ∧
    b2.Iterator = Except.error
      "immutable.SortedMapBuilder: builder invalid after Map() invocation" := by
  have hb2 : b2 = { m := none } := by
    unfold SortedMapBuilder.Map at h
    cases hbm : b.m with
    | none => rw [hbm] at h; cases h
    | some m0 =>
      rw [hbm] at h
      cases h
      rfl
  rw [hb2]
  exact ⟨rfl, rfl, rfl, rfl, rfl, rfl⟩

/-- C9 witness: the published-builder failure at a freshly published builder. -/
theorem c9_builder_after_publish_witness :
    ((NewSortedMapBuilder Nat Nat).Map =
      Except.ok (NewSortedMap Nat Nat, ({ m := none } : SortedMapBuilder Nat Nat))) ∧
    (({ m := none } : SortedMapBuilder Nat Nat)).Len = Except.error
      "immutable.SortedMapBuilder: builder invalid after Map() invocation" := by
  refine ⟨rfl, ?_⟩
  exact (c9_builder_after_publish defaultCompare (NewSortedMapBuilder Nat Nat)
    (NewSortedMap Nat Nat) ({ m := none }) rfl 1 2).2.1

/-- C8 (counterexample): a map reachable by 33 Set calls (keys 0..32, which
split the root) followed by 16 Delete calls (keys 16..31) is left by one more
Delete (key 32) with a root that IS a branch node holding exactly one child
element — the code removes a branch only when it becomes empty and never
collapses a single-child branch to its child, not even at the root. -/
theorem c8_counterexample :
    Reachable (⟨17, some (SMNode.branch [(0, (SMNode.leaf [(0, ()), (1, ()), (2, ()), (3, ()), (4, ()), (5, ()), (6, ()), (7, ()), (8, ()), (9, ()), (10, ()), (11, ()), (12, ()), (13, ()), (14, ()), (15, ())])), (32, (SMNode.leaf [(32, ())]))])⟩ : SortedMap Nat Unit) ∧
    SortedMap.DeleteP defaultCompare (⟨17, some (SMNode.branch [(0, (SMNode.leaf [(0, ()), (1, ()), (2, ()), (3, ()), (4, ()), (5, ()), (6, ()), (7, ()), (8, ()), (9, ()), (10, ()), (11, ()), (12, ()), (13, ()), (14, ()), (15, ())])), (32, (SMNode.leaf [(32, ())]))])⟩ : SortedMap Nat Unit) 32 =
      (⟨16, some (SMNode.branch [(0, (SMNode.leaf [(0, ()), (1, ()), (2, ()), (3, ()), (4, ()), (5, ()), (6, ()), (7, ()), (8, ()), (9, ()), (10, ()), (11, ()), (12, ()), (13, ()), (14, ()), (15, ())]))])⟩ : SortedMap Nat Unit) ∧
    isSingleChildBranchRoot (⟨16, some (SMNode.branch [(0, (SMNode.leaf [(0, ()), (1, ()), (2, ()), (3, ()), (4, ()), (5, ()), (6, ()), (7, ()), (8, ()), (9, ()), (10, ()), (11, ()), (12, ()), (13, ()), (14, ()), (15, ())]))])⟩ : SortedMap Nat Unit) = true := by
  have r0 : Reachable (NewSortedMap Nat Unit) := Reachable.empty
  have h0 : SortedMap.set defaultCompare (NewSortedMap Nat Unit) 0 () false =
      (⟨1, some (SMNode.leaf [(0, ())])⟩ : SortedMap Nat Unit) := rfl
  have r1 : Reachable (⟨1, some (SMNode.leaf [(0, ())])⟩ : SortedMap Nat Unit) :=
    h0 ▸ Reachable.setR 0 () false r0
  have h1 : SortedMap.set defaultCompare (⟨1, some (SMNode.leaf [(0, ())])⟩ : SortedMap Nat Unit) 1 () false =
      (⟨2, some (SMNode.leaf [(0, ()), (1, ())])⟩ : SortedMap Nat Unit) := rfl
  have r2 : Reachable (⟨2, some (SMNode.leaf [(0, ()), (1, ())])⟩ : SortedMap Nat Unit) :=
    h1 ▸ Reachable.setR 1 () false r1
  have h2 : SortedMap.set defaultCompare (⟨2, some (SMNode.leaf [(0, ()), (1, ())])⟩ : SortedMap Nat Unit) 2 () false =
      (⟨3, some (SMNode.leaf [(0, ()), (1, ()), (2, ())])⟩ : SortedMap Nat Unit) := rfl
  have r3 : Reachable (⟨3, some (SMNode.leaf [(0, ()), (1, ()), (2, ())])⟩ : SortedMap Nat Unit) :=
    h2 ▸ Reachable.setR 2 () false r2
  have h3 : SortedMap.set defaultCompare (⟨3, some (SMNode.leaf [(0, ()), (1, ()), (2, ())])⟩ : SortedMap Nat Unit) 3 () false =
      (⟨4, some (SMNode.leaf [(0, ()), (1, ()), (2, ()), (3, ())])⟩ : SortedMap Nat Unit) := rfl
  have r4 : Reachable (⟨4, some (SMNode.leaf [(0, ()), (1, ()), (2, ()), (3, ())])⟩ : SortedMap Nat Unit) :=
    h3 ▸ Reachable.setR 3 () false r3
  have h4 : SortedMap.set defaultCompare (⟨4, some (SMNode.leaf [(0, ()), (1, ()), (2, ()), (3, ())])⟩ : SortedMap Nat Unit) 4 () false =
      (⟨5, some (SMNode.leaf [(0, ()), (1, ()), (2, ()), (3, ()), (4, ())])⟩ : SortedMap Nat Unit) := rfl
  have r5 : Reachable (⟨5, some (SMNode.leaf [(0, ()), (1, ()), (2, ()), (3, ()), (4, ())])⟩ : SortedMap Nat Unit) :=
    h4 ▸ Reachable.setR 4 () false r4
  have h5 : SortedMap.set defaultCompare (⟨5, some (SMNode.leaf [(0, ()), (1, ()), (2, ()), (3, ()), (4, ())])⟩ : SortedMap Nat Unit) 5 () false =
      (⟨6, some (SMNode.leaf [(0, ()), (1, ()), (2, ()), (3, ()), (4, ()), (5, ())])⟩ : SortedMap Nat Unit) := rfl
  have r6 : Reachable (⟨6, some (SMNode.leaf [(0, ()), (1, ()), (2, ()), (3, ()), (4, ()), (5, ())])⟩ : SortedMap Nat Unit) :=
    h5 ▸ Reachable.setR 5 () false r5
  have h6 : SortedMap.set defaultCompare (⟨6, some (SMNode.leaf [(0, ()), (1, ()), (2, ()), (3, ()), (4, ()), (5, ())])⟩ : SortedMap Nat Unit) 6 () false =
      (⟨7, some (SMNode.leaf [(0, ()), (1, ()), (2, ()), (3, ()), (4, ()), (5, ()), (6, ())])⟩ : SortedMap Nat Unit) := rfl
  have r7 : Reachable (⟨7, some (SMNode.leaf [(0, ()), (1, ()), (2, ()), (3, ()), (4, ()), (5, ()), (6, ())])⟩ : SortedMap Nat Unit) :=
    h6 ▸ Reachable.setR 6 () false r6
  have h7 : SortedMap.set defaultCompare (⟨7, some (SMNode.leaf [(0, ()), (1, ()), (2, ()), (3, ()), (4, ()), (5, ()), (6, ())])⟩ : SortedMap Nat Unit) 7 () false =
      (⟨8, some (SMNode.leaf [(0, ()), (1, ()), (2, ()), (3, ()), (4, ()), (5, ()), (6, ()), (7, ())])⟩ : SortedMap Nat Unit) := rfl
  have r8 : Reachable (⟨8, some (SMNode.leaf [(0, ()), (1, ()), (2, ()), (3, ()), (4, ()), (5, ()), (6, ()), (7, ())])⟩ : SortedMap Nat Unit) :=
    h7 ▸ Reachable.setR 7 () false r7
  have h8 : SortedMap.set defaultCompare (⟨8, some (SMNode.leaf [(0, ()), (1, ()), (2, ()), (3, ()), (4, ()), (5, ()), (6, ()), (7, ())])⟩ : SortedMap Nat Unit) 8 () false =
      (⟨9, some (SMNode.leaf [(0, ()), (1, ()), (2, ()), (3, ()), (4, ()), (5, ()), (6, ()), (7, ()), (8, ())])⟩ : SortedMap Nat Unit) := rfl
  have r9 : Reachable (⟨9, some (SMNode.leaf [(0, ()), (1, ()), (2, ()), (3, ()), (4, ()), (5, ()), (6, ()), (7, ()), (8, ())])⟩ : SortedMap Nat Unit) :=
    h8 ▸ Reachable.setR 8 () false r8
  have h9 : SortedMap.set defaultCompare (⟨9, some (SMNode.leaf [(0, ()), (1, ()), (2, ()), (3, ()), (4, ()), (5, ()), (6, ()), (7, ()), (8, ())])⟩ : SortedMap Nat Unit) 9 () false =
      (⟨10, some (SMNode.leaf [(0, ()), (1, ()), (2, ()), (3, ()), (4, ()), (5, ()), (6, ()), (7, ()), (8, ()), (9, ())])⟩ : SortedMap Nat Unit) := rfl
  have r10 : Reachable (⟨10, some (SMNode.leaf [(0, ()), (1, ()), (2, ()), (3, ()), (4, ()), (5, ()), (6, ()), (7, ()), (8, ()), (9, ())])⟩ : SortedMap Nat Unit) :=
    h9 ▸ Reachable.setR 9 () false r9
  have h10 : SortedMap.set defaultCompare (⟨10, some (SMNode.leaf [(0, ()), (1, ()), (2, ()), (3, ()), (4, ()), (5, ()), (6, ()), (7, ()), (8, ()), (9, ())])⟩ : SortedMap Nat Unit) 10 () false =
      (⟨11, some (SMNode.leaf [(0, ()), (1, ()), (2, ()), (3, ()), (4, ()), (5, ()), (6, ()), (7, ()), (8, ()), (9, ()), (10, ())])⟩ : SortedMap Nat Unit) := rfl
  have r11 : Reachable (⟨11, some (SMNode.leaf [(0, ()), (1, ()), (2, ()), (3, ()), (4, ()), (5, ()), (6, ()), (7, ()), (8, ()), (9, ()), (10, ())])⟩ : SortedMap Nat Unit) :=
    h10 ▸ Reachable.setR 10 () false r10
  have h11 : SortedMap.set defaultCompare (⟨11, some (SMNode.leaf [(0, ()), (1, ()), (2, ()), (3, ()), (4, ()), (5, ()), (6, ()), (7, ()), (8, ()), (9, ()), (10, ())])⟩ : SortedMap Nat Unit) 11 () false =
      (⟨12, some (SMNode.leaf [(0, ()), (1, ()), (2, ()), (3, ()), (4, ()), (5, ()), (6, ()), (7, ()), (8, ()), (9, ()), (10, ()), (11, ())])⟩ : SortedMap Nat Unit) := rfl
  have r12 : Reachable (⟨12, some (SMNode.leaf [(0, ()), (1, ()), (2, ()), (3, ()), (4, ()), (5, ()), (6, ()), (7, ()), (8, ()), (9, ()), (10, ()), (11, ())])⟩ : SortedMap Nat Unit) :=
    h11 ▸ Reachable.setR 11 () false r11
  have h12 : SortedMap.set defaultCompare (⟨12, some (SMNode.leaf [(0, ()), (1, ()), (2, ()), (3, ()), (4, ()), (5, ()), (6, ()), (7, ()), (8, ()), (9, ()), (10, ()), (11, ())])⟩ : SortedMap Nat Unit) 12 () false =
      (⟨13, some (SMNode.leaf [(0, ()), (1, ()), (2, ()), (3, ()), (4, ()), (5, ()), (6, ()), (7, ()), (8, ()), (9, ()), (10, ()), (11, ()), (12, ())])⟩ : SortedMap Nat Unit) := rfl
  have r13 : Reachable (⟨13, some (SMNode.leaf [(0, ()), (1, ()), (2, ()), (3, ()), (4, ()), (5, ()), (6, ()), (7, ()), (8, ()), (9, ()), (10, ()), (11, ()), (12, ())])⟩ : SortedMap Nat Unit) :=
    h12 ▸ Reachable.setR 12 () false r12
  have h13 : SortedMap.set defaultCompare (⟨13, some (SMNode.leaf [(0, ()), (1, ()), (2, ()), (3, ()), (4, ()), (5, ()), (6, ()), (7, ()), (8, ()), (9, ()), (10, ()), (11, ()), (12, ())])⟩ : SortedMap Nat Unit) 13 () false =
      (⟨14, some (SMNode.leaf [(0, ()), (1, ()), (2, ()), (3, ()), (4, ()), (5, ()), (6, ()), (7, ()), (8, ()), (9, ()), (10, ()), (11, ()), (12, ()), (13, ())])⟩ : SortedMap Nat Unit) := rfl
  have r14 : Reachable (⟨14, some (SMNode.leaf [(0, ()), (1, ()), (2, ()), (3, ()), (4, ()), (5, ()), (6, ()), (7, ()), (8, ()), (9, ()), (10, ()), (11, ()), (12, ()), (13, ())])⟩ : SortedMap Nat Unit) :=
    h13 ▸ Reachable.setR 13 () false r13
  have h14 : SortedMap.set defaultCompare (⟨14, some (SMNode.leaf [(0, ()), (1, ()), (2, ()), (3, ()), (4, ()), (5, ()), (6, ()), (7, ()), (8, ()), (9, ()), (10, ()), (11, ()), (12, ()), (13, ())])⟩ : SortedMap Nat Unit) 14 () false =
      (⟨15, some (SMNode.leaf [(0, ()), (1, ()), (2, ()), (3, ()), (4, ()), (5, ()), (6, ()), (7, ()), (8, ()), (9, ()), (10, ()), (11, ()), (12, ()), (13, ()), (14, ())])⟩ : SortedMap Nat Unit) := rfl
  have r15 : Reachable (⟨15, some (SMNode.leaf [(0, ()), (1, ()), (2, ()), (3, ()), (4, ()), (5, ()), (6, ()), (7, ()), (8, ()), (9, ()), (10, ()), (11, ()), (12, ()), (13, ()), (14, ())])⟩ : SortedMap Nat Unit) :=
    h14 ▸ Reachable.setR 14 () false r14
  have h15 : SortedMap.set defaultCompare (⟨15, some (SMNode.leaf [(0, ()), (1, ()), (2, ()), (3, ()), (4, ()), (5, ()), (6, ()), (7, ()), (8, ()), (9, ()), (10, ()), (11, ()), (12, ()), (13, ()), (14, ())])⟩ : SortedMap Nat Unit) 15 () false =
      (⟨16, some (SMNode.leaf [(0, ()), (1, ()), (2, ()), (3, ()), (4, ()), (5, ()), (6, ()), (7, ()), (8, ()), (9, ()), (10, ()), (11, ()), (12, ()), (13, ()), (14, ()), (15, ())])⟩ : SortedMap Nat Unit) := rfl
  have r16 : Reachable (⟨16, some (SMNode.leaf [(0, ()), (1, ()), (2, ()), (3, ()), (4, ()), (5, ()), (6, ()), (7, ()), (8, ()), (9, ()), (10, ()), (11, ()), (12, ()), (13, ()), (14, ()), (15, ())])⟩ : SortedMap Nat Unit) :=
    h15 ▸ Reachable.setR 15 () false r15
  have h16 : SortedMap.set defaultCompare (⟨16, some (SMNode.leaf [(0, ()), (1, ()), (2, ()), (3, ()), (4, ()), (5, ()), (6, ()), (7, ()), (8, ()), (9, ()), (10, ()), (11, ()), (12, ()), (13, ()), (14, ()), (15, ())])⟩ : SortedMap Nat Unit) 16 () false =
      (⟨17, some (SMNode.leaf [(0, ()), (1, ()), (2, ()), (3, ()), (4, ()), (5, ()), (6, ()), (7, ()), (8, ()), (9, ()), (10, ()), (11, ()), (12, ()), (13, ()), (14, ()), (15, ()), (16, ())])⟩ : SortedMap Nat Unit) := rfl
  have r17 : Reachable (⟨17, some (SMNode.leaf [(0, ()), (1, ()), (2, ()), (3, ()), (4, ()), (5, ()), (6, ()), (7, ()), (8, ()), (9, ()), (10, ()), (11, ()), (12, ()), (13, ()), (14, ()), (15, ()), (16, ())])⟩ : SortedMap Nat Unit) :=
    h16 ▸ Reachable.setR 16 () false r16
  have h17 : SortedMap.set defaultCompare (⟨17, some (SMNode.leaf [(0, ()), (1, ()), (2, ()), (3, ()), (4, ()), (5, ()), (6, ()), (7, ()), (8, ()), (9, ()), (10, ()), (11, ()), (12, ()), (13, ()), (14, ()), (15, ()), (16, ())])⟩ : SortedMap Nat Unit) 17 () false =
      (⟨18, some (SMNode.leaf [(0, ()), (1, ()), (2, ()), (3, ()), (4, ()), (5, ()), (6, ()), (7, ()), (8, ()), (9, ()), (10, ()), (11, ()), (12, ()), (13, ()), (14, ()), (15, ()), (16, ()), (17, ())])⟩ : SortedMap Nat Unit) := rfl
  have r18 : Reachable (⟨18, some (SMNode.leaf [(0, ()), (1, ()), (2, ()), (3, ()), (4, ()), (5, ()), (6, ()), (7, ()), (8, ()), (9, ()), (10, ()), (11, ()), (12, ()), (13, ()), (14, ()), (15, ()), (16, ()), (17, ())])⟩ : SortedMap Nat Unit) :=
    h17 ▸ Reachable.setR 17 () false r17
  have h18 : SortedMap.set defaultCompare (⟨18, some (SMNode.leaf [(0, ()), (1, ()), (2, ()), (3, ()), (4, ()), (5, ()), (6, ()), (7, ()), (8, ()), (9, ()), (10, ()), (11, ()), (12, ()), (13, ()), (14, ()), (15, ()), (16, ()), (17, ())])⟩ : SortedMap Nat Unit) 18 () false =
      (⟨19, some (SMNode.leaf [(0, ()), (1, ()), (2, ()), (3, ()), (4, ()), (5, ()), (6, ()), (7, ()), (8, ()), (9, ()), (10, ()), (11, ()), (12, ()), (13, ()), (14, ()), (15, ()), (16, ()), (17, ()), (18, ())])⟩ : SortedMap Nat Unit) := rfl
  have r19 : Reachable (⟨19, some (SMNode.leaf [(0, ()), (1, ()), (2, ()), (3, ()), (4, ()), (5, ()), (6, ()), (7, ()), (8, ()), (9, ()), (10, ()), (11, ()), (12, ()), (13, ()), (14, ()), (15, ()), (16, ()), (17, ()), (18, ())])⟩ : SortedMap Nat Unit) :=
    h18 ▸ Reachable.setR 18 () false r18
  have h19 : SortedMap.set defaultCompare (⟨19, some (SMNode.leaf [(0, ()), (1, ()), (2, ()), (3, ()), (4, ()), (5, ()), (6, ()), (7, ()), (8, ()), (9, ()), (10, ()), (11, ()), (12, ()), (13, ()), (14, ()), (15, ()), (16, ()), (17, ()), (18, ())])⟩ : SortedMap Nat Unit) 19 () false =
      (⟨20, some (SMNode.leaf [(0, ()), (1, ()), (2, ()), (3, ()), (4, ()), (5, ()), (6, ()), (7, ()), (8, ()), (9, ()), (10, ()), (11, ()), (12, ()), (13, ()), (14, ()), (15, ()), (16, ()), (17, ()), (18, ()), (19, ())])⟩ : SortedMap Nat Unit) := rfl
  have r20 : Reachable (⟨20, some (SMNode.leaf [(0, ()), (1, ()), (2, ()), (3, ()), (4, ()), (5, ()), (6, ()), (7, ()), (8, ()), (9, ()), (10, ()), (11, ()), (12, ()), (13, ()), (14, ()), (15, ()), (16, ()), (17, ()), (18, ()), (19, ())])⟩ : SortedMap Nat Unit) :=
    h19 ▸ Reachable.setR 19 () false r19
  have h20 : SortedMap.set defaultCompare (⟨20, some (SMNode.leaf [(0, ()), (1, ()), (2, ()), (3, ()), (4, ()), (5, ()), (6, ()), (7, ()), (8, ()), (9, ()), (10, ()), (11, ()), (12, ()), (13, ()), (14, ()), (15, ()), (16, ()), (17, ()), (18, ()), (19, ())])⟩ : SortedMap Nat Unit) 20 () false =
      (⟨21, some (SMNode.leaf [(0, ()), (1, ()), (2, ()), (3, ()), (4, ()), (5, ()), (6, ()), (7, ()), (8, ()), (9, ()), (10, ()), (11, ()), (12, ()), (13, ()), (14, ()), (15, ()), (16, ()), (17, ()), (18, ()), (19, ()), (20, ())])⟩ : SortedMap Nat Unit) := rfl
  have r21 : Reachable (⟨21, some (SMNode.leaf [(0, ()), (1, ()), (2, ()), (3, ()), (4, ()), (5, ()), (6, ()), (7, ()), (8, ()), (9, ()), (10, ()), (11, ()), (12, ()), (13, ()), (14, ()), (15, ()), (16, ()), (17, ()), (18, ()), (19, ()), (20, ())])⟩ : SortedMap Nat Unit) :=
    h20 ▸ Reachable.setR 20 () false r20
  have h21 : SortedMap.set defaultCompare (⟨21, some (SMNode.leaf [(0, ()), (1, ()), (2, ()), (3, ()), (4, ()), (5, ()), (6, ()), (7, ()), (8, ()), (9, ()), (10, ()), (11, ()), (12, ()), (13, ()), (14, ()), (15, ()), (16, ()), (17, ()), (18, ()), (19, ()), (20, ())])⟩ : SortedMap Nat Unit) 21 () false =
      (⟨22, some (SMNode.leaf [(0, ()), (1, ()), (2, ()), (3, ()), (4, ()), (5, ()), (6, ()), (7, ()), (8, ()), (9, ()), (10, ()), (11, ()), (12, ()), (13, ()), (14, ()), (15, ()), (16, ()), (17, ()), (18, ()), (19, ()), (20, ()), (21, ())])⟩ : SortedMap Nat Unit) := rfl
  have r22 : Reachable (⟨22, some (SMNode.leaf [(0, ()), (1, ()), (2, ()), (3, ()), (4, ()), (5, ()), (6, ()), (7, ()), (8, ()), (9, ()), (10, ()), (11, ()), (12, ()), (13, ()), (14, ()), (15, ()), (16, ()), (17, ()), (18, ()), (19, ()), (20, ()), (21, ())])⟩ : SortedMap Nat Unit) :=
    h21 ▸ Reachable.setR 21 () false r21
  have h22 : SortedMap.set defaultCompare (⟨22, some (SMNode.leaf [(0, ()), (1, ()), (2, ()), (3, ()), (4, ()), (5, ()), (6, ()), (7, ()), (8, ()), (9, ()), (10, ()), (11, ()), (12, ()), (13, ()), (14, ()), (15, ()), (16, ()), (17, ()), (18, ()), (19, ()), (20, ()), (21, ())])⟩ : SortedMap Nat Unit) 22 () false =
      (⟨23, some (SMNode.leaf [(0, ()), (1, ()), (2, ()), (3, ()), (4, ()), (5, ()), (6, ()), (7, ()), (8, ()), (9, ()), (10, ()), (11, ()), (12, ()), (13, ()), (14, ()), (15, ()), (16, ()), (17, ()), (18, ()), (19, ()), (20, ()), (21, ()), (22, ())])⟩ : SortedMap Nat Unit) := rfl
  have r23 : Reachable (⟨23, some (SMNode.leaf [(0, ()), (1, ()), (2, ()), (3, ()), (4, ()), (5, ()), (6, ()), (7, ()), (8, ()), (9, ()), (10, ()), (11, ()), (12, ()), (13, ()), (14, ()), (15, ()), (16, ()), (17, ()), (18, ()), (19, ()), (20, ()), (21, ()), (22, ())])⟩ : SortedMap Nat Unit) :=
    h22 ▸ Reachable.setR 22 () false r22
  have h23 : SortedMap.set defaultCompare (⟨23, some (SMNode.leaf [(0, ()), (1, ()), (2, ()), (3, ()), (4, ()), (5, ()), (6, ()), (7, ()), (8, ()), (9, ()), (10, ()), (11, ()), (12, ()), (13, ()), (14, ()), (15, ()), (16, ()), (17, ()), (18, ()), (19, ()), (20, ()), (21, ()), (22, ())])⟩ : SortedMap Nat Unit) 23 () false =
      (⟨24, some (SMNode.leaf [(0, ()), (1, ()), (2, ()), (3, ()), (4, ()), (5, ()), (6, ()), (7, ()), (8, ()), (9, ()), (10, ()), (11, ()), (12, ()), (13, ()), (14, ()), (15, ()), (16, ()), (17, ()), (18, ()), (19, ()), (20, ()), (21, ()), (22, ()), (23, ())])⟩ : SortedMap Nat Unit) := rfl
  have r24 : Reachable (⟨24, some (SMNode.leaf [(0, ()), (1, ()), (2, ()), (3, ()), (4, ()), (5, ()), (6, ()), (7, ()), (8, ()), (9, ()), (10, ()), (11, ()), (12, ()), (13, ()), (14, ()), (15, ()), (16, ()), (17, ()), (18, ()), (19, ()), (20, ()), (21, ()), (22, ()), (23, ())])⟩ : SortedMap Nat Unit) :=
    h23 ▸ Reachable.setR 23 () false r23
  have h24 : SortedMap.set defaultCompare (⟨24, some (SMNode.leaf [(0, ()), (1, ()), (2, ()), (3, ()), (4, ()), (5, ()), (6, ()), (7, ()), (8, ()), (9, ()), (10, ()), (11, ()), (12, ()), (13, ()), (14, ()), (15, ()), (16, ()), (17, ()), (18, ()), (19, ()), (20, ()), (21, ()), (22, ()), (23, ())])⟩ : SortedMap Nat Unit) 24 () false =
      (⟨25, some (SMNode.leaf [(0, ()), (1, ()), (2, ()), (3, ()), (4, ()), (5, ()), (6, ()), (7, ()), (8, ()), (9, ()), (10, ()), (11, ()), (12, ()), (13, ()), (14, ()), (15, ()), (16, ()), (17, ()), (18, ()), (19, ()), (20, ()), (21, ()), (22, ()), (23, ()), (24, ())])⟩ : SortedMap Nat Unit) := rfl
  have r25 : Reachable (⟨25, some (SMNode.leaf [(0, ()), (1, ()), (2, ()), (3, ()), (4, ()), (5, ()), (6, ()), (7, ()), (8, ()), (9, ()), (10, ()), (11, ()), (12, ()), (13, ()), (14, ()), (15, ()), (16, ()), (17, ()), (18, ()), (19, ()), (20, ()), (21, ()), (22, ()), (23, ()), (24, ())])⟩ : SortedMap Nat Unit) :=
    h24 ▸ Reachable.setR 24 () false r24
  have h25 : SortedMap.set defaultCompare (⟨25, some (SMNode.leaf [(0, ()), (1, ()), (2, ()), (3, ()), (4, ()), (5, ()), (6, ()), (7, ()), (8, ()), (9, ()), (10, ()), (11, ()), (12, ()), (13, ()), (14, ()), (15, ()), (16, ()), (17, ()), (18, ()), (19, ()), (20, ()), (21, ()), (22, ()), (23, ()), (24, ())])⟩ : SortedMap Nat Unit) 25 () false =
      (⟨26, some (SMNode.leaf [(0, ()), (1, ()), (2, ()), (3, ()), (4, ()), (5, ()), (6, ()), (7, ()), (8, ()), (9, ()), (10, ()), (11, ()), (12, ()), (13, ()), (14, ()), (15, ()), (16, ()), (17, ()), (18, ()), (19, ()), (20, ()), (21, ()), (22, ()), (23, ()), (24, ()), (25, ())])⟩ : SortedMap Nat Unit) := rfl
  have r26 : Reachable (⟨26, some (SMNode.leaf [(0, ()), (1, ()), (2, ()), (3, ()), (4, ()), (5, ()), (6, ()), (7, ()), (8, ()), (9, ()), (10, ()), (11, ()), (12, ()), (13, ()), (14, ()), (15, ()), (16, ()), (17, ()), (18, ()), (19, ()), (20, ()), (21, ()), (22, ()), (23, ()), (24, ()), (25, ())])⟩ : SortedMap Nat Unit) :=
    h25 ▸ Reachable.setR 25 () false r25
  have h26 : SortedMap.set defaultCompare (⟨26, some (SMNode.leaf [(0, ()), (1, ()), (2, ()), (3, ()), (4, ()), (5, ()), (6, ()), (7, ()), (8, ()), (9, ()), (10, ()), (11, ()), (12, ()), (13, ()), (14, ()), (15, ()), (16, ()), (17, ()), (18, ()), (19, ()), (20, ()), (21, ()), (22, ()), (23, ()), (24, ()), (25, ())])⟩ : SortedMap Nat Unit) 26 () false =
      (⟨27, some (SMNode.leaf [(0, ()), (1, ()), (2, ()), (3, ()), (4, ()), (5, ()), (6, ()), (7, ()), (8, ()), (9, ()), (10, ()), (11, ()), (12, ()), (13, ()), (14, ()), (15, ()), (16, ()), (17, ()), (18, ()), (19, ()), (20, ()), (21, ()), (22, ()), (23, ()), (24, ()), (25, ()), (26, ())])⟩ : SortedMap Nat Unit) := rfl
  have r27 : Reachable (⟨27, some (SMNode.leaf [(0, ()), (1, ()), (2, ()), (3, ()), (4, ()), (5, ()), (6, ()), (7, ()), (8, ()), (9, ()), (10, ()), (11, ()), (12, ()), (13, ()), (14, ()), (15, ()), (16, ()), (17, ()), (18, ()), (19, ()), (20, ()), (21, ()), (22, ()), (23, ()), (24, ()), (25, ()), (26, ())])⟩ : SortedMap Nat Unit) :=
    h26 ▸ Reachable.setR 26 () false r26
  have h27 : SortedMap.set defaultCompare (⟨27, some (SMNode.leaf [(0, ()), (1, ()), (2, ()), (3, ()), (4, ()), (5, ()), (6, ()), (7, ()), (8, ()), (9, ()), (10, ()), (11, ()), (12, ()), (13, ()), (14, ()), (15, ()), (16, ()), (17, ()), (18, ()), (19, ()), (20, ()), (21, ()), (22, ()), (23, ()), (24, ()), (25, ()), (26, ())])⟩ : SortedMap Nat Unit) 27 () false =
      (⟨28, some (SMNode.leaf [(0, ()), (1, ()), (2, ()), (3, ()), (4, ()), (5, ()), (6, ()), (7, ()), (8, ()), (9, ()), (10, ()), (11, ()), (12, ()), (13, ()), (14, ()), (15, ()), (16, ()), (17, ()), (18, ()), (19, ()), (20, ()), (21, ()), (22, ()), (23, ()), (24, ()), (25, ()), (26, ()), (27, ())])⟩ : SortedMap Nat Unit) := rfl
  have r28 : Reachable (⟨28, some (SMNode.leaf [(0, ()), (1, ()), (2, ()), (3, ()), (4, ()), (5, ()), (6, ()), (7, ()), (8, ()), (9, ()), (10, ()), (11, ()), (12, ()), (13, ()), (14, ()), (15, ()), (16, ()), (17, ()), (18, ()), (19, ()), (20, ()), (21, ()), (22, ()), (23, ()), (24, ()), (25, ()), (26, ()), (27, ())])⟩ : SortedMap Nat Unit) :=
    h27 ▸ Reachable.setR 27 () false r27
  have h28 : SortedMap.set defaultCompare (⟨28, some (SMNode.leaf [(0, ()), (1, ()), (2, ()), (3, ()), (4, ()), (5, ()), (6, ()), (7, ()), (8, ()), (9, ()), (10, ()), (11, ()), (12, ()), (13, ()), (14, ()), (15, ()), (16, ()), (17, ()), (18, ()), (19, ()), (20, ()), (21, ()), (22, ()), (23, ()), (24, ()), (25, ()), (26, ()), (27, ())])⟩ : SortedMap Nat Unit) 28 () false =
      (⟨29, some (SMNode.leaf [(0, ()), (1, ()), (2, ()), (3, ()), (4, ()), (5, ()), (6, ()), (7, ()), (8, ()), (9, ()), (10, ()), (11, ()), (12, ()), (13, ()), (14, ()), (15, ()), (16, ()), (17, ()), (18, ()), (19, ()), (20, ()), (21, ()), (22, ()), (23, ()), (24, ()), (25, ()), (26, ()), (27, ()), (28, ())])⟩ : SortedMap Nat Unit) := rfl
  have r29 : Reachable (⟨29, some (SMNode.leaf [(0, ()), (1, ()), (2, ()), (3, ()), (4, ()), (5, ()), (6, ()), (7, ()), (8, ()), (9, ()), (10, ()), (11, ()), (12, ()), (13, ()), (14, ()), (15, ()), (16, ()), (17, ()), (18, ()), (19, ()), (20, ()), (21, ()), (22, ()), (23, ()), (24, ()), (25, ()), (26, ()), (27, ()), (28, ())])⟩ : SortedMap Nat Unit) :=
    h28 ▸ Reachable.setR 28 () false r28
  have h29 : SortedMap.set defaultCompare (⟨29, some (SMNode.leaf [(0, ()), (1, ()), (2, ()), (3, ()), (4, ()), (5, ()), (6, ()), (7, ()), (8, ()), (9, ()), (10, ()), (11, ()), (12, ()), (13, ()), (14, ()), (15, ()), (16, ()), (17, ()), (18, ()), (19, ()), (20, ()), (21, ()), (22, ()), (23, ()), (24, ()), (25, ()), (26, ()), (27, ()), (28, ())])⟩ : SortedMap Nat Unit) 29 () false =
      (⟨30, some (SMNode.leaf [(0, ()), (1, ()), (2, ()), (3, ()), (4, ()), (5, ()), (6, ()), (7, ()), (8, ()), (9, ()), (10, ()), (11, ()), (12, ()), (13, ()), (14, ()), (15, ()), (16, ()), (17, ()), (18, ()), (19, ()), (20, ()), (21, ()), (22, ()), (23, ()), (24, ()), (25, ()), (26, ()), (27, ()), (28, ()), (29, ())])⟩ : SortedMap Nat Unit) := rfl
  have r30 : Reachable (⟨30, some (SMNode.leaf [(0, ()), (1, ()), (2, ()), (3, ()), (4, ()), (5, ()), (6, ()), (7, ()), (8, ()), (9, ()), (10, ()), (11, ()), (12, ()), (13, ()), (14, ()), (15, ()), (16, ()), (17, ()), (18, ()), (19, ()), (20, ()), (21, ()), (22, ()), (23, ()), (24, ()), (25, ()), (26, ()), (27, ()), (28, ()), (29, ())])⟩ : SortedMap Nat Unit) :=
    h29 ▸ Reachable.setR 29 () false r29
  have h30 : SortedMap.set defaultCompare (⟨30, some (SMNode.leaf [(0, ()), (1, ()), (2, ()), (3, ()), (4, ()), (5, ()), (6, ()), (7, ()), (8, ()), (9, ()), (10, ()), (11, ()), (12, ()), (13, ()), (14, ()), (15, ()), (16, ()), (17, ()), (18, ()), (19, ()), (20, ()), (21, ()), (22, ()), (23, ()), (24, ()), (25, ()), (26, ()), (27, ()), (28, ()), (29, ())])⟩ : SortedMap Nat Unit) 30 () false =
      (⟨31, some (SMNode.leaf [(0, ()), (1, ()), (2, ()), (3, ()), (4, ()), (5, ()), (6, ()), (7, ()), (8, ()), (9, ()), (10, ()), (11, ()), (12, ()), (13, ()), (14, ()), (15, ()), (16, ()), (17, ()), (18, ()), (19, ()), (20, ()), (21, ()), (22, ()), (23, ()), (24, ()), (25, ()), (26, ()), (27, ()), (28, ()), (29, ()), (30, ())])⟩ : SortedMap Nat Unit) := rfl
  have r31 : Reachable (⟨31, some (SMNode.leaf [(0, ()), (1, ()), (2, ()), (3, ()), (4, ()), (5, ()), (6, ()), (7, ()), (8, ()), (9, ()), (10, ()), (11, ()), (12, ()), (13, ()), (14, ()), (15, ()), (16, ()), (17, ()), (18, ()), (19, ()), (20, ()), (21, ()), (22, ()), (23, ()), (24, ()), (25, ()), (26, ()), (27, ()), (28, ()), (29, ()), (30, ())])⟩ : SortedMap Nat Unit) :=
    h30 ▸ Reachable.setR 30 () false r30
  have h31 : SortedMap.set defaultCompare (⟨31, some (SMNode.leaf [(0, ()), (1, ()), (2, ()), (3, ()), (4, ()), (5, ()), (6, ()), (7, ()), (8, ()), (9, ()), (10, ()), (11, ()), (12, ()), (13, ()), (14, ()), (15, ()), (16, ()), (17, ()), (18, ()), (19, ()), (20, ()), (21, ()), (22, ()), (23, ()), (24, ()), (25, ()), (26, ()), (27, ()), (28, ()), (29, ()), (30, ())])⟩ : SortedMap Nat Unit) 31 () false =
      (⟨32, some (SMNode.leaf [(0, ()), (1, ()), (2, ()), (3, ()), (4, ()), (5, ()), (6, ()), (7, ()), (8, ()), (9, ()), (10, ()), (11, ()), (12, ()), (13, ()), (14, ()), (15, ()), (16, ()), (17, ()), (18, ()), (19, ()), (20, ()), (21, ()), (22, ()), (23, ()), (24, ()), (25, ()), (26, ()), (27, ()), (28, ()), (29, ()), (30, ()), (31, ())])⟩ : SortedMap Nat Unit) := rfl
  have r32 : Reachable (⟨32, some (SMNode.leaf [(0, ()), (1, ()), (2, ()), (3, ()), (4, ()), (5, ()), (6, ()), (7, ()), (8, ()), (9, ()), (10, ()), (11, ()), (12, ()), (13, ()), (14, ()), (15, ()), (16, ()), (17, ()), (18, ()), (19, ()), (20, ()), (21, ()), (22, ()), (23, ()), (24, ()), (25, ()), (26, ()), (27, ()), (28, ()), (29, ()), (30, ()), (31, ())])⟩ : SortedMap Nat Unit) :=
    h31 ▸ Reachable.setR 31 () false r31
  have h32 : SortedMap.set defaultCompare (⟨32, some (SMNode.leaf [(0, ()), (1, ()), (2, ()), (3, ()), (4, ()), (5, ()), (6, ()), (7, ()), (8, ()), (9, ()), (10, ()), (11, ()), (12, ()), (13, ()), (14, ()), (15, ()), (16, ()), (17, ()), (18, ()), (19, ()), (20, ()), (21, ()), (22, ()), (23, ()), (24, ()), (25, ()), (26, ()), (27, ()), (28, ()), (29, ()), (30, ()), (31, ())])⟩ : SortedMap Nat Unit) 32 () false =
      (⟨33, some (SMNode.branch [(0, (SMNode.leaf [(0, ()), (1, ()), (2, ()), (3, ()), (4, ()), (5, ()), (6, ()), (7, ()), (8, ()), (9, ()), (10, ()), (11, ()), (12, ()), (13, ()), (14, ()), (15, ())])), (16, (SMNode.leaf [(16, ()), (17, ()), (18, ()), (19, ()), (20, ()), (21, ()), (22, ()), (23, ()), (24, ()), (25, ()), (26, ()), (27, ()), (28, ()), (29, ()), (30, ()), (31, ()), (32, ())]))])⟩ : SortedMap Nat Unit) := rfl
  have r33 : Reachable (⟨33, some (SMNode.branch [(0, (SMNode.leaf [(0, ()), (1, ()), (2, ()), (3, ()), (4, ()), (5, ()), (6, ()), (7, ()), (8, ()), (9, ()), (10, ()), (11, ()), (12, ()), (13, ()), (14, ()), (15, ())])), (16, (SMNode.leaf [(16, ()), (17, ()), (18, ()), (19, ()), (20, ()), (21, ()), (22, ()), (23, ()), (24, ()), (25, ()), (26, ()), (27, ()), (28, ()), (29, ()), (30, ()), (31, ()), (32, ())]))])⟩ : SortedMap Nat Unit) :=
    h32 ▸ Reachable.setR 32 () false r32
  have h33 : SortedMap.delete defaultCompare (⟨33, some (SMNode.branch [(0, (SMNode.leaf [(0, ()), (1, ()), (2, ()), (3, ()), (4, ()), (5, ()), (6, ()), (7, ()), (8, ()), (9, ()), (10, ()), (11, ()), (12, ()), (13, ()), (14, ()), (15, ())])), (16, (SMNode.leaf [(16, ()), (17, ()), (18, ()), (19, ()), (20, ()), (21, ()), (22, ()), (23, ()), (24, ()), (25, ()), (26, ()), (27, ()), (28, ()), (29, ()), (30, ()), (31, ()), (32, ())]))])⟩ : SortedMap Nat Unit) 16 false =
      (⟨32, some (SMNode.branch [(0, (SMNode.leaf [(0, ()), (1, ()), (2, ()), (3, ()), (4, ()), (5, ()), (6, ()), (7, ()), (8, ()), (9, ()), (10, ()), (11, ()), (12, ()), (13, ()), (14, ()), (15, ())])), (17, (SMNode.leaf [(17, ()), (18, ()), (19, ()), (20, ()), (21, ()), (22, ()), (23, ()), (24, ()), (25, ()), (26, ()), (27, ()), (28, ()), (29, ()), (30, ()), (31, ()), (32, ())]))])⟩ : SortedMap Nat Unit) := rfl
  have r34 : Reachable (⟨32, some (SMNode.branch [(0, (SMNode.leaf [(0, ()), (1, ()), (2, ()), (3, ()), (4, ()), (5, ()), (6, ()), (7, ()), (8, ()), (9, ()), (10, ()), (11, ()), (12, ()), (13, ()), (14, ()), (15, ())])), (17, (SMNode.leaf [(17, ()), (18, ()), (19, ()), (20, ()), (21, ()), (22, ()), (23, ()), (24, ()), (25, ()), (26, ()), (27, ()), (28, ()), (29, ()), (30, ()), (31, ()), (32, ())]))])⟩ : SortedMap Nat Unit) :=
    h33 ▸ Reachable.delR 16 false r33
  have h34 : SortedMap.delete defaultCompare (⟨32, some (SMNode.branch [(0, (SMNode.leaf [(0, ()), (1, ()), (2, ()), (3, ()), (4, ()), (5, ()), (6, ()), (7, ()), (8, ()), (9, ()), (10, ()), (11, ()), (12, ()), (13, ()), (14, ()), (15, ())])), (17, (SMNode.leaf [(17, ()), (18, ()), (19, ()), (20, ()), (21, ()), (22, ()), (23, ()), (24, ()), (25, ()), (26, ()), (27, ()), (28, ()), (29, ()), (30, ()), (31, ()), (32, ())]))])⟩ : SortedMap Nat Unit) 17 false =
      (⟨31, some (SMNode.branch [(0, (SMNode.leaf [(0, ()), (1, ()), (2, ()), (3, ()), (4, ()), (5, ()), (6, ()), (7, ()), (8, ()), (9, ()), (10, ()), (11, ()), (12, ()), (13, ()), (14, ()), (15, ())])), (18, (SMNode.leaf [(18, ()), (19, ()), (20, ()), (21, ()), (22, ()), (23, ()), (24, ()), (25, ()), (26, ()), (27, ()), (28, ()), (29, ()), (30, ()), (31, ()), (32, ())]))])⟩ : SortedMap Nat Unit) := rfl
  have r35 : Reachable (⟨31, some (SMNode.branch [(0, (SMNode.leaf [(0, ()), (1, ()), (2, ()), (3, ()), (4, ()), (5, ()), (6, ()), (7, ()), (8, ()), (9, ()), (10, ()), (11, ()), (12, ()), (13, ()), (14, ()), (15, ())])), (18, (SMNode.leaf [(18, ()), (19, ()), (20, ()), (21, ()), (22, ()), (23, ()), (24, ()), (25, ()), (26, ()), (27, ()), (28, ()), (29, ()), (30, ()), (31, ()), (32, ())]))])⟩ : SortedMap Nat Unit) :=
    h34 ▸ Reachable.delR 17 false r34
  have h35 : SortedMap.delete defaultCompare (⟨31, some (SMNode.branch [(0, (SMNode.leaf [(0, ()), (1, ()), (2, ()), (3, ()), (4, ()), (5, ()), (6, ()), (7, ()), (8, ()), (9, ()), (10, ()), (11, ()), (12, ()), (13, ()), (14, ()), (15, ())])), (18, (SMNode.leaf [(18, ()), (19, ()), (20, ()), (21, ()), (22, ()), (23, ()), (24, ()), (25, ()), (26, ()), (27, ()), (28, ()), (29, ()), (30, ()), (31, ()), (32, ())]))])⟩ : SortedMap Nat Unit) 18 false =
      (⟨30, some (SMNode.branch [(0, (SMNode.leaf [(0, ()), (1, ()), (2, ()), (3, ()), (4, ()), (5, ()), (6, ()), (7, ()), (8, ()), (9, ()), (10, ()), (11, ()), (12, ()), (13, ()), (14, ()), (15, ())])), (19, (SMNode.leaf [(19, ()), (20, ()), (21, ()), (22, ()), (23, ()), (24, ()), (25, ()), (26, ()), (27, ()), (28, ()), (29, ()), (30, ()), (31, ()), (32, ())]))])⟩ : SortedMap Nat Unit) := rfl
  have r36 : Reachable (⟨30, some (SMNode.branch [(0, (SMNode.leaf [(0, ()), (1, ()), (2, ()), (3, ()), (4, ()), (5, ()), (6, ()), (7, ()), (8, ()), (9, ()), (10, ()), (11, ()), (12, ()), (13, ()), (14, ()), (15, ())])), (19, (SMNode.leaf [(19, ()), (20, ()), (21, ()), (22, ()), (23, ()), (24, ()), (25, ()), (26, ()), (27, ()), (28, ()), (29, ()), (30, ()), (31, ()), (32, ())]))])⟩ : SortedMap Nat Unit) :=
    h35 ▸ Reachable.delR 18 false r35
  have h36 : SortedMap.delete defaultCompare (⟨30, some (SMNode.branch [(0, (SMNode.leaf [(0, ()), (1, ()), (2, ()), (3, ()), (4, ()), (5, ()), (6, ()), (7, ()), (8, ()), (9, ()), (10, ()), (11, ()), (12, ()), (13, ()), (14, ()), (15, ())])), (19, (SMNode.leaf [(19, ()), (20, ()), (21, ()), (22, ()), (23, ()), (24, ()), (25, ()), (26, ()), (27, ()), (28, ()), (29, ()), (30, ()), (31, ()), (32, ())]))])⟩ : SortedMap Nat Unit) 19 false =
      (⟨29, some (SMNode.branch [(0, (SMNode.leaf [(0, ()), (1, ()), (2, ()), (3, ()), (4, ()), (5, ()), (6, ()), (7, ()), (8, ()), (9, ()), (10, ()), (11, ()), (12, ()), (13, ()), (14, ()), (15, ())])), (20, (SMNode.leaf [(20, ()), (21, ()), (22, ()), (23, ()), (24, ()), (25, ()), (26, ()), (27, ()), (28, ()), (29, ()), (30, ()), (31, ()), (32, ())]))])⟩ : SortedMap Nat Unit) := rfl
  have r37 : Reachable (⟨29, some (SMNode.branch [(0, (SMNode.leaf [(0, ()), (1, ()), (2, ()), (3, ()), (4, ()), (5, ()), (6, ()), (7, ()), (8, ()), (9, ()), (10, ()), (11, ()), (12, ()), (13, ()), (14, ()), (15, ())])), (20, (SMNode.leaf [(20, ()), (21, ()), (22, ()), (23, ()), (24, ()), (25, ()), (26, ()), (27, ()), (28, ()), (29, ()), (30, ()), (31, ()), (32, ())]))])⟩ : SortedMap Nat Unit) :=
    h36 ▸ Reachable.delR 19 false r36
  have h37 : SortedMap.delete defaultCompare (⟨29, some (SMNode.branch [(0, (SMNode.leaf [(0, ()), (1, ()), (2, ()), (3, ()), (4, ()), (5, ()), (6, ()), (7, ()), (8, ()), (9, ()), (10, ()), (11, ()), (12, ()), (13, ()), (14, ()), (15, ())])), (20, (SMNode.leaf [(20, ()), (21, ()), (22, ()), (23, ()), (24, ()), (25, ()), (26, ()), (27, ()), (28, ()), (29, ()), (30, ()), (31, ()), (32, ())]))])⟩ : SortedMap Nat Unit) 20 false =
      (⟨28, some (SMNode.branch [(0, (SMNode.leaf [(0, ()), (1, ()), (2, ()), (3, ()), (4, ()), (5, ()), (6, ()), (7, ()), (8, ()), (9, ()), (10, ()), (11, ()), (12, ()), (13, ()), (14, ()), (15, ())])), (21, (SMNode.leaf [(21, ()), (22, ()), (23, ()), (24, ()), (25, ()), (26, ()), (27, ()), (28, ()), (29, ()), (30, ()), (31, ()), (32, ())]))])⟩ : SortedMap Nat Unit) := rfl
  have r38 : Reachable (⟨28, some (SMNode.branch [(0, (SMNode.leaf [(0, ()), (1, ()), (2, ()), (3, ()), (4, ()), (5, ()), (6, ()), (7, ()), (8, ()), (9, ()), (10, ()), (11, ()), (12, ()), (13, ()), (14, ()), (15, ())])), (21, (SMNode.leaf [(21, ()), (22, ()), (23, ()), (24, ()), (25, ()), (26, ()), (27, ()), (28, ()), (29, ()), (30, ()), (31, ()), (32, ())]))])⟩ : SortedMap Nat Unit) :=
    h37 ▸ Reachable.delR 20 false r37
  have h38 : SortedMap.delete defaultCompare (⟨28, some (SMNode.branch [(0, (SMNode.leaf [(0, ()), (1, ()), (2, ()), (3, ()), (4, ()), (5, ()), (6, ()), (7, ()), (8, ()), (9, ()), (10, ()), (11, ()), (12, ()), (13, ()), (14, ()), (15, ())])), (21, (SMNode.leaf [(21, ()), (22, ()), (23, ()), (24, ()), (25, ()), (26, ()), (27, ()), (28, ()), (29, ()), (30, ()), (31, ()), (32, ())]))])⟩ : SortedMap Nat Unit) 21 false =
      (⟨27, some (SMNode.branch [(0, (SMNode.leaf [(0, ()), (1, ()), (2, ()), (3, ()), (4, ()), (5, ()), (6, ()), (7, ()), (8, ()), (9, ()), (10, ()), (11, ()), (12, ()), (13, ()), (14, ()), (15, ())])), (22, (SMNode.leaf [(22, ()), (23, ()), (24, ()), (25, ()), (26, ()), (27, ()), (28, ()), (29, ()), (30, ()), (31, ()), (32, ())]))])⟩ : SortedMap Nat Unit) := rfl
  have r39 : Reachable (⟨27, some (SMNode.branch [(0, (SMNode.leaf [(0, ()), (1, ()), (2, ()), (3, ()), (4, ()), (5, ()), (6, ()), (7, ()), (8, ()), (9, ()), (10, ()), (11, ()), (12, ()), (13, ()), (14, ()), (15, ())])), (22, (SMNode.leaf [(22, ()), (23, ()), (24, ()), (25, ()), (26, ()), (27, ()), (28, ()), (29, ()), (30, ()), (31, ()), (32, ())]))])⟩ : SortedMap Nat Unit) :=
    h38 ▸ Reachable.delR 21 false r38
  have h39 : SortedMap.delete defaultCompare (⟨27, some (SMNode.branch [(0, (SMNode.leaf [(0, ()), (1, ()), (2, ()), (3, ()), (4, ()), (5, ()), (6, ()), (7, ()), (8, ()), (9, ()), (10, ()), (11, ()), (12, ()), (13, ()), (14, ()), (15, ())])), (22, (SMNode.leaf [(22, ()), (23, ()), (24, ()), (25, ()), (26, ()), (27, ()), (28, ()), (29, ()), (30, ()), (31, ()), (32, ())]))])⟩ : SortedMap Nat Unit) 22 false =
      (⟨26, some (SMNode.branch [(0, (SMNode.leaf [(0, ()), (1, ()), (2, ()), (3, ()), (4, ()), (5, ()), (6, ()), (7, ()), (8, ()), (9, ()), (10, ()), (11, ()), (12, ()), (13, ()), (14, ()), (15, ())])), (23, (SMNode.leaf [(23, ()), (24, ()), (25, ()), (26, ()), (27, ()), (28, ()), (29, ()), (30, ()), (31, ()), (32, ())]))])⟩ : SortedMap Nat Unit) := rfl
  have r40 : Reachable (⟨26, some (SMNode.branch [(0, (SMNode.leaf [(0, ()), (1, ()), (2, ()), (3, ()), (4, ()), (5, ()), (6, ()), (7, ()), (8, ()), (9, ()), (10, ()), (11, ()), (12, ()), (13, ()), (14, ()), (15, ())])), (23, (SMNode.leaf [(23, ()), (24, ()), (25, ()), (26, ()), (27, ()), (28, ()), (29, ()), (30, ()), (31, ()), (32, ())]))])⟩ : SortedMap Nat Unit) :=
    h39 ▸ Reachable.delR 22 false r39
  have h40 : SortedMap.delete defaultCompare (⟨26, some (SMNode.branch [(0, (SMNode.leaf [(0, ()), (1, ()), (2, ()), (3, ()), (4, ()), (5, ()), (6, ()), (7, ()), (8, ()), (9, ()), (10, ()), (11, ()), (12, ()), (13, ()), (14, ()), (15, ())])), (23, (SMNode.leaf [(23, ()), (24, ()), (25, ()), (26, ()), (27, ()), (28, ()), (29, ()), (30, ()), (31, ()), (32, ())]))])⟩ : SortedMap Nat Unit) 23 false =
      (⟨25, some (SMNode.branch [(0, (SMNode.leaf [(0, ()), (1, ()), (2, ()), (3, ()), (4, ()), (5, ()), (6, ()), (7, ()), (8, ()), (9, ()), (10, ()), (11, ()), (12, ()), (13, ()), (14, ()), (15, ())])), (24, (SMNode.leaf [(24, ()), (25, ()), (26, ()), (27, ()), (28, ()), (29, ()), (30, ()), (31, ()), (32, ())]))])⟩ : SortedMap Nat Unit) := rfl
  have r41 : Reachable (⟨25, some (SMNode.branch [(0, (SMNode.leaf [(0, ()), (1, ()), (2, ()), (3, ()), (4, ()), (5, ()), (6, ()), (7, ()), (8, ()), (9, ()), (10, ()), (11, ()), (12, ()), (13, ()), (14, ()), (15, ())])), (24, (SMNode.leaf [(24, ()), (25, ()), (26, ()), (27, ()), (28, ()), (29, ()), (30, ()), (31, ()), (32, ())]))])⟩ : SortedMap Nat Unit) :=
    h40 ▸ Reachable.delR 23 false r40
  have h41 : SortedMap.delete defaultCompare (⟨25, some (SMNode.branch [(0, (SMNode.leaf [(0, ()), (1, ()), (2, ()), (3, ()), (4, ()), (5, ()), (6, ()), (7, ()), (8, ()), (9, ()), (10, ()), (11, ()), (12, ()), (13, ()), (14, ()), (15, ())])), (24, (SMNode.leaf [(24, ()), (25, ()), (26, ()), (27, ()), (28, ()), (29, ()), (30, ()), (31, ()), (32, ())]))])⟩ : SortedMap Nat Unit) 24 false =
      (⟨24, some (SMNode.branch [(0, (SMNode.leaf [(0, ()), (1, ()), (2, ()), (3, ()), (4, ()), (5, ()), (6, ()), (7, ()), (8, ()), (9, ()), (10, ()), (11, ()), (12, ()), (13, ()), (14, ()), (15, ())])), (25, (SMNode.leaf [(25, ()), (26, ()), (27, ()), (28, ()), (29, ()), (30, ()), (31, ()), (32, ())]))])⟩ : SortedMap Nat Unit) := rfl
  have r42 : Reachable (⟨24, some (SMNode.branch [(0, (SMNode.leaf [(0, ()), (1, ()), (2, ()), (3, ()), (4, ()), (5, ()), (6, ()), (7, ()), (8, ()), (9, ()), (10, ()), (11, ()), (12, ()), (13, ()), (14, ()), (15, ())])), (25, (SMNode.leaf [(25, ()), (26, ()), (27, ()), (28, ()), (29, ()), (30, ()), (31, ()), (32, ())]))])⟩ : SortedMap Nat Unit) :=
    h41 ▸ Reachable.delR 24 false r41
  have h42 : SortedMap.delete defaultCompare (⟨24, some (SMNode.branch [(0, (SMNode.leaf [(0, ()), (1, ()), (2, ()), (3, ()), (4, ()), (5, ()), (6, ()), (7, ()), (8, ()), (9, ()), (10, ()), (11, ()), (12, ()), (13, ()), (14, ()), (15, ())])), (25, (SMNode.leaf [(25, ()), (26, ()), (27, ()), (28, ()), (29, ()), (30, ()), (31, ()), (32, ())]))])⟩ : SortedMap Nat Unit) 25 false =
      (⟨23, some (SMNode.branch [(0, (SMNode.leaf [(0, ()), (1, ()), (2, ()), (3, ()), (4, ()), (5, ()), (6, ()), (7, ()), (8, ()), (9, ()), (10, ()), (11, ()), (12, ()), (13, ()), (14, ()), (15, ())])), (26, (SMNode.leaf [(26, ()), (27, ()), (28, ()), (29, ()), (30, ()), (31, ()), (32, ())]))])⟩ : SortedMap Nat Unit) := rfl
  have r43 : Reachable (⟨23, some (SMNode.branch [(0, (SMNode.leaf [(0, ()), (1, ()), (2, ()), (3, ()), (4, ()), (5, ()), (6, ()), (7, ()), (8, ()), (9, ()), (10, ()), (11, ()), (12, ()), (13, ()), (14, ()), (15, ())])), (26, (SMNode.leaf [(26, ()), (27, ()), (28, ()), (29, ()), (30, ()), (31, ()), (32, ())]))])⟩ : SortedMap Nat Unit) :=
    h42 ▸ Reachable.delR 25 false r42
  have h43 : SortedMap.delete defaultCompare (⟨23, some (SMNode.branch [(0, (SMNode.leaf [(0, ()), (1, ()), (2, ()), (3, ()), (4, ()), (5, ()), (6, ()), (7, ()), (8, ()), (9, ()), (10, ()), (11, ()), (12, ()), (13, ()), (14, ()), (15, ())])), (26, (SMNode.leaf [(26, ()), (27, ()), (28, ()), (29, ()), (30, ()), (31, ()), (32, ())]))])⟩ : SortedMap Nat Unit) 26 false =
      (⟨22, some (SMNode.branch [(0, (SMNode.leaf [(0, ()), (1, ()), (2, ()), (3, ()), (4, ()), (5, ()), (6, ()), (7, ()), (8, ()), (9, ()), (10, ()), (11, ()), (12, ()), (13, ()), (14, ()), (15, ())])), (27, (SMNode.leaf [(27, ()), (28, ()), (29, ()), (30, ()), (31, ()), (32, ())]))])⟩ : SortedMap Nat Unit) := rfl
  have r44 : Reachable (⟨22, some (SMNode.branch [(0, (SMNode.leaf [(0, ()), (1, ()), (2, ()), (3, ()), (4, ()), (5, ()), (6, ()), (7, ()), (8, ()), (9, ()), (10, ()), (11, ()), (12, ()), (13, ()), (14, ()), (15, ())])), (27, (SMNode.leaf [(27, ()), (28, ()), (29, ()), (30, ()), (31, ()), (32, ())]))])⟩ : SortedMap Nat Unit) :=
    h43 ▸ Reachable.delR 26 false r43
  have h44 : SortedMap.delete defaultCompare (⟨22, some (SMNode.branch [(0, (SMNode.leaf [(0, ()), (1, ()), (2, ()), (3, ()), (4, ()), (5, ()), (6, ()), (7, ()), (8, ()), (9, ()), (10, ()), (11, ()), (12, ()), (13, ()), (14, ()), (15, ())])), (27, (SMNode.leaf [(27, ()), (28, ()), (29, ()), (30, ()), (31, ()), (32, ())]))])⟩ : SortedMap Nat Unit) 27 false =
      (⟨21, some (SMNode.branch [(0, (SMNode.leaf [(0, ()), (1, ()), (2, ()), (3, ()), (4, ()), (5, ()), (6, ()), (7, ()), (8, ()), (9, ()), (10, ()), (11, ()), (12, ()), (13, ()), (14, ()), (15, ())])), (28, (SMNode.leaf [(28, ()), (29, ()), (30, ()), (31, ()), (32, ())]))])⟩ : SortedMap Nat Unit) := rfl
  have r45 : Reachable (⟨21, some (SMNode.branch [(0, (SMNode.leaf [(0, ()), (1, ()), (2, ()), (3, ()), (4, ()), (5, ()), (6, ()), (7, ()), (8, ()), (9, ()), (10, ()), (11, ()), (12, ()), (13, ()), (14, ()), (15, ())])), (28, (SMNode.leaf [(28, ()), (29, ()), (30, ()), (31, ()), (32, ())]))])⟩ : SortedMap Nat Unit) :=
    h44 ▸ Reachable.delR 27 false r44
  have h45 : SortedMap.delete defaultCompare (⟨21, some (SMNode.branch [(0, (SMNode.leaf [(0, ()), (1, ()), (2, ()), (3, ()), (4, ()), (5, ()), (6, ()), (7, ()), (8, ()), (9, ()), (10, ()), (11, ()), (12, ()), (13, ()), (14, ()), (15, ())])), (28, (SMNode.leaf [(28, ()), (29, ()), (30, ()), (31, ()), (32, ())]))])⟩ : SortedMap Nat Unit) 28 false =
      (⟨20, some (SMNode.branch [(0, (SMNode.leaf [(0, ()), (1, ()), (2, ()), (3, ()), (4, ()), (5, ()), (6, ()), (7, ()), (8, ()), (9, ()), (10, ()), (11, ()), (12, ()), (13, ()), (14, ()), (15, ())])), (29, (SMNode.leaf [(29, ()), (30, ()), (31, ()), (32, ())]))])⟩ : SortedMap Nat Unit) := rfl
  have r46 : Reachable (⟨20, some (SMNode.branch [(0, (SMNode.leaf [(0, ()), (1, ()), (2, ()), (3, ()), (4, ()), (5, ()), (6, ()), (7, ()), (8, ()), (9, ()), (10, ()), (11, ()), (12, ()), (13, ()), (14, ()), (15, ())])), (29, (SMNode.leaf [(29, ()), (30, ()), (31, ()), (32, ())]))])⟩ : SortedMap Nat Unit) :=
    h45 ▸ Reachable.delR 28 false r45
  have h46 : SortedMap.delete defaultCompare (⟨20, some (SMNode.branch [(0, (SMNode.leaf [(0, ()), (1, ()), (2, ()), (3, ()), (4, ()), (5, ()), (6, ()), (7, ()), (8, ()), (9, ()), (10, ()), (11, ()), (12, ()), (13, ()), (14, ()), (15, ())])), (29, (SMNode.leaf [(29, ()), (30, ()), (31, ()), (32, ())]))])⟩ : SortedMap Nat Unit) 29 false =
      (⟨19, some (SMNode.branch [(0, (SMNode.leaf [(0, ()), (1, ()), (2, ()), (3, ()), (4, ()), (5, ()), (6, ()), (7, ()), (8, ()), (9, ()), (10, ()), (11, ()), (12, ()), (13, ()), (14, ()), (15, ())])), (30, (SMNode.leaf [(30, ()), (31, ()), (32, ())]))])⟩ : SortedMap Nat Unit) := rfl
  have r47 : Reachable (⟨19, some (SMNode.branch [(0, (SMNode.leaf [(0, ()), (1, ()), (2, ()), (3, ()), (4, ()), (5, ()), (6, ()), (7, ()), (8, ()), (9, ()), (10, ()), (11, ()), (12, ()), (13, ()), (14, ()), (15, ())])), (30, (SMNode.leaf [(30, ()), (31, ()), (32, ())]))])⟩ : SortedMap Nat Unit) :=
    h46 ▸ Reachable.delR 29 false r46
  have h47 : SortedMap.delete defaultCompare (⟨19, some (SMNode.branch [(0, (SMNode.leaf [(0, ()), (1, ()), (2, ()), (3, ()), (4, ()), (5, ()), (6, ()), (7, ()), (8, ()), (9, ()), (10, ()), (11, ()), (12, ()), (13, ()), (14, ()), (15, ())])), (30, (SMNode.leaf [(30, ()), (31, ()), (32, ())]))])⟩ : SortedMap Nat Unit) 30 false =
      (⟨18, some (SMNode.branch [(0, (SMNode.leaf [(0, ()), (1, ()), (2, ()), (3, ()), (4, ()), (5, ()), (6, ()), (7, ()), (8, ()), (9, ()), (10, ()), (11, ()), (12, ()), (13, ()), (14, ()), (15, ())])), (31, (SMNode.leaf [(31, ()), (32, ())]))])⟩ : SortedMap Nat Unit) := rfl
  have r48 : Reachable (⟨18, some (SMNode.branch [(0, (SMNode.leaf [(0, ()), (1, ()), (2, ()), (3, ()), (4, ()), (5, ()), (6, ()), (7, ()), (8, ()), (9, ()), (10, ()), (11, ()), (12, ()), (13, ()), (14, ()), (15, ())])), (31, (SMNode.leaf [(31, ()), (32, ())]))])⟩ : SortedMap Nat Unit) :=
    h47 ▸ Reachable.delR 30 false r47
  have h48 : SortedMap.delete defaultCompare (⟨18, some (SMNode.branch [(0, (SMNode.leaf [(0, ()), (1, ()), (2, ()), (3, ()), (4, ()), (5, ()), (6, ()), (7, ()), (8, ()), (9, ()), (10, ()), (11, ()), (12, ()), (13, ()), (14, ()), (15, ())])), (31, (SMNode.leaf [(31, ()), (32, ())]))])⟩ : SortedMap Nat Unit) 31 false =
      (⟨17, some (SMNode.branch [(0, (SMNode.leaf [(0, ()), (1, ()), (2, ()), (3, ()), (4, ()), (5, ()), (6, ()), (7, ()), (8, ()), (9, ()), (10, ()), (11, ()), (12, ()), (13, ()), (14, ()), (15, ())])), (32, (SMNode.leaf [(32, ())]))])⟩ : SortedMap Nat Unit) := rfl
  have r49 : Reachable (⟨17, some (SMNode.branch [(0, (SMNode.leaf [(0, ()), (1, ()), (2, ()), (3, ()), (4, ()), (5, ()), (6, ()), (7, ()), (8, ()), (9, ()), (10, ()), (11, ()), (12, ()), (13, ()), (14, ()), (15, ())])), (32, (SMNode.leaf [(32, ())]))])⟩ : SortedMap Nat Unit) :=
    h48 ▸ Reachable.delR 31 false r48

  exact ⟨r49, rfl, rfl⟩


/-- C1 (persistence violated by SortedSet.Set, sets.go 107-115): with the key
sequence of TestSortedSets_Set (sets_test.go 53-86, keys "0","1","2" modeled
as 0,1,2), the set s2 built by three Set calls has Len 2 and does not contain
2; after s2.Set(2) returns — a call that must leave s2 unchanged — the
original s2 answers Has(2) = true and its iterator emits three entries, while
Len still reports 2: the clone (sets.go 109) copies only the struct, and the
transient leaf update (ordered_map.go 391-397) mutates the leaf node the
original still points to. -/
theorem c1_counterexample :
    (SortedSet.SetV defaultCompare (SortedSet.SetV defaultCompare
      (SortedSet.SetV defaultCompare (NewSortedSet Nat) 1) 1) 0).Len = 2 ∧
    (SortedSet.SetV defaultCompare (SortedSet.SetV defaultCompare
      (SortedSet.SetV defaultCompare (NewSortedSet Nat) 1) 1) 0).Has
      defaultCompare 2 = false ∧
    ((SortedSet.SetV defaultCompare (SortedSet.SetV defaultCompare
      (SortedSet.SetV defaultCompare (NewSortedSet Nat) 1) 1) 0).origAfterSet
      defaultCompare 2).Has defaultCompare 2 = true ∧
    ((SortedSet.SetV defaultCompare (SortedSet.SetV defaultCompare
      (SortedSet.SetV defaultCompare (NewSortedSet Nat) 1) 1) 0).origAfterSet
      defaultCompare 2).Len = 2 ∧
    emitNext 10 ((SortedSet.SetV defaultCompare (SortedSet.SetV defaultCompare
      (SortedSet.SetV defaultCompare (NewSortedSet Nat) 1) 1) 0).origAfterSet
      defaultCompare 2).m.First = [(0, ()), (1, ()), (2, ())] :=
  ⟨rfl, rfl, rfl, rfl, rfl⟩


/-- C6: for every finite sequence of Set/Delete operations, running them
through a fresh SortedMapBuilder (the transient, in-place code path, 169-179)
and publishing with Map() succeeds and yields the VERY map value that the
persistent operations (51-54, 94-98) build from the empty map — hence the same
Len, the same Get result for every key and the same iteration sequences. -/
theorem c6_builder_equivalence {K V : Type} [LinearOrder K] [Inhabited K]
    (ops : List (MapOp K V)) :
    runBuilder defaultCompare ops = Except.ok (applyOps defaultCompare ops) := by
  unfold runBuilder applyOps
  have hb : (Except.ok (NewSortedMapBuilder K V) :
      Except String (SortedMapBuilder K V)) =
      Except.ok ({ m := some (NewSortedMap K V) } : SortedMapBuilder K V) := rfl
  rw [hb, builderFold_ok ops (NewSortedMap K V)]
  rfl


/-- C3: on every well-formed sorted map, forward iteration (First then Next
until done; 481-490, 516-558) emits exactly the entry sequence, whose keys are
strictly increasing under the default comparer, and reverse iteration (Last
then Prev until done; 492-501, 560-599) emits exactly its reverse, whose keys
are strictly decreasing. -/
theorem c3_sorted_iteration {K V : Type} [LinearOrder K] [Inhabited K]
    (m : SortedMap K V) (hwf : m.WFB = true) (fuel : Nat)
    (hf : (rootToList m.root).length ≤ fuel) :
    emitNext fuel m.First = rootToList m.root ∧
    (emitNext fuel m.First).Pairwise (fun a b => a.1 < b.1) ∧
    emitPrev fuel m.Last = (rootToList m.root).reverse ∧
    (emitPrev fuel m.Last).Pairwise (fun a b => b.1 < a.1) := by
  obtain ⟨hF1, hF2⟩ := First_spec m hwf
  obtain ⟨hL1, hL2⟩ := Last_spec m hwf
  have hfor := emitNext_restOf fuel m.First hF2 (by rw [hF1]; exact hf)
  have hback := emitPrev_doneOf fuel m.Last hL2 (by rw [hL1]; exact hf)
  have hsorted := WFB_sorted m hwf
  refine ⟨hfor.trans hF1, ?_, ?_, ?_⟩
  · rw [hfor.trans hF1]
    exact hsorted
  · rw [hback, hL1]
  · rw [hback, hL1]
    exact List.pairwise_reverse.mpr hsorted

/-- C3 witness: forward iteration at a concrete two-entry map. -/
theorem c3_sorted_iteration_witness :
    ((((NewSortedMap Nat Nat).SetP defaultCompare 2 20).SetP defaultCompare 1
      10).WFB = true) ∧
    ((rootToList (((NewSortedMap Nat Nat).SetP defaultCompare 2 20).SetP
      defaultCompare 1 10).root).length ≤ 10) ∧
    emitNext 10 (((NewSortedMap Nat Nat).SetP defaultCompare 2 20).SetP
      defaultCompare 1 10).First = [(1, 10), (2, 20)] := by
  refine ⟨rfl, by decide, ?_⟩
  exact ((c3_sorted_iteration (((NewSortedMap Nat Nat).SetP defaultCompare 2
    20).SetP defaultCompare 1 10) (by rfl) 10 (by decide)).1).trans rfl

/-- C7: on every well-formed sorted map, Seek(key) (503-514, 636-654)
positions the iterator exactly at the suffix of entries with keys at or above
the key: the remaining sequence is that suffix, the following Next returns its
head, that head is the least key at or above the sought key, and the iterator
is done exactly when the map holds no key at or above it. -/
theorem c7_seek_semantics {K V : Type} [LinearOrder K] [Inhabited K]
    (m : SortedMap K V) (key : K) (hwf : m.WFB = true) :
    restOf (m.Seek defaultCompare key) = geSuf key (rootToList m.root) ∧
    (m.Seek defaultCompare key).Next.1 =
      (geSuf key (rootToList m.root)).head? ∧
    (∀ e, (geSuf key (rootToList m.root)).head? = some e → key ≤ e.1) ∧
    (∀ x ∈ rootToList m.root, key ≤ x.1 →
      ∃ e, (geSuf key (rootToList m.root)).head? = some e ∧ e.1 ≤ x.1) ∧
    ((m.Seek defaultCompare key).Done = true ↔
      geSuf key (rootToList m.root) = []) := by
  obtain ⟨hS1, hS2⟩ := Seek_spec m key hwf
  have hsorted := WFB_sorted m hwf
  refine ⟨hS1, ?_, ?_, ?_, ?_, ?_⟩
  · rw [(Next_spec _ hS2).1, hS1]
  · intro e hhead
    exact geSuf_head_ge _ key e hhead
  · intro x hx hge
    have hmemg : x ∈ geSuf key (rootToList m.root) := by
      have hsplit := ltPre_append_geSuf key (rootToList m.root)
      rw [← hsplit] at hx
      rcases List.mem_append.mp hx with h | h
      · exact absurd (ltPre_mem key _ x h) (not_lt_of_ge hge)
      · exact h
    cases hg : geSuf key (rootToList m.root) with
    | nil =>
      rw [hg] at hmemg
      cases hmemg
    | cons f t =>
      refine ⟨f, by rw [List.head?_cons], ?_⟩
      have hsg : (f :: t).Pairwise fun a b => a.1 < b.1 := by
        rw [← hg]
        exact List.Pairwise.sublist (List.dropWhile_sublist _) hsorted
      rw [hg] at hmemg
      rcases List.mem_cons.mp hmemg with h | h
      · rw [h]
      · exact le_of_lt ((List.pairwise_cons.mp hsg).1 x h)
  · intro hd
    cases hst : m.Seek defaultCompare key with
    | nil =>
      rw [← hS1, hst]
      rfl
    | cons f t =>
      rw [hst, ItStack.Done] at hd
      simp at hd
  · intro hg
    by_contra hnd
    have hne : m.Seek defaultCompare key ≠ [] := by
      intro hc
      apply hnd
      rw [ItStack.Done, hc]
      rfl
    exact restOf_ne_nil _ hS2 hne (hS1.trans hg)

/-- C7 witness: seeking key 2 in a concrete two-entry map lands on (2, 20). -/
theorem c7_seek_semantics_witness :
    ((((NewSortedMap Nat Nat).SetP defaultCompare 2 20).SetP defaultCompare 1
      10).WFB = true) ∧
    ((((NewSortedMap Nat Nat).SetP defaultCompare 2 20).SetP defaultCompare 1
      10).Seek defaultCompare 2).Next.1 = some (2, 20) := by
  refine ⟨rfl, ?_⟩
  exact ((c7_seek_semantics (((NewSortedMap Nat Nat).SetP defaultCompare 2
    20).SetP defaultCompare 1 10) 2 (by rfl)).2.1).trans rfl


/-- C8 (amended): the delete path never collapses a branch to its child: a
delete on a branch node (299-346) returns `nil` only when the branch held
exactly one element (318-320), and whenever it returns a node, that node is
itself a branch — so a root branch left with a single child element stays a
single-child branch. -/
theorem c8_no_root_collapse {K V : Type} [LinearOrder K] [Inhabited K]
    (key : K) (elems : List (K × SMNode K V)) :
    ((SMNode.delete defaultCompare key false
        (SMNode.branch elems : SMNode K V)).1 = none → elems.length = 1) ∧
    (∀ s, (SMNode.delete defaultCompare key false
        (SMNode.branch elems : SMNode K V)).1 = some s →
      ∃ elems2, s = SMNode.branch elems2) := by
  constructor
  · intro h
    rw [SMNode.delete.eq_def] at h
    simp only [] at h
    split at h
    · simp at h
    · split at h
      · split at h
        · rename_i hlen
          simpa using hlen
        · split at h <;> simp at h
      · split at h <;> simp at h
  · intro s h
    rw [SMNode.delete.eq_def] at h
    simp only [] at h
    split at h
    · simp at h
      exact ⟨elems, h.symm⟩
    · split at h
      · split at h
        · simp at h
        · split at h <;> (simp at h; exact ⟨_, h.symm⟩)
      · split at h <;> (simp at h; exact ⟨_, h.symm⟩)

end Immutable
